import Mathlib

/-!
Job-control shell (`shell.c`): process table, admission scheduler, commands.

A shallow embedding of `src/shell.c`.

* The global array `process_records[MAX_PROCESSES]` is a function from
  `Fin MAX_PROCESSES` to records; the global `running_count` is an integer
  field of the state.
* C strings are Lean strings, one character per byte; a nullable `char*`
  is an `Option String`.
* A helper returning an index or `-1` returns `Option (Fin MAX_PROCESSES)`,
  with `none` standing for `-1`.
* System calls (`kill`, `waitpid`, `fork`, `time`) are recorded in the state,
  most recent first.  Their return values come from an environment `Env`
  that is indexed by the number of system calls made so far, so that
  quantifying over environments quantifies over every sequence of outcomes.
* `schedule_processes` contains a `while` loop with no syntactic bound, so it
  takes a fuel argument and returns `none` when the fuel runs out; every
  operation that calls it is fallible in the same way.
* `running_count`, `priority_num`, `pid` and `arrival_time` are mathematical
  integers.  The value of `atoi` is wrapped to 32 bits explicitly; the counter
  stays between 0 and `MAX_RUNNING` in every reachable state, and on an
  arbitrary table its increment and decrement are taken without overflow.
* The line a command prints when it returns is its `Outcome`; the debugging
  lines of the scheduler and the reaper are not modelled.  `malloc` is taken
  to succeed.
* An input line is the string `fgets` reads (without a NUL character); a
  `strcmp` on the null pointer is undefined behaviour and ends the model of
  the loop iteration with `LoopResult.undefined`.
* A blocking `waitpid` on a child that the shell has suspended and not
  continued never returns (`suspended` reads this off the log of system
  calls); on any other child it is taken to return.
-/

namespace Shell

/-! ## Types -/

/-- The enum `process_status`. -/
inductive process_status where
  | RUNNING
  | READY
  | STOPPED
  | TERMINATED
deriving DecidableEq

open process_status

/-- The struct `process_record`. -/
structure process_record where
  pid : Int
  status : process_status
  command : Option String
  priority_num : Int
  priority_str : Option String
  arrival_time : Int
deriving DecidableEq

/-- Capacity of the table. -/
abbrev MAX_PROCESSES : Nat := 20

/-- Run budget. -/
def MAX_RUNNING : Int := 3

/-- The constant `INT_MAX` of `limits.h` for a 32-bit `int`. -/
def INT_MAX : Int := 2147483647

/-- The array `process_records`. -/
abbrev Table := Fin MAX_PROCESSES → process_record

/-- The three signals the shell sends. -/
inductive Signal where
  | SIGSTOP
  | SIGCONT
  | SIGTERM
deriving DecidableEq

/-- A system call made by the shell, with its arguments. -/
inductive SysCall where
  | kill (pid : Int) (sig : Signal)
  | waitpid (pid : Int) (nohang : Bool)
  | fork
  | time
deriving DecidableEq

/-- Return values of the system calls: the field for the call that is made
when `n` calls have been made before gives its return value. -/
structure Env where
  kill_ret : Nat → Int
  waitpid_ret : Nat → Int
  fork_ret : Nat → Int
  time_ret : Nat → Int

/-- The globals of `shell.c` together with the record of system calls made
(most recent first). -/
structure State where
  process_records : Table
  running_count : Int
  calls : List SysCall

/-- Record one system call. -/
def State.sys (s : State) (c : SysCall) : State :=
  { s with calls := c :: s.calls }

/-- Store a record at a slot. -/
def State.set (s : State) (i : Fin MAX_PROCESSES) (r : process_record) : State :=
  { s with process_records := Function.update s.process_records i r }

/-- The line each command prints when it returns. -/
inductive Outcome where
  | ok
  | usage
  | priority_required
  | invalid_priority
  | no_slot
  | fork_failed
  | bad_pid
  | not_found
  | already_terminated
  | already_stopped
  | not_running
  | not_stopped
deriving DecidableEq

/-- The record every slot holds after the initialisation loop of `main`. -/
def empty_record : process_record :=
  { pid := 0, status := TERMINATED, command := none, priority_num := 0,
    priority_str := none, arrival_time := 0 }

/-- The state after the initialisation loop of `main`. -/
def init_state : State :=
  { process_records := fun _ => empty_record, running_count := 0, calls := [] }

/-! ## Helper functions -/

/-- Loop of `find_unused_slot` over the remaining indices. -/
def find_unused_slot_from (t : Table) :
    List (Fin MAX_PROCESSES) → Option (Fin MAX_PROCESSES)
  | [] => none
  | i :: rest => if (t i).pid = 0 then some i else find_unused_slot_from t rest

/-- The function `find_unused_slot`. -/
def find_unused_slot (t : Table) : Option (Fin MAX_PROCESSES) :=
  find_unused_slot_from t (List.finRange MAX_PROCESSES)

/-- Loop of `find_process_by_pid` over the remaining indices. -/
def find_process_by_pid_from (t : Table) (pid : Int) :
    List (Fin MAX_PROCESSES) → Option (Fin MAX_PROCESSES)
  | [] => none
  | i :: rest => if (t i).pid = pid then some i else find_process_by_pid_from t pid rest

/-- The function `find_process_by_pid`. -/
def find_process_by_pid (t : Table) (pid : Int) : Option (Fin MAX_PROCESSES) :=
  find_process_by_pid_from t pid (List.finRange MAX_PROCESSES)

/-- The C library predicate `isspace` in the C locale. -/
def isspace (c : Char) : Bool :=
  c.toNat = 32 || (9 ≤ c.toNat && c.toNat ≤ 13)

/-- Skip leading white space. -/
def skip_space : List Char → List Char
  | [] => []
  | c :: rest => if isspace c then skip_space rest else c :: rest

/-- Accumulate the leading decimal digits. -/
def digits_value : Nat → List Char → Nat
  | acc, [] => acc
  | acc, c :: rest =>
    if c.isDigit then digits_value (10 * acc + (c.toNat - 48)) rest else acc

/-- Conversion of a `long` to `int`: reduction modulo `2^32` into the signed
range. -/
def wrap32 (z : Int) : Int := (z + 2147483648) % 4294967296 - 2147483648

/-- Saturation of `strtol` at `LONG_MIN` and `LONG_MAX`. -/
def clamp_long (z : Int) : Int :=
  if z > 9223372036854775807 then 9223372036854775807
  else if z < -9223372036854775808 then -9223372036854775808
  else z

/-- The C library function `atoi`, as `(int) strtol(s, NULL, 10)`: leading
white space, an optional sign, then the longest run of decimal digits. -/
def atoi (s : List Char) : Int :=
  match skip_space s with
  | [] => 0
  | c :: rest =>
    if c = '-' then wrap32 (clamp_long (-(digits_value 0 rest : Int)))
    else if c = '+' then wrap32 (clamp_long (digits_value 0 rest))
    else wrap32 (clamp_long (digits_value 0 (c :: rest)))

/-- The function `parse_priority`. -/
def parse_priority : Option String → Int
  | none => -1
  | some priority_str =>
    if priority_str.length < 2 then -1
    else
      match priority_str.toList with
      | [] => -1
      | c :: rest =>
        if c ≠ 'P' then -1
        else
          let priority := atoi rest
          if priority ≤ 0 then -1 else priority

/-- The three local variables of `find_highest_priority_ready`. -/
structure Best where
  best_index : Option (Fin MAX_PROCESSES)
  best_priority : Int
  best_arrival : Int

/-- Loop of `find_highest_priority_ready` over the remaining indices. -/
def find_highest_priority_ready_from (t : Table) :
    List (Fin MAX_PROCESSES) → Best → Best
  | [], b => b
  | i :: rest, b =>
    if (t i).status = READY ∧ (t i).pid > 0 then
      if (t i).priority_num < b.best_priority ∨
          ((t i).priority_num = b.best_priority ∧ (t i).arrival_time < b.best_arrival) then
        find_highest_priority_ready_from t rest
          { best_index := some i, best_priority := (t i).priority_num,
            best_arrival := (t i).arrival_time }
      else find_highest_priority_ready_from t rest b
    else find_highest_priority_ready_from t rest b

/-- The function `find_highest_priority_ready`. -/
def find_highest_priority_ready (t : Table) : Option (Fin MAX_PROCESSES) :=
  (find_highest_priority_ready_from t (List.finRange MAX_PROCESSES)
    { best_index := none, best_priority := INT_MAX, best_arrival := 0 }).best_index

/-- The function `schedule_processes`; the first argument bounds the number
of iterations of its `while` loop. -/
def schedule_processes : Nat → Env → State → Option State
  | 0, _, _ => none
  | fuel + 1, env, s =>
    if s.running_count < MAX_RUNNING then
      match find_highest_priority_ready s.process_records with
      | none => some s
      | some ready_index =>
        let p := s.process_records ready_index
        let s1 := s.sys (SysCall.kill p.pid Signal.SIGCONT)
        if env.kill_ret s.calls.length = 0 then
          schedule_processes fuel env
            { s1.set ready_index { p with status := RUNNING } with
              running_count := s1.running_count + 1 }
        else schedule_processes fuel env s1
    else some s

/-- Loop of `check_completed_processes` over the remaining indices. -/
def check_completed_processes_from (fuel : Nat) (env : Env) :
    List (Fin MAX_PROCESSES) → State → Option State
  | [], s => some s
  | i :: rest, s =>
    let p := s.process_records i
    if p.status = RUNNING ∧ p.pid > 0 then
      let s1 := s.sys (SysCall.waitpid p.pid true)
      if env.waitpid_ret s.calls.length > 0 then
        match schedule_processes fuel env
            { s1.set i { p with command := none, priority_str := none, status := TERMINATED } with
              running_count := s1.running_count - 1 } with
        | none => none
        | some s2 => check_completed_processes_from fuel env rest s2
      else check_completed_processes_from fuel env rest s1
    else check_completed_processes_from fuel env rest s

/-- The function `check_completed_processes`. -/
def check_completed_processes (fuel : Nat) (env : Env) (s : State) : Option State :=
  check_completed_processes_from fuel env (List.finRange MAX_PROCESSES) s

/-! ## Command functions

The argument `args` is the NULL-terminated array the command receives, as a
list of tokens. -/

/-- The state `perform_run` hands to the scheduler once the fork has
succeeded: the record is filled in at the free slot, the child is suspended
and the record is marked `READY`. -/
def run_queued (env : Env) (args : List String) (s : State) (index : Fin MAX_PROCESSES) :
    State :=
  let pid := env.fork_ret s.calls.length
  let s1 := s.sys SysCall.fork
  let s2 := s1.sys SysCall.time
  let p1 : process_record :=
    { s2.process_records index with
      pid := pid, priority_num := parse_priority args.getLast?,
      arrival_time := env.time_ret s1.calls.length,
      priority_str := args.getLast?,
      command := some (" ".intercalate args.dropLast) }
  let s3 := (s2.set index p1).sys (SysCall.kill pid Signal.SIGSTOP)
  s3.set index { p1 with status := READY }

/-- The function `perform_run`.  When `fork` returns `0` the code is running
in the child, which replaces its image or exits and never returns to the
caller: the result is `none`. -/
def perform_run (fuel : Nat) (env : Env) (args : List String) (s : State) :
    Option (Outcome × State) :=
  match args with
  | [] => some (Outcome.usage, s)
  | _ :: _ =>
    if args.length < 2 then some (Outcome.priority_required, s)
    else
      let priority_str := args.getLast?
      let priority_num := parse_priority priority_str
      if priority_num = -1 then some (Outcome.invalid_priority, s)
      else
        match find_unused_slot s.process_records with
        | none => some (Outcome.no_slot, s)
        | some index =>
          let pid := env.fork_ret s.calls.length
          if pid < 0 then some (Outcome.fork_failed, s.sys SysCall.fork)
          else if pid = 0 then none
          else (schedule_processes fuel env (run_queued env args s index)).map
            (fun s5 => (Outcome.ok, s5))

/-- The function `perform_stop`. -/
def perform_stop (fuel : Nat) (env : Env) (args : List String) (s : State) :
    Option (Outcome × State) :=
  match args with
  | [] => some (Outcome.usage, s)
  | a :: _ =>
    let pid := atoi a.toList
    if pid ≤ 0 then some (Outcome.bad_pid, s)
    else
      match find_process_by_pid s.process_records pid with
      | none => some (Outcome.not_found, s)
      | some index =>
        let p := s.process_records index
        if p.status = TERMINATED then some (Outcome.already_terminated, s)
        else if p.status = STOPPED then some (Outcome.already_stopped, s)
        else if p.status ≠ RUNNING then some (Outcome.not_running, s)
        else
          let s1 := s.sys (SysCall.kill p.pid Signal.SIGSTOP)
          let s2 : State :=
            { s1.set index { p with status := STOPPED } with
              running_count := s1.running_count - 1 }
          (schedule_processes fuel env s2).map (fun s3 => (Outcome.ok, s3))

/-- The state `perform_kill` hands to the scheduler: signal sent, strings
released, counter decremented if the record was running, record terminated. -/
def kill_update (s : State) (index : Fin MAX_PROCESSES) : State :=
  let p := s.process_records index
  let s1 := s.sys (SysCall.kill p.pid Signal.SIGTERM)
  let p1 : process_record := { p with command := none, priority_str := none }
  let s2 := s1.set index p1
  let s3 : State :=
    if p1.status = RUNNING then { s2 with running_count := s2.running_count - 1 } else s2
  s3.set index { p1 with status := TERMINATED }

/-- The function `perform_kill`. -/
def perform_kill (fuel : Nat) (env : Env) (args : List String) (s : State) :
    Option (Outcome × State) :=
  match args with
  | [] => some (Outcome.usage, s)
  | a :: _ =>
    let pid := atoi a.toList
    if pid ≤ 0 then some (Outcome.bad_pid, s)
    else
      match find_process_by_pid s.process_records pid with
      | none => some (Outcome.not_found, s)
      | some index =>
        let p := s.process_records index
        if p.status = TERMINATED then some (Outcome.already_terminated, s)
        else (schedule_processes fuel env (kill_update s index)).map (fun s4 => (Outcome.ok, s4))

/-- The function `perform_resume`.  It makes no use of the value `kill`
returns and does not call the scheduler, so it needs neither an environment
nor fuel. -/
def perform_resume (args : List String) (s : State) : Outcome × State :=
  match args with
  | [] => (Outcome.usage, s)
  | a :: _ =>
    let pid := atoi a.toList
    if pid ≤ 0 then (Outcome.bad_pid, s)
    else
      match find_process_by_pid s.process_records pid with
      | none => (Outcome.not_found, s)
      | some index =>
        let p := s.process_records index
        if p.status = TERMINATED then (Outcome.already_terminated, s)
        else if p.status ≠ STOPPED then (Outcome.not_stopped, s)
        else if s.running_count < MAX_RUNNING then
          let s1 := s.sys (SysCall.kill p.pid Signal.SIGCONT)
          (Outcome.ok,
            { s1.set index { p with status := RUNNING } with
              running_count := s1.running_count + 1 })
        else (Outcome.ok, s.set index { p with status := READY })

/-! ## Reachable states -/

/-- States reachable from the initialised table by commands and reaper
passes that return, under the system-call outcomes of `env`. -/
inductive Reachable (env : Env) : State → Prop where
  | init : Reachable env init_state
  | run {s s' : State} {r : Outcome} (fuel : Nat) (args : List String) :
      Reachable env s → perform_run fuel env args s = some (r, s') → Reachable env s'
  | stop {s s' : State} {r : Outcome} (fuel : Nat) (args : List String) :
      Reachable env s → perform_stop fuel env args s = some (r, s') → Reachable env s'
  | kill {s s' : State} {r : Outcome} (fuel : Nat) (args : List String) :
      Reachable env s → perform_kill fuel env args s = some (r, s') → Reachable env s'
  | resume {s : State} (args : List String) :
      Reachable env s → Reachable env (perform_resume args s).2
  | reaper {s s' : State} (fuel : Nat) :
      Reachable env s → check_completed_processes fuel env s = some s' → Reachable env s'

/-- Number of records whose status is `RUNNING`. -/
def count_running (t : Table) : Nat :=
  (List.finRange MAX_PROCESSES).countP (fun i => (t i).status = RUNNING)

/-- Indicator of the status `RUNNING`. -/
def running_ind (r : process_record) : Nat := if r.status = RUNNING then 1 else 0

/-- The loop variables describe a ready record of the table (or none). -/
def BestOk (t : Table) (b : Best) : Prop :=
  ∀ j, b.best_index = some j →
    (t j).status = READY ∧ (t j).pid > 0 ∧
      (t j).priority_num = b.best_priority ∧ (t j).arrival_time = b.best_arrival

/-- The consistency conditions of the table: an unused slot is `TERMINATED`,
the counter equals the number of running records, and it is within the
budget. -/
structure Inv (s : State) : Prop where
  unused : ∀ i, (s.process_records i).pid = 0 → (s.process_records i).status = TERMINATED
  count : s.running_count = count_running s.process_records
  bound : s.running_count ≤ MAX_RUNNING

/-- Slot `i` holds the first record of the table whose pid is `pid`. -/
def first_with_pid (t : Table) (pid : Int) (i : Fin MAX_PROCESSES) : Prop :=
  (t i).pid = pid ∧ ∀ j, j < i → (t j).pid ≠ pid

/-! ## Concrete runs used as instances -/

/-- An environment in which every signal succeeds, no child has exited, the
`n`-th system call, if it is a `fork`, returns pid `100 + n`, and the clock
reads `1000 + n`. -/
def env_ok : Env :=
  { kill_ret := fun _ => 0, waitpid_ret := fun _ => 0,
    fork_ret := fun n => 100 + n, time_ret := fun n => 1000 + n }

/-- The state after the command `run` under `env_ok` (the state itself when
the command does not return). -/
def run_ok (args : List String) (s : State) : State :=
  match perform_run 30 env_ok args s with
  | some (_, s') => s'
  | none => s

/-- The state after `run prog P3`. -/
def demo1 : State := run_ok ["prog", "P3"] init_state

/-- The state after `run prog P3`, `run prog P1`. -/
def demo2 : State := run_ok ["prog", "P1"] demo1

/-- The state after `run prog P3`, `run prog P1`, `run prog P2`. -/
def demo3 : State := run_ok ["prog", "P2"] demo2

/-- The state after `run prog P3`, `run prog P1`, `run prog P2`,
`run prog P4`. -/
def demo4 : State := run_ok ["prog", "P4"] demo3

/-- The state after `run prog P2147483647` from the initialised table. -/
def demo_max : State := run_ok ["prog", "P2147483647"] init_state

/-- The test `p->status == READY && p->pid > 0` of
`find_highest_priority_ready`: the slot is allocated and its record is ready. -/
def is_ready (r : process_record) : Prop := r.status = READY ∧ r.pid > 0

instance (r : process_record) : Decidable (is_ready r) := by
  unfold is_ready; infer_instance

/-- Number of ready records. -/
def count_ready (t : Table) : Nat :=
  (List.finRange MAX_PROCESSES).countP (fun i => decide (is_ready (t i)))

/-- A table with two ready records (priorities `P5` in slot 0 and `P2` in
slot 1), two running records and one running slot free. -/
def demo_two_ready : State :=
  { process_records := fun i =>
      if i = 0 then
        { pid := 100, status := READY, command := some "a", priority_num := 5,
          priority_str := some "P5", arrival_time := 1000 }
      else if i = 1 then
        { pid := 101, status := READY, command := some "b", priority_num := 2,
          priority_str := some "P2", arrival_time := 1001 }
      else if i = 2 then
        { pid := 102, status := RUNNING, command := some "c", priority_num := 1,
          priority_str := some "P1", arrival_time := 1002 }
      else if i = 3 then
        { pid := 103, status := RUNNING, command := some "d", priority_num := 1,
          priority_str := some "P1", arrival_time := 1003 }
      else empty_record,
    running_count := 2,
    calls := [] }

/-- An environment like `env_ok` in which every signal fails. -/
def env_fail : Env := { env_ok with kill_ret := fun _ => -1 }

/-- An environment like `env_ok` in which the fourth system call, if it is a
signal, fails. -/
def env_retry : Env := { env_ok with kill_ret := fun n => if n = 3 then -1 else 0 }

/-- The state `perform_run` hands to the scheduler for `run prog P1` from
the initialised table: the child of pid 100 is suspended and its record in
slot 0 is `READY`. -/
def demo_one_ready : State :=
  { process_records := fun i =>
      if i = 0 then
        { pid := 100, status := READY, command := some "prog", priority_num := 1,
          priority_str := some "P1", arrival_time := 1001 }
      else empty_record,
    running_count := 0,
    calls := [SysCall.kill 100 Signal.SIGSTOP, SysCall.time, SysCall.fork] }

/-- States reachable from the initialised table, together with the number of
`run` commands that have succeeded on the way. -/
inductive RunsDone (env : Env) : Nat → State → Prop where
  | init : RunsDone env 0 init_state
  | run_ok {n : Nat} {s s' : State} (fuel : Nat) (args : List String) :
      RunsDone env n s → perform_run fuel env args s = some (Outcome.ok, s') →
      RunsDone env (n + 1) s'
  | run_failed {n : Nat} {s s' : State} {r : Outcome} (fuel : Nat) (args : List String) :
      RunsDone env n s → perform_run fuel env args s = some (r, s') → r ≠ Outcome.ok →
      RunsDone env n s'
  | stop {n : Nat} {s s' : State} {r : Outcome} (fuel : Nat) (args : List String) :
      RunsDone env n s → perform_stop fuel env args s = some (r, s') → RunsDone env n s'
  | kill {n : Nat} {s s' : State} {r : Outcome} (fuel : Nat) (args : List String) :
      RunsDone env n s → perform_kill fuel env args s = some (r, s') → RunsDone env n s'
  | resume {n : Nat} {s : State} (args : List String) :
      RunsDone env n s → RunsDone env n (perform_resume args s).2
  | reaper {n : Nat} {s s' : State} (fuel : Nat) :
      RunsDone env n s → check_completed_processes fuel env s = some s' → RunsDone env n s'

/-- Number of slots whose pid is not `0`. -/
def count_used (t : Table) : Nat :=
  (List.finRange MAX_PROCESSES).countP (fun i => decide ((t i).pid ≠ 0))

/-- The state after `k` commands `run prog P1` under `env_ok`. -/
def demo_runs : Nat → State
  | 0 => init_state
  | k + 1 => run_ok ["prog", "P1"] (demo_runs k)

/-- The state after `run prog P3`, `run prog P1`, `run prog P2`, `stop 100`
under `env_ok`: the record of pid 100 in slot 0 is `STOPPED`. -/
def demo_stopped : State :=
  match perform_stop 30 env_ok ["100"] demo3 with
  | some (_, s') => s'
  | none => demo3

/-- A record the selection loop can return: ready, and strictly below the
initial values `best_priority = INT_MAX`, `best_arrival = 0` of the loop. -/
def selectable (r : process_record) : Prop :=
  is_ready r ∧ (r.priority_num < INT_MAX ∨ (r.priority_num = INT_MAX ∧ r.arrival_time < 0))

/-- Work conservation: a running slot is free only if the selection loop has
nothing to return. -/
def work_conserving (s : State) : Prop :=
  s.running_count < MAX_RUNNING → ∀ i, ¬ selectable (s.process_records i)

/-- One command or reaper pass that returns, under the system-call outcomes
of `env`. -/
inductive Step (env : Env) : State → State → Prop where
  | run {s s' : State} {r : Outcome} (fuel : Nat) (args : List String) :
      perform_run fuel env args s = some (r, s') → Step env s s'
  | stop {s s' : State} {r : Outcome} (fuel : Nat) (args : List String) :
      perform_stop fuel env args s = some (r, s') → Step env s s'
  | kill {s s' : State} {r : Outcome} (fuel : Nat) (args : List String) :
      perform_kill fuel env args s = some (r, s') → Step env s s'
  | resume {s : State} (args : List String) : Step env s (perform_resume args s).2
  | reaper {s s' : State} (fuel : Nat) :
      check_completed_processes fuel env s = some s' → Step env s s'

/-- What the operations can do to the record of a slot between two states:
nothing; or, for a record of positive pid that is not `TERMINATED`, a change
of status that keeps pid, priority number and arrival time and either keeps
both strings (new status not `TERMINATED`) or nulls both (new status
`TERMINATED`). -/
def rec_evolves (r r' : process_record) : Prop :=
  r' = r ∨
  (r.pid > 0 ∧ r.status ≠ TERMINATED ∧ r'.pid = r.pid ∧
    r'.priority_num = r.priority_num ∧ r'.arrival_time = r.arrival_time ∧
    ((r'.status ≠ TERMINATED ∧ r'.command = r.command ∧ r'.priority_str = r.priority_str) ∨
      (r'.status = TERMINATED ∧ r'.command = none ∧ r'.priority_str = none)))

/-- Every record evolves and the log of system calls does not shrink. -/
def evolves (s s' : State) : Prop :=
  (∀ i, rec_evolves (s.process_records i) (s'.process_records i)) ∧
    s.calls.length ≤ s'.calls.length

/-- The strings of an allocated record are both set while it is not
`TERMINATED` and both null once it is. -/
def strings_ok (r : process_record) : Prop :=
  r.pid ≠ 0 →
    (r.status ≠ TERMINATED → r.command ≠ none ∧ r.priority_str ≠ none) ∧
    (r.status = TERMINATED → r.command = none ∧ r.priority_str = none)

/-- One command, reaper pass or scheduler invocation that returns. -/
def step_or_schedule (env : Env) (a b : State) : Prop :=
  Step env a b ∨ ∃ fuel, schedule_processes fuel env a = some b

/-- The state after `kill 104` in `demo3`: the record in slot 1 is
`TERMINATED`. -/
def demo_killed : State :=
  match perform_kill 30 env_ok ["104"] demo3 with
  | some (_, s') => s'
  | none => demo3

/-- The state after `run prog P9` in `demo_killed`. -/
def demo_killed_run : State := run_ok ["prog", "P9"] demo_killed

/-- The format `P[1-9][0-9]*` of the interface description: a `P`, a digit
from 1 to 9, then any number of digits. -/
def matches_priority_format (tok : String) : Bool :=
  match tok.toList with
  | 'P' :: d :: ds => (decide ('1' ≤ d) && decide (d ≤ '9')) && ds.all Char.isDigit
  | _ => false

/-! ## Listing, shutdown and the command loop -/

/-- The function `get_status_string`. -/
def get_status_string : process_status → String
  | RUNNING => "0"
  | READY => "1"
  | STOPPED => "2"
  | TERMINATED => "3"

/-- The function `perform_list`: the rows it prints (pid, status string,
priority string), one for each slot with a positive pid.  It changes
nothing. -/
def perform_list (s : State) : List (Int × String × Option String) :=
  (List.finRange MAX_PROCESSES).filterMap (fun i =>
    if (s.process_records i).pid > 0 then
      some ((s.process_records i).pid, get_status_string (s.process_records i).status,
        (s.process_records i).priority_str)
    else none)

/-- First loop of `perform_exit`: the terminate signals. -/
def perform_exit_signals : List (Fin MAX_PROCESSES) → State → State
  | [], s => s
  | i :: rest, s =>
    if (s.process_records i).pid > 0 ∧ (s.process_records i).status ≠ TERMINATED then
      perform_exit_signals rest
        (s.sys (SysCall.kill (s.process_records i).pid Signal.SIGTERM))
    else perform_exit_signals rest s

/-- Whether the child `pid` is suspended after the system calls of the log
(most recent first): the last stop or continue signal that was delivered to
it (a `kill` that returned 0) since it was forked was a stop.  The terminate
signal does not change this: sent to a suspended child it stays pending
until the child is continued.  A pid is taken to name one child. -/
def suspended (env : Env) : List SysCall → Int → Bool
  | [], _ => false
  | SysCall.kill p Signal.SIGSTOP :: cs, pid =>
    if p = pid ∧ env.kill_ret cs.length = 0 then true else suspended env cs pid
  | SysCall.kill p Signal.SIGCONT :: cs, pid =>
    if p = pid ∧ env.kill_ret cs.length = 0 then false else suspended env cs pid
  | SysCall.kill _ Signal.SIGTERM :: cs, pid => suspended env cs pid
  | SysCall.waitpid _ _ :: cs, pid => suspended env cs pid
  | SysCall.fork :: cs, pid =>
    if env.fork_ret cs.length = pid then false else suspended env cs pid
  | SysCall.time :: cs, pid => suspended env cs pid

/-- Second loop of `perform_exit`: the blocking waits (`waitpid` with options
`0`, recorded with `nohang = false`) and the release of the strings.  The
blocking wait on a suspended child never returns, since the child cannot act
on the pending terminate signal: the result is `none`.  A child that is not
suspended is taken to have exited or to exit on the terminate signal, so that
the wait on it returns. -/
def perform_exit_waits (env : Env) : List (Fin MAX_PROCESSES) → State → Option State
  | [], s => some s
  | i :: rest, s =>
    if (s.process_records i).pid > 0 then
      if suspended env s.calls (s.process_records i).pid then none
      else
        perform_exit_waits env rest
          ((s.sys (SysCall.waitpid (s.process_records i).pid false)).set i
            { s.process_records i with command := none, priority_str := none })
    else perform_exit_waits env rest s

/-- The function `perform_exit`; `none` when one of its blocking waits never
returns. -/
def perform_exit (env : Env) (s : State) : Option State :=
  perform_exit_waits env (List.finRange MAX_PROCESSES)
    (perform_exit_signals (List.finRange MAX_PROCESSES) s)

/-- The loop of `get_input` that cuts the buffer at the first carriage
return or line feed. -/
def cut_line : List Char → List Char
  | [] => []
  | c :: rest =>
    if c = Char.ofNat 13 ∨ c = Char.ofNat 10 then [] else c :: cut_line rest

/-- Successive calls of `strtok` with the delimiter `" "`: the maximal runs
of characters other than the space.  The first argument is the token being
read. -/
def strtok_all : List Char → List Char → List String
  | cur, [] => if cur = [] then [] else [String.mk cur]
  | cur, c :: rest =>
    if c = ' ' then
      if cur = [] then strtok_all [] rest else String.mk cur :: strtok_all [] rest
    else strtok_all (cur ++ [c]) rest

/-- The function `get_input` on one line of standard input: the array `args`
it fills, as a list; the pointer it returns is the head of the list, `NULL`
when the list is empty.  `fgets` keeps at most 78 characters of the line; a
space is appended; at most `args_count_max - 1` tokens are stored. -/
def get_input (line : String) (args_count_max : Nat) : List String :=
  (strtok_all [] (cut_line (line.toList.take 78) ++ [' '])).take (args_count_max - 1)

/-- What one iteration of the loop of `main` does after the reaper pass. -/
inductive LoopResult where
  | command (r : Outcome) (s : State)
  | listed (rows : List (Int × String × Option String)) (s : State)
  | invalid_command (s : State)
  | exited (s : State)
  | undefined

/-- One iteration of the `while` loop of `main` on one input line: reaper
pass, `get_input`, dispatch on the command token.  When `get_input` returns
`NULL`, `strcmp` reads through a null pointer: the behaviour is undefined,
and the result is `LoopResult.undefined`. -/
def main_iteration (fuel : Nat) (env : Env) (line : String) (s : State) :
    Option LoopResult :=
  match check_completed_processes fuel env s with
  | none => none
  | some s1 =>
    match get_input line 20 with
    | [] => some LoopResult.undefined
    | cmd :: args =>
      if cmd = "kill" then
        (perform_kill fuel env args s1).map (fun x => LoopResult.command x.1 x.2)
      else if cmd = "run" then
        (perform_run fuel env args s1).map (fun x => LoopResult.command x.1 x.2)
      else if cmd = "stop" then
        (perform_stop fuel env args s1).map (fun x => LoopResult.command x.1 x.2)
      else if cmd = "resume" then
        some (LoopResult.command (perform_resume args s1).1 (perform_resume args s1).2)
      else if cmd = "list" then some (LoopResult.listed (perform_list s1) s1)
      else if cmd = "exit" then (perform_exit env s1).map LoopResult.exited
      else some (LoopResult.invalid_command s1)

/-- The order conditions of the table under the clock of `env`: the used
slots form a prefix, arrival times do not decrease along the used slots, and
no used slot has an arrival time after the next reading of the clock. -/
structure Ordered (env : Env) (s : State) : Prop where
  used_prefix : ∀ i j : Fin MAX_PROCESSES, i < j →
    (s.process_records j).pid ≠ 0 → (s.process_records i).pid ≠ 0
  arrival : ∀ i j : Fin MAX_PROCESSES, i ≤ j → (s.process_records j).pid ≠ 0 →
    (s.process_records i).arrival_time ≤ (s.process_records j).arrival_time
  clock : ∀ i : Fin MAX_PROCESSES, (s.process_records i).pid ≠ 0 →
    (s.process_records i).arrival_time ≤ env.time_ret s.calls.length

/-- An environment like `env_ok` whose clock stays within one second. -/
def env_same_second : Env := { env_ok with time_ret := fun _ => 1000 }

/-- The state after `run a P2147483647` under `env_same_second`. -/
def demo_tie1 : State :=
  match perform_run 30 env_same_second ["a", "P2147483647"] init_state with
  | some (_, s') => s'
  | none => init_state

/-- The state after `run a P2147483647`, `run b P2147483647` under
`env_same_second`. -/
def demo_tie2 : State :=
  match perform_run 30 env_same_second ["b", "P2147483647"] demo_tie1 with
  | some (_, s') => s'
  | none => demo_tie1

/-- The number a run of decimal digits spells. -/
def decimal_value (digits : List Char) : Nat :=
  digits.foldl (fun n c => 10 * n + (c.toNat - 48)) 0

/-! ## Basic facts about the state -/

@[simp] theorem sys_process_records (s : State) (c : SysCall) :
    (s.sys c).process_records = s.process_records := rfl

@[simp] theorem sys_running_count (s : State) (c : SysCall) :
    (s.sys c).running_count = s.running_count := rfl

@[simp] theorem sys_calls (s : State) (c : SysCall) :
    (s.sys c).calls = c :: s.calls := rfl

@[simp] theorem set_process_records (s : State) (i : Fin MAX_PROCESSES) (r : process_record) :
    (s.set i r).process_records = Function.update s.process_records i r := rfl

@[simp] theorem set_running_count (s : State) (i : Fin MAX_PROCESSES) (r : process_record) :
    (s.set i r).running_count = s.running_count := rfl

@[simp] theorem set_calls (s : State) (i : Fin MAX_PROCESSES) (r : process_record) :
    (s.set i r).calls = s.calls := rfl

/-- Storing a record changes the number of slots that satisfy a test by the
difference of the test on the old and on the new record. -/
theorem countP_update_pred (P : process_record → Bool) (t : Table) (i : Fin MAX_PROCESSES)
    (r : process_record) :
    ∀ l : List (Fin MAX_PROCESSES), l.Nodup →
      l.countP (fun j => P (Function.update t i r j))
          + (if i ∈ l then (if P (t i) then 1 else 0) else 0)
        = l.countP (fun j => P (t j))
          + (if i ∈ l then (if P r then 1 else 0) else 0) := by
  intro l
  induction l with
  | nil => intro _; simp
  | cons a l ih =>
    intro hnd
    have hnd' := List.nodup_cons.mp hnd
    have ih' := ih hnd'.2
    by_cases ha : a = i
    · subst ha
      have hnot : a ∉ l := hnd'.1
      simp only [hnot, if_false, add_zero] at ih'
      simp only [List.countP_cons, Function.update_same, List.mem_cons, true_or, if_true, ih']
      split <;> split <;> simp_all
    · have hne : i ≠ a := fun h => ha h.symm
      simp only [List.countP_cons, Function.update_noteq ha, List.mem_cons, hne, false_or]
      omega

/-- Storing a record changes the number of running records by the difference
of the indicators. -/
theorem count_running_update (t : Table) (i : Fin MAX_PROCESSES) (r : process_record) :
    count_running (Function.update t i r) + running_ind (t i)
      = count_running t + running_ind r := by
  have h := countP_update_pred (fun x => decide (x.status = RUNNING)) t i r
    (List.finRange MAX_PROCESSES) (List.nodup_finRange _)
  simpa [count_running, running_ind] using h

/-! ## The selection loop -/

theorem fh_from_ok (t : Table) :
    ∀ (l : List (Fin MAX_PROCESSES)) (b : Best), BestOk t b →
      BestOk t (find_highest_priority_ready_from t l b) := by
  intro l
  induction l with
  | nil => intro b hb; simpa [find_highest_priority_ready_from] using hb
  | cons i rest ih =>
    intro b hb
    simp only [find_highest_priority_ready_from]
    split
    · rename_i hr
      split
      · apply ih
        intro j hj
        simp only [Option.some.injEq] at hj
        subst hj
        exact ⟨hr.1, hr.2, rfl, rfl⟩
      · exact ih b hb
    · exact ih b hb

/-- The loop only lowers the pair (priority, arrival) in lexicographic order,
and ends below every ready record it has passed. -/
theorem fh_from_le (t : Table) :
    ∀ (l : List (Fin MAX_PROCESSES)) (b : Best),
      ((find_highest_priority_ready_from t l b).best_priority < b.best_priority ∨
        ((find_highest_priority_ready_from t l b).best_priority = b.best_priority ∧
          (find_highest_priority_ready_from t l b).best_arrival ≤ b.best_arrival)) ∧
      ∀ i ∈ l, (t i).status = READY → (t i).pid > 0 →
        ((find_highest_priority_ready_from t l b).best_priority < (t i).priority_num ∨
          ((find_highest_priority_ready_from t l b).best_priority = (t i).priority_num ∧
            (find_highest_priority_ready_from t l b).best_arrival ≤ (t i).arrival_time)) := by
  intro l
  induction l with
  | nil => intro b; simp [find_highest_priority_ready_from]
  | cons i rest ih =>
    intro b
    simp only [find_highest_priority_ready_from]
    split
    · rename_i hr
      split
      · rename_i hlt
        have h := ih { best_index := some i, best_priority := (t i).priority_num,
                       best_arrival := (t i).arrival_time }
        simp only at h
        refine ⟨by omega, ?_⟩
        intro k hk hs hp
        rcases List.mem_cons.mp hk with rfl | hk
        · exact h.1
        · exact h.2 k hk hs hp
      · rename_i hlt
        have h := ih b
        refine ⟨h.1, ?_⟩
        intro k hk hs hp
        rcases List.mem_cons.mp hk with rfl | hk
        · omega
        · exact h.2 k hk hs hp
    · rename_i hr
      have h := ih b
      refine ⟨h.1, ?_⟩
      intro k hk hs hp
      rcases List.mem_cons.mp hk with rfl | hk
      · exact absurd ⟨hs, hp⟩ hr
      · exact h.2 k hk hs hp

/-- The record `find_highest_priority_ready` returns is ready, with a
positive pid. -/
theorem fh_ready {t : Table} {k : Fin MAX_PROCESSES}
    (h : find_highest_priority_ready t = some k) :
    (t k).status = READY ∧ (t k).pid > 0 := by
  have hok := fh_from_ok t (List.finRange MAX_PROCESSES)
    { best_index := none, best_priority := INT_MAX, best_arrival := 0 }
    (by intro j hj; simp at hj)
  have := hok k h
  exact ⟨this.1, this.2.1⟩

/-- The record `find_highest_priority_ready` returns is least, in priority
number and then in arrival time, among the ready records with positive pid. -/
theorem fh_least {t : Table} {k : Fin MAX_PROCESSES}
    (h : find_highest_priority_ready t = some k) (i : Fin MAX_PROCESSES)
    (hs : (t i).status = READY) (hp : (t i).pid > 0) :
    (t k).priority_num < (t i).priority_num ∨
      ((t k).priority_num = (t i).priority_num ∧ (t k).arrival_time ≤ (t i).arrival_time) := by
  have hok := fh_from_ok t (List.finRange MAX_PROCESSES)
    { best_index := none, best_priority := INT_MAX, best_arrival := 0 }
    (by intro j hj; simp at hj)
  have hk := hok k h
  have hle := (fh_from_le t (List.finRange MAX_PROCESSES)
    { best_index := none, best_priority := INT_MAX, best_arrival := 0 }).2 i
      (List.mem_finRange i) hs hp
  rw [hk.2.2.1, hk.2.2.2]
  exact hle

/-- With no ready record of positive pid the selection returns nothing. -/
theorem fh_none_of_no_ready {t : Table}
    (h : ∀ i, ¬ ((t i).status = READY ∧ (t i).pid > 0)) :
    find_highest_priority_ready t = none := by
  cases hf : find_highest_priority_ready t with
  | none => rfl
  | some k => exact absurd (fh_ready hf) (h k)

/-! ## The scheduler loop -/

/-- Induction over the iterations of `schedule_processes`: a property kept by
an admission and by a failed continue signal holds when the loop returns. -/
theorem schedule_induct (env : Env) (P : State → Prop)
    (hstep_ok : ∀ (s : State) (k : Fin MAX_PROCESSES), s.running_count < MAX_RUNNING →
      find_highest_priority_ready s.process_records = some k →
      env.kill_ret s.calls.length = 0 → P s →
      P { (s.sys (SysCall.kill (s.process_records k).pid Signal.SIGCONT)).set k
            { s.process_records k with status := RUNNING } with
          running_count := s.running_count + 1 })
    (hstep_ko : ∀ (s : State) (k : Fin MAX_PROCESSES), s.running_count < MAX_RUNNING →
      find_highest_priority_ready s.process_records = some k →
      env.kill_ret s.calls.length ≠ 0 → P s →
      P (s.sys (SysCall.kill (s.process_records k).pid Signal.SIGCONT))) :
    ∀ (fuel : Nat) (s s' : State), schedule_processes fuel env s = some s' → P s → P s' := by
  intro fuel
  induction fuel with
  | zero => intro s s' h; simp [schedule_processes] at h
  | succ n ih =>
    intro s s' h hP
    simp only [schedule_processes] at h
    split at h
    · rename_i hlt
      split at h
      · simp only [Option.some.injEq] at h; exact h ▸ hP
      · rename_i k hk
        split at h
        · rename_i hz
          exact ih _ _ h (hstep_ok s k hlt hk hz hP)
        · rename_i hz
          exact ih _ _ h (hstep_ko s k hlt hk hz hP)
    · simp only [Option.some.injEq] at h; exact h ▸ hP

/-- The scheduler keeps the consistency conditions. -/
theorem schedule_inv (env : Env) (fuel : Nat) (s s' : State)
    (h : schedule_processes fuel env s = some s') (hI : Inv s) : Inv s' := by
  refine schedule_induct env Inv ?_ ?_ fuel s s' h hI
  · intro s k hlt hk _ hI
    have hr := fh_ready hk
    have hc := count_running_update s.process_records k
      { s.process_records k with status := RUNNING }
    simp only [running_ind, hr.1] at hc
    simp at hc
    refine ⟨?_, ?_, ?_⟩
    · intro i hi
      by_cases hik : i = k
      · subst hik
        simp at hi
        omega
      · simp [Function.update_noteq hik] at hi ⊢
        exact hI.unused i hi
    · simp only [set_process_records, sys_process_records]
      have := hI.count
      omega
    · simp only [MAX_RUNNING] at hlt ⊢
      omega
  · intro s k _ _ _ hI
    exact ⟨hI.unused, hI.count, hI.bound⟩

/-- With the budget used up, the scheduler returns at once and changes
nothing. -/
theorem schedule_full (env : Env) (fuel : Nat) (s : State)
    (h : MAX_RUNNING ≤ s.running_count) :
    schedule_processes (fuel + 1) env s = some s := by
  simp only [schedule_processes]
  rw [if_neg (by omega)]

/-- With no ready record of positive pid, the scheduler returns at once and
changes nothing. -/
theorem schedule_no_ready (env : Env) (fuel : Nat) (s : State)
    (h : ∀ i, ¬ ((s.process_records i).status = READY ∧ (s.process_records i).pid > 0)) :
    schedule_processes (fuel + 1) env s = some s := by
  simp only [schedule_processes]
  rw [fh_none_of_no_ready h]
  split <;> rfl

/-- Each record is either untouched by the scheduler or was ready with a
positive pid and is now running, with its other fields as before. -/
theorem schedule_frame (env : Env) (fuel : Nat) (s s' : State)
    (h : schedule_processes fuel env s = some s') (i : Fin MAX_PROCESSES) :
    s'.process_records i = s.process_records i ∨
      ((s.process_records i).status = READY ∧ (s.process_records i).pid > 0 ∧
        s'.process_records i = { s.process_records i with status := RUNNING }) := by
  refine schedule_induct env
    (fun x => x.process_records i = s.process_records i ∨
      ((s.process_records i).status = READY ∧ (s.process_records i).pid > 0 ∧
        x.process_records i = { s.process_records i with status := RUNNING }))
    ?_ ?_ fuel s s' h (Or.inl rfl)
  · intro x k _ hk _ hP
    have hr := fh_ready hk
    by_cases hik : i = k
    · subst hik
      rcases hP with hP | hP
      · right
        rw [hP] at hr
        refine ⟨hr.1, hr.2, ?_⟩
        simp [hP]
      · rw [hP.2.2] at hr
        simp at hr
    · simpa [Function.update_noteq hik] using hP
  · intro x k _ _ _ hP
    simpa using hP

/-! ## The lookups -/

theorem find_process_by_pid_from_some (t : Table) (pid : Int) :
    ∀ (l : List (Fin MAX_PROCESSES)) (i : Fin MAX_PROCESSES), l.Pairwise (· < ·) →
      find_process_by_pid_from t pid l = some i →
      (t i).pid = pid ∧ ∀ j ∈ l, j < i → (t j).pid ≠ pid := by
  intro l
  induction l with
  | nil => intro i _ h; simp [find_process_by_pid_from] at h
  | cons a rest ih =>
    intro i hp h
    have hp' := List.pairwise_cons.mp hp
    simp only [find_process_by_pid_from] at h
    split at h
    · rename_i ha
      simp only [Option.some.injEq] at h
      subst h
      refine ⟨ha, ?_⟩
      intro j hj hlt
      rcases List.mem_cons.mp hj with rfl | hj
      · exact absurd hlt (lt_irrefl _)
      · exact absurd (hp'.1 j hj) (not_lt_of_gt hlt)
    · rename_i ha
      have h' := ih i hp'.2 h
      refine ⟨h'.1, ?_⟩
      intro j hj hlt
      rcases List.mem_cons.mp hj with rfl | hj
      · exact ha
      · exact h'.2 j hj hlt

theorem find_process_by_pid_from_none (t : Table) (pid : Int) :
    ∀ (l : List (Fin MAX_PROCESSES)), find_process_by_pid_from t pid l = none →
      ∀ j ∈ l, (t j).pid ≠ pid := by
  intro l
  induction l with
  | nil => intro _ j hj; simp at hj
  | cons a rest ih =>
    intro h j hj
    simp only [find_process_by_pid_from] at h
    split at h
    · simp at h
    · rename_i ha
      rcases List.mem_cons.mp hj with rfl | hj
      · exact ha
      · exact ih h j hj

/-- The function `find_process_by_pid` returns the first slot with the pid. -/
theorem find_process_by_pid_some {t : Table} {pid : Int} {i : Fin MAX_PROCESSES}
    (h : find_process_by_pid t pid = some i) : first_with_pid t pid i := by
  have h' := find_process_by_pid_from_some t pid _ i (List.pairwise_lt_finRange _) h
  exact ⟨h'.1, fun j hj => h'.2 j (List.mem_finRange j) hj⟩

/-- The function `find_process_by_pid` returns nothing only when no slot has
the pid. -/
theorem find_process_by_pid_none {t : Table} {pid : Int}
    (h : find_process_by_pid t pid = none) (j : Fin MAX_PROCESSES) : (t j).pid ≠ pid :=
  find_process_by_pid_from_none t pid _ h j (List.mem_finRange j)

/-- The first slot with the pid is what `find_process_by_pid` returns. -/
theorem find_process_by_pid_of_first {t : Table} {pid : Int} {i : Fin MAX_PROCESSES}
    (h : first_with_pid t pid i) : find_process_by_pid t pid = some i := by
  cases hf : find_process_by_pid t pid with
  | none => exact absurd h.1 (find_process_by_pid_none hf i)
  | some k =>
    have hk := find_process_by_pid_some hf
    rcases lt_trichotomy k i with hlt | heq | hgt
    · exact absurd hk.1 (h.2 k hlt)
    · rw [heq]
    · exact absurd h.1 (hk.2 i hgt)

/-- No slot has the pid exactly when `find_process_by_pid` returns nothing. -/
theorem find_process_by_pid_of_absent {t : Table} {pid : Int}
    (h : ∀ j, (t j).pid ≠ pid) : find_process_by_pid t pid = none := by
  cases hf : find_process_by_pid t pid with
  | none => rfl
  | some k => exact absurd (find_process_by_pid_some hf).1 (h k)

theorem find_unused_slot_from_eq (t : Table) (l : List (Fin MAX_PROCESSES)) :
    find_unused_slot_from t l = find_process_by_pid_from t 0 l := by
  induction l with
  | nil => rfl
  | cons a rest ih => simp only [find_unused_slot_from, find_process_by_pid_from, ih]

/-- The function `find_unused_slot` is the lookup of pid `0`. -/
theorem find_unused_slot_eq (t : Table) : find_unused_slot t = find_process_by_pid t 0 :=
  find_unused_slot_from_eq t _

/-! ## The consistency conditions are kept by every operation -/

/-- Storing a record keeps the consistency conditions when the counter is
adjusted by the difference of the running indicators. -/
theorem inv_update {s : State} (hI : Inv s) (i : Fin MAX_PROCESSES) (r : process_record)
    (rc : Int) (c : List SysCall)
    (hr : r.pid = 0 → r.status = TERMINATED)
    (hrc : rc + running_ind (s.process_records i) = s.running_count + running_ind r)
    (hb : rc ≤ MAX_RUNNING) :
    Inv { process_records := Function.update s.process_records i r,
          running_count := rc, calls := c } := by
  refine ⟨?_, ?_, hb⟩
  · intro j hj
    by_cases hji : j = i
    · subst hji
      simp only [Function.update_same] at hj ⊢
      exact hr hj
    · simp only [Function.update_noteq hji] at hj ⊢
      exact hI.unused j hj
  · have hc := count_running_update s.process_records i r
    have := hI.count
    simp only
    omega

theorem inv_init : Inv init_state := by
  refine ⟨?_, ?_, ?_⟩
  · intro i _; rfl
  · decide
  · decide

theorem inv_sys {s : State} (hI : Inv s) (c : SysCall) : Inv (s.sys c) :=
  ⟨hI.unused, hI.count, hI.bound⟩

theorem perform_stop_inv {fuel : Nat} {env : Env} {args : List String} {s s' : State}
    {r : Outcome} (h : perform_stop fuel env args s = some (r, s')) (hI : Inv s) : Inv s' := by
  unfold perform_stop at h
  split at h
  · simp only [Option.some.injEq, Prod.mk.injEq] at h; exact h.2 ▸ hI
  · simp only at h
    split at h
    · simp only [Option.some.injEq, Prod.mk.injEq] at h; exact h.2 ▸ hI
    · rename_i hpid
      split at h
      · simp only [Option.some.injEq, Prod.mk.injEq] at h; exact h.2 ▸ hI
      · rename_i index hfind
        split at h
        · simp only [Option.some.injEq, Prod.mk.injEq] at h; exact h.2 ▸ hI
        · split at h
          · simp only [Option.some.injEq, Prod.mk.injEq] at h; exact h.2 ▸ hI
          · split at h
            · simp only [Option.some.injEq, Prod.mk.injEq] at h; exact h.2 ▸ hI
            · rename_i h1 h2 h3
              have hrun : (s.process_records index).status = RUNNING := by
                simpa using h3
              obtain ⟨s3, hs3, heq⟩ := Option.map_eq_some'.mp h
              simp only [Prod.mk.injEq] at heq
              rw [← heq.2]
              refine schedule_inv env fuel _ s3 hs3 ?_
              have hfirst := find_process_by_pid_some hfind
              apply inv_update hI index
              · intro h0
                simp only at h0
                rw [hfirst.1] at h0
                omega
              · simp [running_ind, hrun]
              · have := hI.bound
                simp only [sys_running_count]
                omega

theorem perform_kill_inv {fuel : Nat} {env : Env} {args : List String} {s s' : State}
    {r : Outcome} (h : perform_kill fuel env args s = some (r, s')) (hI : Inv s) : Inv s' := by
  unfold perform_kill at h
  split at h
  · simp only [Option.some.injEq, Prod.mk.injEq] at h; exact h.2 ▸ hI
  · simp only at h
    split at h
    · simp only [Option.some.injEq, Prod.mk.injEq] at h; exact h.2 ▸ hI
    · split at h
      · simp only [Option.some.injEq, Prod.mk.injEq] at h; exact h.2 ▸ hI
      · rename_i index hfind
        split at h
        · simp only [Option.some.injEq, Prod.mk.injEq] at h; exact h.2 ▸ hI
        · obtain ⟨s3, hs3, heq⟩ := Option.map_eq_some'.mp h
          simp only [Prod.mk.injEq] at heq
          rw [← heq.2]
          refine schedule_inv env fuel _ s3 hs3 ?_
          have hb := hI.bound
          by_cases hrun : (s.process_records index).status = RUNNING
          · have : kill_update s index =
                { process_records := Function.update s.process_records index
                    { s.process_records index with
                      command := none, priority_str := none, status := TERMINATED },
                  running_count := s.running_count - 1,
                  calls := SysCall.kill (s.process_records index).pid Signal.SIGTERM :: s.calls } := by
              simp [kill_update, hrun, State.set, State.sys]
            rw [this]
            apply inv_update hI index
            · intro _; rfl
            · simp [running_ind, hrun]
            · omega
          · have : kill_update s index =
                { process_records := Function.update s.process_records index
                    { s.process_records index with
                      command := none, priority_str := none, status := TERMINATED },
                  running_count := s.running_count,
                  calls := SysCall.kill (s.process_records index).pid Signal.SIGTERM :: s.calls } := by
              simp [kill_update, hrun, State.set, State.sys]
            rw [this]
            apply inv_update hI index
            · intro _; rfl
            · simp [running_ind, hrun]
            · omega

theorem perform_resume_inv (args : List String) {s : State} (hI : Inv s) :
    Inv (perform_resume args s).2 := by
  unfold perform_resume
  split
  · exact hI
  · simp only
    split
    · exact hI
    · rename_i hpid
      split
      · exact hI
      · rename_i index hfind
        have hfirst := find_process_by_pid_some hfind
        split
        · exact hI
        · split
          · exact hI
          · rename_i h1 h2
            have hst : (s.process_records index).status = STOPPED := by simpa using h2
            split
            · rename_i hlt
              apply inv_update hI index
              · intro h0
                simp only at h0
                rw [hfirst.1] at h0
                omega
              · simp [running_ind, hst]
              · simp only [MAX_RUNNING, sys_running_count] at hlt ⊢
                omega
            · apply inv_update hI index
              · intro h0
                simp only at h0
                rw [hfirst.1] at h0
                omega
              · simp [running_ind, hst]
              · exact hI.bound

theorem perform_run_inv {fuel : Nat} {env : Env} {args : List String} {s s' : State}
    {r : Outcome} (h : perform_run fuel env args s = some (r, s')) (hI : Inv s) : Inv s' := by
  unfold perform_run at h
  split at h
  · simp only [Option.some.injEq, Prod.mk.injEq] at h; exact h.2 ▸ hI
  · split at h
    · simp only [Option.some.injEq, Prod.mk.injEq] at h; exact h.2 ▸ hI
    · simp only at h
      split at h
      · simp only [Option.some.injEq, Prod.mk.injEq] at h; exact h.2 ▸ hI
      · split at h
        · simp only [Option.some.injEq, Prod.mk.injEq] at h; exact h.2 ▸ hI
        · rename_i index hfind
          split at h
          · simp only [Option.some.injEq, Prod.mk.injEq] at h
            exact h.2 ▸ inv_sys hI _
          · split at h
            · simp at h
            · rename_i hneg hzero
              obtain ⟨s5, hs5, heq⟩ := Option.map_eq_some'.mp h
              simp only [Prod.mk.injEq] at heq
              rw [← heq.2]
              refine schedule_inv env fuel _ s5 hs5 ?_
              rw [find_unused_slot_eq] at hfind
              have hfirst := find_process_by_pid_some hfind
              have hterm := hI.unused index hfirst.1
              simp only [run_queued, State.set, State.sys, Function.update_idem]
              apply inv_update hI index
              · intro h0
                simp only at h0
                omega
              · simp [running_ind, hterm]
              · exact hI.bound

theorem check_completed_from_inv (fuel : Nat) (env : Env) :
    ∀ (l : List (Fin MAX_PROCESSES)) (s s' : State),
      check_completed_processes_from fuel env l s = some s' → Inv s → Inv s' := by
  intro l
  induction l with
  | nil =>
    intro s s' h hI
    simp only [check_completed_processes_from, Option.some.injEq] at h
    exact h ▸ hI
  | cons i rest ih =>
    intro s s' h hI
    simp only [check_completed_processes_from] at h
    split at h
    · rename_i hrun
      split at h
      · split at h
        · simp at h
        · rename_i s2 hs2
          refine ih _ _ h (schedule_inv env fuel _ s2 hs2 ?_)
          apply inv_update hI i
          · intro _; rfl
          · simp [running_ind, hrun.1]
          · have := hI.bound
            simp only [sys_running_count]
            omega
      · exact ih _ _ h (inv_sys hI _)
    · exact ih _ _ h hI

/-- Every reachable state satisfies the consistency conditions. -/
theorem reachable_inv {env : Env} {s : State} (h : Reachable env s) : Inv s := by
  induction h with
  | init => exact inv_init
  | run fuel args _ hstep ih => exact perform_run_inv hstep ih
  | stop fuel args _ hstep ih => exact perform_stop_inv hstep ih
  | kill fuel args _ hstep ih => exact perform_kill_inv hstep ih
  | resume args _ ih => exact perform_resume_inv args ih
  | reaper fuel _ hstep ih => exact check_completed_from_inv fuel env _ _ _ hstep ih

/-! ## Concrete reachable states -/

theorem reachable_demo1 : Reachable env_ok demo1 :=
  Reachable.run 30 ["prog", "P3"] Reachable.init
    (rfl : perform_run 30 env_ok ["prog", "P3"] init_state = some (Outcome.ok, demo1))

theorem reachable_demo2 : Reachable env_ok demo2 :=
  Reachable.run 30 ["prog", "P1"] reachable_demo1
    (rfl : perform_run 30 env_ok ["prog", "P1"] demo1 = some (Outcome.ok, demo2))

theorem reachable_demo3 : Reachable env_ok demo3 :=
  Reachable.run 30 ["prog", "P2"] reachable_demo2
    (rfl : perform_run 30 env_ok ["prog", "P2"] demo2 = some (Outcome.ok, demo3))

theorem reachable_demo4 : Reachable env_ok demo4 :=
  Reachable.run 30 ["prog", "P4"] reachable_demo3
    (rfl : perform_run 30 env_ok ["prog", "P4"] demo3 = some (Outcome.ok, demo4))


/-! ## C1, C2 -/

/-- With the budget used up, `perform_resume` moves no record to `RUNNING`. -/
theorem perform_resume_full (args : List String) (s : State)
    (h : MAX_RUNNING ≤ s.running_count) (i : Fin MAX_PROCESSES)
    (hi : ((perform_resume args s).2.process_records i).status = RUNNING) :
    (s.process_records i).status = RUNNING := by
  unfold perform_resume at hi
  split at hi
  · exact hi
  · simp only at hi
    split at hi
    · exact hi
    · split at hi
      · exact hi
      · rename_i index hfind
        split at hi
        · exact hi
        · split at hi
          · exact hi
          · rw [if_neg (by omega)] at hi
            by_cases hik : i = index
            · subst hik
              simp at hi
            · simpa [Function.update_noteq hik] using hi

/-- C1: in every state reachable from the initialised table by run, stop,
kill, resume and reaper steps, for every outcome of the system calls,
`running_count` equals the number of records whose status is `RUNNING`. -/
theorem running_count_eq_count_running (env : Env) (s : State) (h : Reachable env s) :
    s.running_count = count_running s.process_records :=
  (reachable_inv h).count

theorem running_count_eq_count_running_witness :
    Reachable env_ok demo4 ∧ demo4.running_count = count_running demo4.process_records :=
  ⟨reachable_demo4, running_count_eq_count_running env_ok demo4 reachable_demo4⟩

/-- C2: in every reachable state at most `MAX_RUNNING` records are `RUNNING`;
and when `running_count` is already `MAX_RUNNING`, `schedule_processes`
returns the state unchanged and `perform_resume` makes no record `RUNNING`
that was not `RUNNING` before. -/
theorem at_most_max_running (env : Env) (s : State) (h : Reachable env s) :
    (count_running s.process_records : Int) ≤ MAX_RUNNING ∧
    (s.running_count = MAX_RUNNING →
      (∀ fuel, schedule_processes (fuel + 1) env s = some s) ∧
      ∀ (args : List String) (i : Fin MAX_PROCESSES),
        ((perform_resume args s).2.process_records i).status = RUNNING →
          (s.process_records i).status = RUNNING) := by
  have hI := reachable_inv h
  refine ⟨?_, ?_⟩
  · rw [← hI.count]; exact hI.bound
  · intro hfull
    exact ⟨fun fuel => schedule_full env fuel s (le_of_eq hfull.symm),
      fun args i hi => perform_resume_full args s (le_of_eq hfull.symm) i hi⟩

theorem at_most_max_running_witness :
    Reachable env_ok demo3 ∧ demo3.running_count = MAX_RUNNING ∧
      (count_running demo3.process_records : Int) ≤ MAX_RUNNING ∧
      (demo3.running_count = MAX_RUNNING →
        (∀ fuel, schedule_processes (fuel + 1) env_ok demo3 = some demo3) ∧
        ∀ (args : List String) (i : Fin MAX_PROCESSES),
          ((perform_resume args demo3).2.process_records i).status = RUNNING →
            (demo3.process_records i).status = RUNNING) :=
  ⟨reachable_demo3, by decide, at_most_max_running env_ok demo3 reachable_demo3⟩

/-! ## More on the selection loop -/

theorem fh_from_some_stays (t : Table) :
    ∀ (l : List (Fin MAX_PROCESSES)) (b : Best), b.best_index ≠ none →
      (find_highest_priority_ready_from t l b).best_index ≠ none := by
  intro l
  induction l with
  | nil => intro b hb; simpa [find_highest_priority_ready_from] using hb
  | cons i rest ih =>
    intro b hb
    simp only [find_highest_priority_ready_from]
    split
    · split
      · exact ih _ (by simp)
      · exact ih b hb
    · exact ih b hb

theorem fh_from_none_eq (t : Table) :
    ∀ (l : List (Fin MAX_PROCESSES)) (b : Best),
      (find_highest_priority_ready_from t l b).best_index = none →
      find_highest_priority_ready_from t l b = b := by
  intro l
  induction l with
  | nil => intro b _; rfl
  | cons i rest ih =>
    intro b hb
    simp only [find_highest_priority_ready_from] at hb ⊢
    split
    · split
      · rename_i h1 h2
        rw [if_pos h1, if_pos h2] at hb
        exact absurd hb (fh_from_some_stays t rest _ (by simp))
      · rename_i h1 h2
        rw [if_pos h1, if_neg h2] at hb
        exact ih b hb
    · rename_i h1
      rw [if_neg h1] at hb
      exact ih b hb

/-- A ready record whose priority number is below `INT_MAX` makes the
selection return a record. -/
theorem fh_some_of_ready {t : Table} (i : Fin MAX_PROCESSES) (hr : is_ready (t i))
    (hlt : (t i).priority_num < INT_MAX) :
    ∃ k, find_highest_priority_ready t = some k := by
  cases hf : find_highest_priority_ready t with
  | some k => exact ⟨k, rfl⟩
  | none =>
    exfalso
    have heq := fh_from_none_eq t (List.finRange MAX_PROCESSES)
      { best_index := none, best_priority := INT_MAX, best_arrival := 0 } hf
    have hle := (fh_from_le t (List.finRange MAX_PROCESSES)
      { best_index := none, best_priority := INT_MAX, best_arrival := 0 }).2 i
        (List.mem_finRange i) hr.1 hr.2
    rw [heq] at hle
    simp only at hle
    omega

/-- Where every ready record has a priority number below `INT_MAX`, the
selection returns nothing exactly when no record is ready, and otherwise a
ready record that is least in priority number and, within that priority, in
arrival time. -/
theorem find_highest_priority_ready_below_int_max (t : Table)
    (hlt : ∀ i, is_ready (t i) → (t i).priority_num < INT_MAX) :
    (find_highest_priority_ready t = none ↔ ∀ i, ¬ is_ready (t i)) ∧
    ∀ k, find_highest_priority_ready t = some k →
      is_ready (t k) ∧
      (∀ i, is_ready (t i) → (t k).priority_num ≤ (t i).priority_num) ∧
      (∀ i, is_ready (t i) → (t i).priority_num = (t k).priority_num →
        (t k).arrival_time ≤ (t i).arrival_time) := by
  refine ⟨⟨?_, fh_none_of_no_ready⟩, ?_⟩
  · intro hnone i hi
    obtain ⟨k, hk⟩ := fh_some_of_ready i hi (hlt i hi)
    rw [hnone] at hk
    exact absurd hk (by simp)
  · intro k hk
    refine ⟨fh_ready hk, ?_, ?_⟩
    · intro i hi
      have := fh_least hk i hi.1 hi.2
      omega
    · intro i hi heq
      have := fh_least hk i hi.1 hi.2
      omega

/-! ## C3 -/

/-- C3 (the code at the failing input): after `run prog P2147483647` the
table holds a `READY` record with positive pid and priority number `INT_MAX`,
and `find_highest_priority_ready` returns `-1` all the same. -/
theorem find_highest_priority_ready_misses_int_max :
    (demo_max.process_records 0).status = READY ∧
    (demo_max.process_records 0).pid = 100 ∧
    (demo_max.process_records 0).priority_num = INT_MAX ∧
    (demo_max.process_records 0).arrival_time = 1001 ∧
    find_highest_priority_ready demo_max.process_records = none := by
  decide

/-! ## Termination of the scheduler when signals succeed -/

/-- Admitting a ready record lowers the number of ready records by one. -/
theorem count_ready_admitted (t : Table) (k : Fin MAX_PROCESSES) (hk : is_ready (t k)) :
    count_ready (Function.update t k { t k with status := RUNNING }) + 1 = count_ready t := by
  have h := countP_update_pred (fun r => decide (is_ready r)) t k { t k with status := RUNNING }
    (List.finRange MAX_PROCESSES) (List.nodup_finRange _)
  have hnot : ¬ is_ready { t k with status := RUNNING } := by
    intro h; simp [is_ready] at h
  simp only [List.mem_finRange, if_true, hk, hnot, decide_True, decide_False, if_false,
    add_zero] at h
  simpa [count_ready] using h

theorem count_ready_le (t : Table) : count_ready t ≤ 20 := by
  have h := List.countP_le_length (fun i => decide (is_ready (t i)))
    (l := List.finRange MAX_PROCESSES)
  simpa [count_ready] using h

/-- More fuel does not change a result. -/
theorem schedule_fuel_mono (env : Env) :
    ∀ (n m : Nat) (s s' : State), schedule_processes n env s = some s' →
      schedule_processes (n + m) env s = some s' := by
  intro n
  induction n with
  | zero => intro m s s' h; simp [schedule_processes] at h
  | succ n ih =>
    intro m s s' h
    rw [Nat.add_right_comm]
    simp only [schedule_processes] at h ⊢
    split
    · rename_i hlt
      rw [if_pos hlt] at h
      split
      · rename_i hnone
        rw [hnone] at h
        exact h
      · rename_i k hk
        rw [hk] at h
        simp only at h
        split
        · rename_i hz
          rw [if_pos hz] at h
          exact ih m _ _ h
        · rename_i hz
          rw [if_neg hz] at h
          exact ih m _ _ h
    · rename_i hlt
      rw [if_neg hlt] at h
      exact h

/-- When every continue signal succeeds, one iteration per ready record and
one more are enough for the scheduler to return. -/
theorem schedule_terminates_aux (env : Env) (hsig : ∀ n, env.kill_ret n = 0) :
    ∀ (n : Nat) (s : State), count_ready s.process_records ≤ n →
      ∃ s', schedule_processes (n + 1) env s = some s' := by
  intro n
  induction n with
  | zero =>
    intro s hn
    simp only [schedule_processes]
    split
    · split
      · exact ⟨s, rfl⟩
      · rename_i k hk
        have := count_ready_admitted s.process_records k (fh_ready hk)
        omega
    · exact ⟨s, rfl⟩
  | succ n ih =>
    intro s hn
    rw [schedule_processes]
    split
    · split
      · exact ⟨s, rfl⟩
      · rename_i k hk
        simp only
        rw [if_pos (hsig _)]
        apply ih
        have := count_ready_admitted s.process_records k (fh_ready hk)
        dsimp only [set_process_records, sys_process_records] at this ⊢
        omega
    · exact ⟨s, rfl⟩

/-- When every continue signal succeeds, the scheduler returns within
twenty-one iterations. -/
theorem schedule_terminates (env : Env) (hsig : ∀ n, env.kill_ret n = 0) (s : State) :
    ∃ s', schedule_processes 21 env s = some s' := by
  obtain ⟨s', hs'⟩ := schedule_terminates_aux env hsig _ s (le_refl _)
  refine ⟨s', ?_⟩
  have hle := count_ready_le s.process_records
  have := schedule_fuel_mono env _ (20 - count_ready s.process_records) s s' hs'
  have heq : count_ready s.process_records + 1 + (20 - count_ready s.process_records) = 21 := by
    omega
  rw [heq] at this
  exact this

/-! ## C4 -/

/-- C4: for every table, in one invocation of `schedule_processes` in which
every continue signal succeeds, the scheduler returns, and if two records
are `READY` at entry with priority numbers `p1 < p2` (the `p1` record in an
allocated slot, pid positive) and the `p2` record is `RUNNING` at return,
then the `p1` record is `RUNNING` at return. -/
theorem schedule_admits_in_priority_order (env : Env) (s : State)
    (hsig : ∀ n, env.kill_ret n = 0) :
    (∃ s', schedule_processes 21 env s = some s') ∧
    ∀ (fuel : Nat) (s' : State), schedule_processes fuel env s = some s' →
      ∀ i j : Fin MAX_PROCESSES,
        is_ready (s.process_records i) → (s.process_records j).status = READY →
        (s.process_records i).priority_num < (s.process_records j).priority_num →
        (s'.process_records j).status = RUNNING →
        (s'.process_records i).status = RUNNING := by
  refine ⟨schedule_terminates env hsig s, ?_⟩
  intro fuel s' h i j hi hj hlt
  have key := schedule_induct env
    (fun x => (x.process_records i = s.process_records i ∨
                (x.process_records i).status = RUNNING) ∧
              (x.process_records j = s.process_records j ∨
                (x.process_records j).status = RUNNING) ∧
              ((x.process_records j).status = RUNNING →
                (x.process_records i).status = RUNNING))
    ?_ ?_ fuel s s' h ⟨Or.inl rfl, Or.inl rfl, ?_⟩
  · exact key.2.2
  · intro x k _ hk _ hP
    obtain ⟨hPi, hPj, hQ⟩ := hP
    have hr := fh_ready hk
    have hki : (x.process_records i).status = RUNNING → i ≠ k := by
      intro hrun heq; rw [heq, hr.1] at hrun; exact absurd hrun (by decide)
    by_cases hjk : j = k
    · -- the record selected is the `p2` record: the `p1` record is no longer ready
      have hxj : x.process_records j = s.process_records j := by
        rcases hPj with h1 | h1
        · exact h1
        · rw [hjk, hr.1] at h1; exact absurd h1 (by decide)
      have hxi : (x.process_records i).status = RUNNING := by
        rcases hPi with h1 | h1
        · exfalso
          have hl := fh_least hk i (by rw [h1]; exact hi.1) (by rw [h1]; exact hi.2)
          rw [← hjk, hxj, h1] at hl
          omega
        · exact h1
      have hik := hki hxi
      refine ⟨?_, ?_, ?_⟩
      · right; simpa [Function.update_noteq hik] using hxi
      · right; rw [hjk]; simp
      · intro _; simpa [Function.update_noteq hik] using hxi
    · by_cases hik : i = k
      · refine ⟨?_, ?_, ?_⟩
        · right; rw [hik]; simp
        · simpa [Function.update_noteq hjk] using hPj
        · intro _; rw [hik]; simp
      · refine ⟨?_, ?_, ?_⟩
        · simpa [Function.update_noteq hik] using hPi
        · simpa [Function.update_noteq hjk] using hPj
        · simpa [Function.update_noteq hik, Function.update_noteq hjk] using hQ
  · intro x k _ _ hz _
    exact absurd (hsig _) hz
  · intro hrun
    rw [hj] at hrun
    exact absurd hrun (by decide)

theorem schedule_admits_in_priority_order_witness :
    (∀ n, env_ok.kill_ret n = 0) ∧
    (schedule_processes 21 env_ok demo_two_ready).map
      (fun x => ((x.process_records 0).status, (x.process_records 1).status))
        = some (READY, RUNNING) ∧
    ((∃ s', schedule_processes 21 env_ok demo_two_ready = some s') ∧
      ∀ (fuel : Nat) (s' : State), schedule_processes fuel env_ok demo_two_ready = some s' →
        ∀ i j : Fin MAX_PROCESSES,
          is_ready (demo_two_ready.process_records i) →
          (demo_two_ready.process_records j).status = READY →
          (demo_two_ready.process_records i).priority_num
            < (demo_two_ready.process_records j).priority_num →
          (s'.process_records j).status = RUNNING →
          (s'.process_records i).status = RUNNING) :=
  ⟨fun _ => rfl, by decide,
    schedule_admits_in_priority_order env_ok demo_two_ready (fun _ => rfl)⟩

/-! ## C5 -/

/-- C5 (the code at the failing input): `run prog P2147483647` on the
initialised table, with the fork and every signal succeeding, has a free slot
and a valid priority token and finds `running_count = 0`, yet the new record
is `READY`, not `RUNNING`, when `perform_run` returns. -/
theorem perform_run_int_max_stays_ready :
    parse_priority (some "P2147483647") = INT_MAX ∧
    find_unused_slot init_state.process_records = some 0 ∧
    init_state.running_count = 0 ∧
    perform_run 30 env_ok ["prog", "P2147483647"] init_state = some (Outcome.ok, demo_max) ∧
    (demo_max.process_records 0).pid = 100 ∧
    (demo_max.process_records 0).status = READY ∧
    demo_max.running_count = 0 :=
  ⟨by decide, by decide, rfl, rfl, by decide, by decide, by decide⟩

/-! ## C6 -/

/-- While a record is selected and every signal fails, the scheduler loop
never returns. -/
theorem schedule_spins (env : Env) (hsig : ∀ n, env.kill_ret n ≠ 0) (k : Fin MAX_PROCESSES) :
    ∀ (fuel : Nat) (s : State), s.running_count < MAX_RUNNING →
      find_highest_priority_ready s.process_records = some k →
      schedule_processes fuel env s = none := by
  intro fuel
  induction fuel with
  | zero => intro s _ _; rfl
  | succ n ih =>
    intro s hrc hk
    simp only [schedule_processes]
    rw [if_pos hrc, hk]
    simp only
    rw [if_neg (hsig _)]
    exact ih _ hrc hk

/-- C6 (the code at the failing input): with one `READY` record and a free
running slot, `schedule_processes` does not return for any number of loop
iterations when the continue signal keeps failing; and when the signal fails
once, it is sent again to the same pid within the same invocation and the
record ends `RUNNING`. -/
theorem schedule_processes_retries_failed_signal :
    (∀ fuel, schedule_processes fuel env_fail demo_one_ready = none) ∧
    (∀ fuel, perform_run fuel env_fail ["prog", "P1"] init_state = none) ∧
    (schedule_processes 30 env_retry demo_one_ready).map
        (fun x => ((x.process_records 0).status, x.running_count, x.calls))
      = some (RUNNING, 1,
          [SysCall.kill 100 Signal.SIGCONT, SysCall.kill 100 Signal.SIGCONT,
           SysCall.kill 100 Signal.SIGSTOP, SysCall.time, SysCall.fork]) := by
  have hsig : ∀ n, env_fail.kill_ret n ≠ 0 := by
    intro n
    show (-1 : Int) ≠ 0
    decide
  refine ⟨?_, ?_, by decide⟩
  · intro fuel
    exact schedule_spins env_fail hsig 0 fuel demo_one_ready (by decide) (by decide)
  · intro fuel
    have hrun : perform_run fuel env_fail ["prog", "P1"] init_state
        = (schedule_processes fuel env_fail
            (run_queued env_fail ["prog", "P1"] init_state 0)).map
            (fun s5 => (Outcome.ok, s5)) := rfl
    rw [hrun, schedule_spins env_fail hsig 0 fuel _ (by decide) (by decide)]
    rfl

/-! ## Pids are never changed once set -/

theorem update_pid_same (t : Table) (i : Fin MAX_PROCESSES) (r : process_record)
    (h : r.pid = (t i).pid) (j : Fin MAX_PROCESSES) :
    (Function.update t i r j).pid = (t j).pid := by
  by_cases hji : j = i
  · subst hji; simpa using h
  · simp [Function.update_noteq hji]

/-- The scheduler changes no pid. -/
theorem schedule_pid {env : Env} {fuel : Nat} {s s' : State}
    (h : schedule_processes fuel env s = some s') (i : Fin MAX_PROCESSES) :
    (s'.process_records i).pid = (s.process_records i).pid := by
  rcases schedule_frame env fuel s s' h i with h1 | h1
  · rw [h1]
  · rw [h1.2.2]

theorem perform_stop_pid {fuel : Nat} {env : Env} {args : List String} {s s' : State}
    {r : Outcome} (h : perform_stop fuel env args s = some (r, s')) (i : Fin MAX_PROCESSES) :
    (s'.process_records i).pid = (s.process_records i).pid := by
  unfold perform_stop at h
  split at h
  · simp only [Option.some.injEq, Prod.mk.injEq] at h; rw [← h.2]
  · simp only at h
    split at h
    · simp only [Option.some.injEq, Prod.mk.injEq] at h; rw [← h.2]
    · split at h
      · simp only [Option.some.injEq, Prod.mk.injEq] at h; rw [← h.2]
      · rename_i index hfind
        split at h
        · simp only [Option.some.injEq, Prod.mk.injEq] at h; rw [← h.2]
        · split at h
          · simp only [Option.some.injEq, Prod.mk.injEq] at h; rw [← h.2]
          · split at h
            · simp only [Option.some.injEq, Prod.mk.injEq] at h; rw [← h.2]
            · obtain ⟨s3, hs3, heq⟩ := Option.map_eq_some'.mp h
              simp only [Prod.mk.injEq] at heq
              rw [← heq.2, schedule_pid hs3 i]
              exact update_pid_same s.process_records index _ (by rfl) i

theorem kill_update_pid (s : State) (index i : Fin MAX_PROCESSES) :
    ((kill_update s index).process_records i).pid = (s.process_records i).pid := by
  unfold kill_update
  simp only
  split
  · simp only [set_process_records, sys_process_records, Function.update_idem]
    exact update_pid_same s.process_records index _ (by rfl) i
  · simp only [set_process_records, sys_process_records, Function.update_idem]
    exact update_pid_same s.process_records index _ (by rfl) i

theorem perform_kill_pid {fuel : Nat} {env : Env} {args : List String} {s s' : State}
    {r : Outcome} (h : perform_kill fuel env args s = some (r, s')) (i : Fin MAX_PROCESSES) :
    (s'.process_records i).pid = (s.process_records i).pid := by
  unfold perform_kill at h
  split at h
  · simp only [Option.some.injEq, Prod.mk.injEq] at h; rw [← h.2]
  · simp only at h
    split at h
    · simp only [Option.some.injEq, Prod.mk.injEq] at h; rw [← h.2]
    · split at h
      · simp only [Option.some.injEq, Prod.mk.injEq] at h; rw [← h.2]
      · rename_i index hfind
        split at h
        · simp only [Option.some.injEq, Prod.mk.injEq] at h; rw [← h.2]
        · obtain ⟨s3, hs3, heq⟩ := Option.map_eq_some'.mp h
          simp only [Prod.mk.injEq] at heq
          rw [← heq.2, schedule_pid hs3 i]
          exact kill_update_pid s index i

theorem perform_resume_pid (args : List String) (s : State) (i : Fin MAX_PROCESSES) :
    ((perform_resume args s).2.process_records i).pid = (s.process_records i).pid := by
  unfold perform_resume
  split
  · rfl
  · simp only
    split
    · rfl
    · split
      · rfl
      · rename_i index hfind
        split
        · rfl
        · split
          · rfl
          · split
            · exact update_pid_same s.process_records index _ (by rfl) i
            · exact update_pid_same s.process_records index _ (by rfl) i

theorem check_completed_from_pid (fuel : Nat) (env : Env) :
    ∀ (l : List (Fin MAX_PROCESSES)) (s s' : State),
      check_completed_processes_from fuel env l s = some s' →
      ∀ i, (s'.process_records i).pid = (s.process_records i).pid := by
  intro l
  induction l with
  | nil =>
    intro s s' h i
    simp only [check_completed_processes_from, Option.some.injEq] at h
    rw [h]
  | cons a rest ih =>
    intro s s' h i
    simp only [check_completed_processes_from] at h
    split at h
    · split at h
      · split at h
        · simp at h
        · rename_i s2 hs2
          rw [ih _ _ h i, schedule_pid hs2 i]
          exact update_pid_same s.process_records a _ (by rfl) i
      · exact ih _ _ h i
    · exact ih _ _ h i

/-- A `run` that does not succeed leaves the table and the counter as they
were. -/
theorem perform_run_failed {fuel : Nat} {env : Env} {args : List String} {s s' : State}
    {r : Outcome} (h : perform_run fuel env args s = some (r, s')) (hr : r ≠ Outcome.ok) :
    s'.process_records = s.process_records ∧ s'.running_count = s.running_count := by
  unfold perform_run at h
  split at h
  · simp only [Option.some.injEq, Prod.mk.injEq] at h; rw [← h.2]; exact ⟨rfl, rfl⟩
  · split at h
    · simp only [Option.some.injEq, Prod.mk.injEq] at h; rw [← h.2]; exact ⟨rfl, rfl⟩
    · simp only at h
      split at h
      · simp only [Option.some.injEq, Prod.mk.injEq] at h; rw [← h.2]; exact ⟨rfl, rfl⟩
      · split at h
        · simp only [Option.some.injEq, Prod.mk.injEq] at h; rw [← h.2]; exact ⟨rfl, rfl⟩
        · split at h
          · simp only [Option.some.injEq, Prod.mk.injEq] at h; rw [← h.2]; exact ⟨rfl, rfl⟩
          · split at h
            · simp at h
            · obtain ⟨s5, _, heq⟩ := Option.map_eq_some'.mp h
              simp only [Prod.mk.injEq] at heq
              exact absurd heq.1.symm hr

/-- A `run` that succeeds fills the first unused slot with a positive pid
and changes no other pid. -/
theorem perform_run_ok {fuel : Nat} {env : Env} {args : List String} {s s' : State}
    (h : perform_run fuel env args s = some (Outcome.ok, s')) :
    ∃ index, find_unused_slot s.process_records = some index ∧
      (s'.process_records index).pid > 0 ∧
      ∀ i, i ≠ index → (s'.process_records i).pid = (s.process_records i).pid := by
  unfold perform_run at h
  split at h
  · simp at h
  · split at h
    · simp at h
    · simp only at h
      split at h
      · simp at h
      · split at h
        · simp at h
        · rename_i index hfind
          split at h
          · simp at h
          · split at h
            · simp at h
            · rename_i hneg hzero
              obtain ⟨s5, hs5, heq⟩ := Option.map_eq_some'.mp h
              simp only [Prod.mk.injEq, true_and] at heq
              refine ⟨index, hfind, ?_, ?_⟩
              · rw [← heq, schedule_pid hs5 index]
                simp only [run_queued, set_process_records, sys_process_records,
                  Function.update_same]
                omega
              · intro i hi
                rw [← heq, schedule_pid hs5 i]
                simp only [run_queued, set_process_records, sys_process_records,
                  Function.update_noteq hi]

/-! ## C7 -/

theorem count_used_congr (t t' : Table) (h : ∀ i, (t' i).pid = (t i).pid) :
    count_used t' = count_used t := by
  unfold count_used
  congr 1
  funext i
  rw [h i]

theorem count_used_fill (t t' : Table) (index : Fin MAX_PROCESSES)
    (h0 : (t index).pid = 0) (h1 : (t' index).pid > 0)
    (h : ∀ i, i ≠ index → (t' i).pid = (t i).pid) :
    count_used t' = count_used t + 1 := by
  have hc : count_used t' = count_used (Function.update t index (t' index)) := by
    apply count_used_congr
    intro i
    by_cases hi : i = index
    · subst hi; simp
    · simp [Function.update_noteq hi, h i hi]
  have hu := countP_update_pred (fun r => decide (r.pid ≠ 0)) t index (t' index)
    (List.finRange MAX_PROCESSES) (List.nodup_finRange _)
  have hne : (t' index).pid ≠ 0 := by omega
  simp only [List.mem_finRange, if_true, h0, hne, ne_eq, not_true_eq_false, not_false_eq_true,
    decide_True, decide_False, if_false, add_zero] at hu
  rw [hc]
  simpa [count_used] using hu

theorem count_used_le (t : Table) : count_used t ≤ 20 := by
  have h := List.countP_le_length (fun i => decide ((t i).pid ≠ 0))
    (l := List.finRange MAX_PROCESSES)
  simpa [count_used] using h

/-- The number of used slots is the number of `run` commands that have
succeeded. -/
theorem runs_done_count_used {env : Env} {n : Nat} {s : State} (h : RunsDone env n s) :
    count_used s.process_records = n := by
  induction h with
  | init => decide
  | run_ok fuel args _ hstep ih =>
    obtain ⟨index, hfind, hpos, hrest⟩ := perform_run_ok hstep
    rw [find_unused_slot_eq] at hfind
    rw [count_used_fill _ _ index (find_process_by_pid_some hfind).1 hpos hrest, ih]
  | run_failed fuel args _ hstep hr ih =>
    rw [(perform_run_failed hstep hr).1, ih]
  | stop fuel args _ hstep ih =>
    rw [count_used_congr _ _ (fun i => perform_stop_pid hstep i), ih]
  | kill fuel args _ hstep ih =>
    rw [count_used_congr _ _ (fun i => perform_kill_pid hstep i), ih]
  | resume args _ ih =>
    rw [count_used_congr _ _ (fun i => perform_resume_pid args _ i), ih]
  | reaper fuel _ hstep ih =>
    rw [count_used_congr _ _ (fun i => check_completed_from_pid fuel env _ _ _ hstep i), ih]

/-- With every slot counted as used, no slot has pid `0`. -/
theorem all_used_of_count {t : Table} (h : 20 ≤ count_used t) (i : Fin MAX_PROCESSES) :
    (t i).pid ≠ 0 := by
  have hle := count_used_le t
  have heq : (List.finRange MAX_PROCESSES).countP (fun i => decide ((t i).pid ≠ 0))
      = (List.finRange MAX_PROCESSES).length := by
    simp only [List.length_finRange]
    unfold count_used at h hle
    show _ = 20
    omega
  have := List.countP_eq_length.mp heq i (List.mem_finRange i)
  simpa using this

/-- No operation changes a pid that is not `0`. -/
theorem step_pid {env : Env} {s s' : State} (h : Step env s s') (i : Fin MAX_PROCESSES)
    (hi : (s.process_records i).pid ≠ 0) :
    (s'.process_records i).pid = (s.process_records i).pid := by
  cases h with
  | run fuel args hstep =>
    rename_i r
    by_cases hr : r = Outcome.ok
    · subst hr
      obtain ⟨index, hfind, _, hrest⟩ := perform_run_ok hstep
      rw [find_unused_slot_eq] at hfind
      apply hrest i
      intro heq
      rw [heq] at hi
      exact hi (find_process_by_pid_some hfind).1
    · rw [(perform_run_failed hstep hr).1]
  | stop fuel args hstep => exact perform_stop_pid hstep i
  | kill fuel args hstep => exact perform_kill_pid hstep i
  | resume args => exact perform_resume_pid args s i
  | reaper fuel hstep => exact check_completed_from_pid fuel env _ _ _ hstep i

/-- C7: no operation changes a pid that is not `0`; hence, once twenty `run`
commands have succeeded, whatever other commands and reaper passes came in
between or after, no slot has pid `0`, and every later `run` returns without
success, makes no system call and leaves the state as it was; with a program
and a valid priority token it reports that no slot is available. -/
theorem run_fails_after_twenty_runs (env : Env) (n : Nat) (s : State)
    (h : RunsDone env n s) (hn : 20 ≤ n) :
    (∀ s1 s2 : State, Step env s1 s2 → ∀ i, (s1.process_records i).pid ≠ 0 →
      (s2.process_records i).pid = (s1.process_records i).pid) ∧
    (∀ i, (s.process_records i).pid ≠ 0) ∧
    (∀ (fuel : Nat) (args : List String),
      ∃ r, r ≠ Outcome.ok ∧ perform_run fuel env args s = some (r, s)) ∧
    (∀ (fuel : Nat) (args : List String), 2 ≤ args.length →
      parse_priority args.getLast? ≠ -1 →
      perform_run fuel env args s = some (Outcome.no_slot, s)) := by
  have hcount := runs_done_count_used h
  have hall : ∀ i, (s.process_records i).pid ≠ 0 :=
    all_used_of_count (by omega)
  have hnone : find_unused_slot s.process_records = none := by
    rw [find_unused_slot_eq]
    exact find_process_by_pid_of_absent hall
  refine ⟨fun s1 s2 hstep i hi => step_pid hstep i hi, hall, ?_, ?_⟩
  · intro fuel args
    unfold perform_run
    split
    · exact ⟨_, by decide, rfl⟩
    · split
      · exact ⟨_, by decide, rfl⟩
      · simp only
        split
        · exact ⟨_, by decide, rfl⟩
        · rw [hnone]
          exact ⟨_, by decide, rfl⟩
  · intro fuel args hlen hprio
    unfold perform_run
    split
    · simp at hlen
    · rw [if_neg (by omega)]
      simp only
      rw [if_neg hprio, hnone]

theorem demo_runs_step (k : Nat) (hk : k < 20) :
    perform_run 30 env_ok ["prog", "P1"] (demo_runs k) = some (Outcome.ok, demo_runs (k + 1)) := by
  interval_cases k <;> rfl

theorem runs_done_demo : ∀ k, k ≤ 20 → RunsDone env_ok k (demo_runs k)
  | 0, _ => RunsDone.init
  | k + 1, hk =>
    RunsDone.run_ok 30 ["prog", "P1"] (runs_done_demo k (by omega)) (demo_runs_step k (by omega))

theorem run_fails_after_twenty_runs_witness :
    RunsDone env_ok 20 (demo_runs 20) ∧ 20 ≤ 20 ∧
    ((∀ s1 s2 : State, Step env_ok s1 s2 → ∀ i, (s1.process_records i).pid ≠ 0 →
      (s2.process_records i).pid = (s1.process_records i).pid) ∧
    (∀ i, ((demo_runs 20).process_records i).pid ≠ 0) ∧
    (∀ (fuel : Nat) (args : List String),
      ∃ r, r ≠ Outcome.ok ∧ perform_run fuel env_ok args (demo_runs 20) = some (r, demo_runs 20)) ∧
    (∀ (fuel : Nat) (args : List String), 2 ≤ args.length →
      parse_priority args.getLast? ≠ -1 →
      perform_run fuel env_ok args (demo_runs 20) = some (Outcome.no_slot, demo_runs 20))) :=
  ⟨runs_done_demo 20 (le_refl _), le_refl _,
    run_fails_after_twenty_runs env_ok 20 (demo_runs 20) (runs_done_demo 20 (le_refl _))
      (le_refl _)⟩

/-! ## C8 -/

/-- The scheduler never lowers the counter. -/
theorem schedule_running_count_le {env : Env} {fuel : Nat} {s s' : State}
    (h : schedule_processes fuel env s = some s') : s.running_count ≤ s'.running_count := by
  refine schedule_induct env (fun x => s.running_count ≤ x.running_count) ?_ ?_ fuel s s' h
    (le_refl _)
  · intro x k _ _ _ hP
    simp only at hP ⊢
    omega
  · intro x k _ _ _ hP
    exact hP

/-- The scheduler leaves a record that is not ready as it is. -/
theorem schedule_not_ready_same {env : Env} {fuel : Nat} {s s' : State}
    (h : schedule_processes fuel env s = some s') (i : Fin MAX_PROCESSES)
    (hi : (s.process_records i).status ≠ READY) :
    s'.process_records i = s.process_records i := by
  rcases schedule_frame env fuel s s' h i with h1 | h1
  · exact h1
  · exact absurd h1.1 hi

/-- C8: for every table and every positive pid argument, `perform_stop`
reports not-found when no record has the pid, already-terminated,
already-stopped or not-running when the first record with the pid is
`TERMINATED`, `STOPPED` or `READY`, and in each of these cases returns the
state unchanged (no system call, no scheduler run, whatever the fuel); when
that record is `RUNNING` it sends the suspend signal, marks the record
`STOPPED`, decrements the counter and runs the scheduler, and reports
success whenever it returns (it does when the signals succeed). -/
theorem perform_stop_cases (fuel : Nat) (env : Env) (a : String) (rest : List String)
    (s : State) (hpos : 0 < atoi a.toList) :
    ((∀ j, (s.process_records j).pid ≠ atoi a.toList) →
      perform_stop fuel env (a :: rest) s = some (Outcome.not_found, s)) ∧
    (∀ i, first_with_pid s.process_records (atoi a.toList) i →
      ((s.process_records i).status = TERMINATED →
        perform_stop fuel env (a :: rest) s = some (Outcome.already_terminated, s)) ∧
      ((s.process_records i).status = STOPPED →
        perform_stop fuel env (a :: rest) s = some (Outcome.already_stopped, s)) ∧
      ((s.process_records i).status = READY →
        perform_stop fuel env (a :: rest) s = some (Outcome.not_running, s)) ∧
      ((s.process_records i).status = RUNNING →
        perform_stop fuel env (a :: rest) s =
          (schedule_processes fuel env
            { process_records := Function.update s.process_records i
                { s.process_records i with status := STOPPED },
              running_count := s.running_count - 1,
              calls := SysCall.kill (s.process_records i).pid Signal.SIGSTOP :: s.calls }).map
            (fun s3 => (Outcome.ok, s3)) ∧
        (∀ r s', perform_stop fuel env (a :: rest) s = some (r, s') → r = Outcome.ok) ∧
        ((∀ n, env.kill_ret n = 0) →
          ∃ s', perform_stop 21 env (a :: rest) s = some (Outcome.ok, s')))) := by
  have hnp : ¬ atoi a.toList ≤ 0 := by omega
  refine ⟨?_, ?_⟩
  · intro habs
    simp only [perform_stop]
    rw [if_neg hnp, find_process_by_pid_of_absent habs]
  · intro i hfirst
    have hfind := find_process_by_pid_of_first hfirst
    have hrun : ∀ fuel', (s.process_records i).status = RUNNING →
        perform_stop fuel' env (a :: rest) s =
          (schedule_processes fuel' env
            { process_records := Function.update s.process_records i
                { s.process_records i with status := STOPPED },
              running_count := s.running_count - 1,
              calls := SysCall.kill (s.process_records i).pid Signal.SIGSTOP :: s.calls }).map
            (fun s3 => (Outcome.ok, s3)) := by
      intro fuel' hst
      simp only [perform_stop]
      rw [if_neg hnp, hfind]
      simp only [hst]
      rfl
    refine ⟨?_, ?_, ?_, ?_⟩
    · intro hst
      simp only [perform_stop]
      rw [if_neg hnp, hfind]
      simp only [hst, if_true]
    · intro hst
      simp only [perform_stop]
      rw [if_neg hnp, hfind]
      simp [hst]
    · intro hst
      simp only [perform_stop]
      rw [if_neg hnp, hfind]
      simp [hst]
    · intro hst
      refine ⟨hrun fuel hst, ?_, ?_⟩
      · intro r s' h
        rw [hrun fuel hst] at h
        obtain ⟨s3, _, heq⟩ := Option.map_eq_some'.mp h
        simp only [Prod.mk.injEq] at heq
        exact heq.1.symm
      · intro hsig
        obtain ⟨s', hs'⟩ := schedule_terminates env hsig
          { process_records := Function.update s.process_records i
              { s.process_records i with status := STOPPED },
            running_count := s.running_count - 1,
            calls := SysCall.kill (s.process_records i).pid Signal.SIGSTOP :: s.calls }
        exact ⟨s', by rw [hrun 21 hst, hs']; rfl⟩

theorem perform_stop_cases_witness :
    0 < atoi "100".toList ∧
    (perform_stop 30 env_ok ["100"] demo4).map
        (fun x => (x.1, (x.2.process_records 0).status, (x.2.process_records 3).status,
          x.2.running_count))
      = some (Outcome.ok, STOPPED, RUNNING, 3) ∧
    (((∀ j, (demo4.process_records j).pid ≠ atoi "100".toList) →
      perform_stop 30 env_ok ["100"] demo4 = some (Outcome.not_found, demo4)) ∧
    (∀ i, first_with_pid demo4.process_records (atoi "100".toList) i →
      ((demo4.process_records i).status = TERMINATED →
        perform_stop 30 env_ok ["100"] demo4 = some (Outcome.already_terminated, demo4)) ∧
      ((demo4.process_records i).status = STOPPED →
        perform_stop 30 env_ok ["100"] demo4 = some (Outcome.already_stopped, demo4)) ∧
      ((demo4.process_records i).status = READY →
        perform_stop 30 env_ok ["100"] demo4 = some (Outcome.not_running, demo4)) ∧
      ((demo4.process_records i).status = RUNNING →
        perform_stop 30 env_ok ["100"] demo4 =
          (schedule_processes 30 env_ok
            { process_records := Function.update demo4.process_records i
                { demo4.process_records i with status := STOPPED },
              running_count := demo4.running_count - 1,
              calls := SysCall.kill (demo4.process_records i).pid Signal.SIGSTOP ::
                demo4.calls }).map
            (fun s3 => (Outcome.ok, s3)) ∧
        (∀ r s', perform_stop 30 env_ok ["100"] demo4 = some (r, s') → r = Outcome.ok) ∧
        ((∀ n, env_ok.kill_ret n = 0) →
          ∃ s', perform_stop 21 env_ok ["100"] demo4 = some (Outcome.ok, s'))))) :=
  ⟨by decide, by decide, perform_stop_cases 30 env_ok "100" [] demo4 (by decide)⟩

/-! ## C9 -/

theorem kill_update_record (s : State) (i : Fin MAX_PROCESSES) :
    (kill_update s i).process_records i =
      { s.process_records i with command := none, priority_str := none, status := TERMINATED } := by
  unfold kill_update
  simp only
  split <;> simp

theorem kill_update_other (s : State) (i j : Fin MAX_PROCESSES) (hj : j ≠ i) :
    (kill_update s i).process_records j = s.process_records j := by
  unfold kill_update
  simp only
  split <;> simp [Function.update_noteq hj]

theorem kill_update_calls (s : State) (i : Fin MAX_PROCESSES) :
    (kill_update s i).calls = SysCall.kill (s.process_records i).pid Signal.SIGTERM :: s.calls := by
  unfold kill_update
  simp only
  split <;> rfl

theorem kill_update_count_running (s : State) (i : Fin MAX_PROCESSES)
    (h : (s.process_records i).status = RUNNING) :
    (kill_update s i).running_count = s.running_count - 1 := by
  unfold kill_update
  simp only [h, if_true]
  rfl

theorem kill_update_count_other (s : State) (i : Fin MAX_PROCESSES)
    (h : (s.process_records i).status ≠ RUNNING) :
    (kill_update s i).running_count = s.running_count := by
  unfold kill_update
  simp only [h, if_false]
  rfl

/-- C9: for every table and every positive pid argument, `perform_kill`
fails and returns the state unchanged when no record has the pid or the
first record with the pid is `TERMINATED`.  Otherwise it sends the terminate
signal, nulls `command` and `priority_str`, decrements the counter exactly
when the record was `RUNNING`, marks the record `TERMINATED` and runs the
scheduler; whenever it returns it reports success and that record is
`TERMINATED` with both strings null and its pid as before; if the record was
`RUNNING` and no record is `READY` it returns with the counter one less than
before; if the record was not `RUNNING` the counter handed to the scheduler
is the old one. -/
theorem perform_kill_cases (fuel : Nat) (env : Env) (a : String) (rest : List String)
    (s : State) (hpos : 0 < atoi a.toList) :
    ((∀ j, (s.process_records j).pid ≠ atoi a.toList) →
      perform_kill fuel env (a :: rest) s = some (Outcome.not_found, s)) ∧
    (∀ i, first_with_pid s.process_records (atoi a.toList) i →
      ((s.process_records i).status = TERMINATED →
        perform_kill fuel env (a :: rest) s = some (Outcome.already_terminated, s)) ∧
      ((s.process_records i).status ≠ TERMINATED →
        perform_kill fuel env (a :: rest) s =
          (schedule_processes fuel env (kill_update s i)).map (fun s4 => (Outcome.ok, s4)) ∧
        (kill_update s i).process_records i =
          { s.process_records i with
            command := none, priority_str := none, status := TERMINATED } ∧
        (kill_update s i).calls =
          SysCall.kill (s.process_records i).pid Signal.SIGTERM :: s.calls ∧
        ((s.process_records i).status = RUNNING →
          (kill_update s i).running_count = s.running_count - 1) ∧
        ((s.process_records i).status ≠ RUNNING →
          (kill_update s i).running_count = s.running_count) ∧
        (∀ r s', perform_kill fuel env (a :: rest) s = some (r, s') →
          r = Outcome.ok ∧
          s'.process_records i =
            { s.process_records i with
              command := none, priority_str := none, status := TERMINATED } ∧
          ((s.process_records i).status ≠ RUNNING → s.running_count ≤ s'.running_count)) ∧
        ((s.process_records i).status = RUNNING →
          (∀ j, (s.process_records j).status ≠ READY) →
          ∃ s', perform_kill (fuel + 1) env (a :: rest) s = some (Outcome.ok, s') ∧
            s'.running_count = s.running_count - 1 ∧
            s'.process_records i =
              { s.process_records i with
                command := none, priority_str := none, status := TERMINATED } ∧
            ∀ j, j ≠ i → s'.process_records j = s.process_records j) ∧
        ((∀ n, env.kill_ret n = 0) →
          ∃ s', perform_kill 21 env (a :: rest) s = some (Outcome.ok, s')))) := by
  have hnp : ¬ atoi a.toList ≤ 0 := by omega
  refine ⟨?_, ?_⟩
  · intro habs
    simp only [perform_kill]
    rw [if_neg hnp, find_process_by_pid_of_absent habs]
  · intro i hfirst
    have hfind := find_process_by_pid_of_first hfirst
    refine ⟨?_, ?_⟩
    · intro hst
      simp only [perform_kill]
      rw [if_neg hnp, hfind]
      simp only [hst, if_true]
    · intro hst
      have hrun : ∀ fuel', perform_kill fuel' env (a :: rest) s =
          (schedule_processes fuel' env (kill_update s i)).map
            (fun s4 => (Outcome.ok, s4)) := by
        intro fuel'
        simp only [perform_kill]
        rw [if_neg hnp, hfind]
        simp only [hst, if_false]
      refine ⟨hrun fuel, kill_update_record s i, kill_update_calls s i,
        kill_update_count_running s i, kill_update_count_other s i, ?_, ?_, ?_⟩
      · intro r s' h
        rw [hrun fuel] at h
        obtain ⟨s4, hs4, heq⟩ := Option.map_eq_some'.mp h
        simp only [Prod.mk.injEq] at heq
        refine ⟨heq.1.symm, ?_, ?_⟩
        · rw [← heq.2, schedule_not_ready_same hs4 i, kill_update_record]
          rw [kill_update_record]
          simp
        · intro hnr
          rw [← heq.2, ← kill_update_count_other s i hnr]
          exact schedule_running_count_le hs4
      · intro hr hnone
        refine ⟨kill_update s i, ?_, kill_update_count_running s i hr,
          kill_update_record s i, fun j hj => kill_update_other s i j hj⟩
        rw [hrun (fuel + 1), schedule_no_ready]
        · rfl
        · intro j hj
          by_cases hji : j = i
          · subst hji
            rw [kill_update_record] at hj
            simp at hj
          · rw [kill_update_other s i j hji] at hj
            exact hnone j hj.1
      · intro hsig
        obtain ⟨s', hs'⟩ := schedule_terminates env hsig (kill_update s i)
        exact ⟨s', by rw [hrun 21, hs']; rfl⟩

theorem perform_kill_cases_witness :
    0 < atoi "104".toList ∧
    (perform_kill 30 env_ok ["104"] demo3).map
        (fun x => (x.1, (x.2.process_records 1).status, (x.2.process_records 1).command,
          (x.2.process_records 1).priority_str, (x.2.process_records 1).pid,
          x.2.running_count))
      = some (Outcome.ok, TERMINATED, none, none, 104, 2) ∧
    (((∀ j, (demo3.process_records j).pid ≠ atoi "104".toList) →
      perform_kill 30 env_ok ["104"] demo3 = some (Outcome.not_found, demo3)) ∧
    (∀ i, first_with_pid demo3.process_records (atoi "104".toList) i →
      ((demo3.process_records i).status = TERMINATED →
        perform_kill 30 env_ok ["104"] demo3 = some (Outcome.already_terminated, demo3)) ∧
      ((demo3.process_records i).status ≠ TERMINATED →
        perform_kill 30 env_ok ["104"] demo3 =
          (schedule_processes 30 env_ok (kill_update demo3 i)).map
            (fun s4 => (Outcome.ok, s4)) ∧
        (kill_update demo3 i).process_records i =
          { demo3.process_records i with
            command := none, priority_str := none, status := TERMINATED } ∧
        (kill_update demo3 i).calls =
          SysCall.kill (demo3.process_records i).pid Signal.SIGTERM :: demo3.calls ∧
        ((demo3.process_records i).status = RUNNING →
          (kill_update demo3 i).running_count = demo3.running_count - 1) ∧
        ((demo3.process_records i).status ≠ RUNNING →
          (kill_update demo3 i).running_count = demo3.running_count) ∧
        (∀ r s', perform_kill 30 env_ok ["104"] demo3 = some (r, s') →
          r = Outcome.ok ∧
          s'.process_records i =
            { demo3.process_records i with
              command := none, priority_str := none, status := TERMINATED } ∧
          ((demo3.process_records i).status ≠ RUNNING →
            demo3.running_count ≤ s'.running_count)) ∧
        ((demo3.process_records i).status = RUNNING →
          (∀ j, (demo3.process_records j).status ≠ READY) →
          ∃ s', perform_kill (30 + 1) env_ok ["104"] demo3 = some (Outcome.ok, s') ∧
            s'.running_count = demo3.running_count - 1 ∧
            s'.process_records i =
              { demo3.process_records i with
                command := none, priority_str := none, status := TERMINATED } ∧
            ∀ j, j ≠ i → s'.process_records j = demo3.process_records j) ∧
        ((∀ n, env_ok.kill_ret n = 0) →
          ∃ s', perform_kill 21 env_ok ["104"] demo3 = some (Outcome.ok, s'))))) :=
  ⟨by decide, rfl, perform_kill_cases 30 env_ok "104" [] demo3 (by decide)⟩

/-! ## C10 -/

/-- C10: for every table and every positive pid argument, `perform_resume`
fails and returns the state unchanged when no record has the pid or the
first record with the pid is not `STOPPED`.  When it is `STOPPED` and
`running_count` is below `MAX_RUNNING`, the continue signal is sent, that
record becomes `RUNNING` and the counter goes up by one; when the budget is
used up, no system call is made, that record becomes `READY` and the counter
stays.  In both cases every other record is as before. -/
theorem perform_resume_cases (a : String) (rest : List String) (s : State)
    (hpos : 0 < atoi a.toList) :
    ((∀ j, (s.process_records j).pid ≠ atoi a.toList) →
      perform_resume (a :: rest) s = (Outcome.not_found, s)) ∧
    (∀ i, first_with_pid s.process_records (atoi a.toList) i →
      ((s.process_records i).status = TERMINATED →
        perform_resume (a :: rest) s = (Outcome.already_terminated, s)) ∧
      ((s.process_records i).status = RUNNING ∨ (s.process_records i).status = READY →
        perform_resume (a :: rest) s = (Outcome.not_stopped, s)) ∧
      ((s.process_records i).status = STOPPED → s.running_count < MAX_RUNNING →
        perform_resume (a :: rest) s =
          (Outcome.ok,
            { process_records := Function.update s.process_records i
                { s.process_records i with status := RUNNING },
              running_count := s.running_count + 1,
              calls := SysCall.kill (s.process_records i).pid Signal.SIGCONT :: s.calls })) ∧
      ((s.process_records i).status = STOPPED → MAX_RUNNING ≤ s.running_count →
        perform_resume (a :: rest) s =
          (Outcome.ok,
            { process_records := Function.update s.process_records i
                { s.process_records i with status := READY },
              running_count := s.running_count,
              calls := s.calls })) ∧
      ((s.process_records i).status = STOPPED →
        ∀ j, j ≠ i →
          (perform_resume (a :: rest) s).2.process_records j = s.process_records j)) := by
  have hnp : ¬ atoi a.toList ≤ 0 := by omega
  refine ⟨?_, ?_⟩
  · intro habs
    simp only [perform_resume]
    rw [if_neg hnp, find_process_by_pid_of_absent habs]
  · intro i hfirst
    have hfind := find_process_by_pid_of_first hfirst
    refine ⟨?_, ?_, ?_, ?_, ?_⟩
    · intro hst
      simp only [perform_resume]
      rw [if_neg hnp, hfind]
      simp only [hst, if_true]
    · intro hst
      simp only [perform_resume]
      rw [if_neg hnp, hfind]
      rcases hst with hst | hst <;> simp [hst]
    · intro hst hlt
      simp only [perform_resume]
      rw [if_neg hnp, hfind]
      simp only [hst]
      simp [hlt, State.set, State.sys]
    · intro hst hge
      have hnlt : ¬ s.running_count < MAX_RUNNING := by omega
      simp only [perform_resume]
      rw [if_neg hnp, hfind]
      simp only [hst]
      simp [hnlt, State.set]
    · intro hst j hj
      simp only [perform_resume]
      rw [if_neg hnp, hfind]
      simp only [hst]
      by_cases hlt : s.running_count < MAX_RUNNING
      · simp [hlt, Function.update_noteq hj]
      · simp [hlt, Function.update_noteq hj]

theorem perform_resume_cases_witness :
    0 < atoi "100".toList ∧
    (demo_stopped.process_records 0).status = STOPPED ∧
    demo_stopped.running_count = 2 ∧
    ((perform_resume ["100"] demo_stopped).1,
      ((perform_resume ["100"] demo_stopped).2.process_records 0).status,
      (perform_resume ["100"] demo_stopped).2.running_count)
      = (Outcome.ok, RUNNING, 3) ∧
    (((∀ j, (demo_stopped.process_records j).pid ≠ atoi "100".toList) →
      perform_resume ["100"] demo_stopped = (Outcome.not_found, demo_stopped)) ∧
    (∀ i, first_with_pid demo_stopped.process_records (atoi "100".toList) i →
      ((demo_stopped.process_records i).status = TERMINATED →
        perform_resume ["100"] demo_stopped = (Outcome.already_terminated, demo_stopped)) ∧
      ((demo_stopped.process_records i).status = RUNNING ∨
          (demo_stopped.process_records i).status = READY →
        perform_resume ["100"] demo_stopped = (Outcome.not_stopped, demo_stopped)) ∧
      ((demo_stopped.process_records i).status = STOPPED →
          demo_stopped.running_count < MAX_RUNNING →
        perform_resume ["100"] demo_stopped =
          (Outcome.ok,
            { process_records := Function.update demo_stopped.process_records i
                { demo_stopped.process_records i with status := RUNNING },
              running_count := demo_stopped.running_count + 1,
              calls := SysCall.kill (demo_stopped.process_records i).pid Signal.SIGCONT ::
                demo_stopped.calls })) ∧
      ((demo_stopped.process_records i).status = STOPPED →
          MAX_RUNNING ≤ demo_stopped.running_count →
        perform_resume ["100"] demo_stopped =
          (Outcome.ok,
            { process_records := Function.update demo_stopped.process_records i
                { demo_stopped.process_records i with status := READY },
              running_count := demo_stopped.running_count,
              calls := demo_stopped.calls })) ∧
      ((demo_stopped.process_records i).status = STOPPED →
        ∀ j, j ≠ i →
          (perform_resume ["100"] demo_stopped).2.process_records j
            = demo_stopped.process_records j))) :=
  ⟨by decide, by decide, by decide, by decide,
    perform_resume_cases "100" [] demo_stopped (by decide)⟩

/-! ## Work conservation when the signals succeed -/

theorem fh_from_below (t : Table) :
    ∀ (l : List (Fin MAX_PROCESSES)) (b : Best),
      (b.best_priority < INT_MAX ∨ (b.best_priority = INT_MAX ∧ b.best_arrival ≤ 0)) →
      (b.best_index ≠ none →
        (b.best_priority < INT_MAX ∨ (b.best_priority = INT_MAX ∧ b.best_arrival < 0))) →
      ((find_highest_priority_ready_from t l b).best_index ≠ none →
        ((find_highest_priority_ready_from t l b).best_priority < INT_MAX ∨
          ((find_highest_priority_ready_from t l b).best_priority = INT_MAX ∧
            (find_highest_priority_ready_from t l b).best_arrival < 0))) := by
  intro l
  induction l with
  | nil => intro b _ h2; simpa [find_highest_priority_ready_from] using h2
  | cons i rest ih =>
    intro b h1 h2
    simp only [find_highest_priority_ready_from]
    split
    · split
      · rename_i hlt
        apply ih
        · simp only; omega
        · intro _; simp only; omega
      · exact ih b h1 h2
    · exact ih b h1 h2

/-- The record `find_highest_priority_ready` returns is selectable. -/
theorem fh_selectable {t : Table} {k : Fin MAX_PROCESSES}
    (h : find_highest_priority_ready t = some k) : selectable (t k) := by
  have hok := fh_from_ok t (List.finRange MAX_PROCESSES)
    { best_index := none, best_priority := INT_MAX, best_arrival := 0 }
    (by intro j hj; simp at hj) k h
  have hb := fh_from_below t (List.finRange MAX_PROCESSES)
    { best_index := none, best_priority := INT_MAX, best_arrival := 0 }
    (by simp) (by simp)
    (by unfold find_highest_priority_ready at h; rw [h]; simp)
  refine ⟨⟨hok.1, hok.2.1⟩, ?_⟩
  rw [hok.2.2.1, hok.2.2.2]
  exact hb

/-- The selection returns nothing exactly when no record is selectable. -/
theorem fh_none_iff (t : Table) :
    find_highest_priority_ready t = none ↔ ∀ i, ¬ selectable (t i) := by
  constructor
  · intro hnone i hi
    have heq := fh_from_none_eq t (List.finRange MAX_PROCESSES)
      { best_index := none, best_priority := INT_MAX, best_arrival := 0 } hnone
    have hle := (fh_from_le t (List.finRange MAX_PROCESSES)
      { best_index := none, best_priority := INT_MAX, best_arrival := 0 }).2 i
        (List.mem_finRange i) hi.1.1 hi.1.2
    rw [heq] at hle
    simp only at hle
    have := hi.2
    omega
  · intro hall
    cases hf : find_highest_priority_ready t with
    | none => rfl
    | some k => exact absurd (fh_selectable hf) (hall k)

/-- When the scheduler returns, the budget is used up or nothing is
selectable, whatever the state it started from. -/
theorem schedule_work_conserving (env : Env) :
    ∀ (fuel : Nat) (s s' : State), schedule_processes fuel env s = some s' →
      work_conserving s' := by
  intro fuel
  induction fuel with
  | zero => intro s s' h; simp [schedule_processes] at h
  | succ n ih =>
    intro s s' h
    simp only [schedule_processes] at h
    split at h
    · split at h
      · rename_i hnone
        simp only [Option.some.injEq] at h
        subst h
        intro _
        exact (fh_none_iff _).mp hnone
      · split at h
        · exact ih _ _ h
        · exact ih _ _ h
    · rename_i hge
      simp only [Option.some.injEq] at h
      subst h
      intro hlt
      exact absurd hlt hge

theorem perform_run_wc {fuel : Nat} {env : Env} {args : List String} {s s' : State}
    {r : Outcome} (h : perform_run fuel env args s = some (r, s')) (hw : work_conserving s) :
    work_conserving s' := by
  by_cases hr : r = Outcome.ok
  · subst hr
    unfold perform_run at h
    split at h
    · simp at h
    · split at h
      · simp at h
      · simp only at h
        split at h
        · simp at h
        · split at h
          · simp at h
          · split at h
            · simp at h
            · split at h
              · simp at h
              · obtain ⟨s5, hs5, heq⟩ := Option.map_eq_some'.mp h
                simp only [Prod.mk.injEq, true_and] at heq
                rw [← heq]
                exact schedule_work_conserving env fuel _ s5 hs5
  · have hf := perform_run_failed h hr
    intro hlt i
    rw [hf.1]
    rw [hf.2] at hlt
    exact hw hlt i

theorem perform_stop_wc {fuel : Nat} {env : Env} {args : List String} {s s' : State}
    {r : Outcome} (h : perform_stop fuel env args s = some (r, s')) (hw : work_conserving s) :
    work_conserving s' := by
  unfold perform_stop at h
  split at h
  · simp only [Option.some.injEq, Prod.mk.injEq] at h; exact h.2 ▸ hw
  · simp only at h
    split at h
    · simp only [Option.some.injEq, Prod.mk.injEq] at h; exact h.2 ▸ hw
    · split at h
      · simp only [Option.some.injEq, Prod.mk.injEq] at h; exact h.2 ▸ hw
      · split at h
        · simp only [Option.some.injEq, Prod.mk.injEq] at h; exact h.2 ▸ hw
        · split at h
          · simp only [Option.some.injEq, Prod.mk.injEq] at h; exact h.2 ▸ hw
          · split at h
            · simp only [Option.some.injEq, Prod.mk.injEq] at h; exact h.2 ▸ hw
            · obtain ⟨s3, hs3, heq⟩ := Option.map_eq_some'.mp h
              simp only [Prod.mk.injEq] at heq
              rw [← heq.2]
              exact schedule_work_conserving env fuel _ s3 hs3

theorem perform_kill_wc {fuel : Nat} {env : Env} {args : List String} {s s' : State}
    {r : Outcome} (h : perform_kill fuel env args s = some (r, s')) (hw : work_conserving s) :
    work_conserving s' := by
  unfold perform_kill at h
  split at h
  · simp only [Option.some.injEq, Prod.mk.injEq] at h; exact h.2 ▸ hw
  · simp only at h
    split at h
    · simp only [Option.some.injEq, Prod.mk.injEq] at h; exact h.2 ▸ hw
    · split at h
      · simp only [Option.some.injEq, Prod.mk.injEq] at h; exact h.2 ▸ hw
      · split at h
        · simp only [Option.some.injEq, Prod.mk.injEq] at h; exact h.2 ▸ hw
        · obtain ⟨s3, hs3, heq⟩ := Option.map_eq_some'.mp h
          simp only [Prod.mk.injEq] at heq
          rw [← heq.2]
          exact schedule_work_conserving env fuel _ s3 hs3

theorem perform_resume_wc (args : List String) {s : State} (hw : work_conserving s) :
    work_conserving (perform_resume args s).2 := by
  unfold perform_resume
  split
  · exact hw
  · simp only
    split
    · exact hw
    · split
      · exact hw
      · rename_i index hfind
        split
        · exact hw
        · split
          · exact hw
          · split
            · rename_i hlt
              intro _ i hsel
              by_cases hi : i = index
              · subst hi
                simp [selectable, is_ready] at hsel
              · simp only [set_process_records, sys_process_records,
                  Function.update_noteq hi] at hsel
                exact hw hlt i hsel
            · rename_i hge
              intro hlt
              exact absurd hlt hge

theorem check_completed_from_wc (fuel : Nat) (env : Env) :
    ∀ (l : List (Fin MAX_PROCESSES)) (s s' : State),
      check_completed_processes_from fuel env l s = some s' →
      work_conserving s → work_conserving s' := by
  intro l
  induction l with
  | nil =>
    intro s s' h hw
    simp only [check_completed_processes_from, Option.some.injEq] at h
    exact h ▸ hw
  | cons a rest ih =>
    intro s s' h hw
    simp only [check_completed_processes_from] at h
    split at h
    · split at h
      · split at h
        · simp at h
        · rename_i s2 hs2
          exact ih _ _ h (schedule_work_conserving env fuel _ s2 hs2)
      · exact ih _ _ h hw
    · exact ih _ _ h hw

/-- Every reachable state is work conserving: when a running slot is free,
no record is selectable. -/
theorem reachable_work_conserving {env : Env} {s : State} (h : Reachable env s) :
    work_conserving s := by
  induction h with
  | init => intro _ i hsel; simp [selectable, is_ready, init_state, empty_record] at hsel
  | run fuel args _ hstep ih => exact perform_run_wc hstep ih
  | stop fuel args _ hstep ih => exact perform_stop_wc hstep ih
  | kill fuel args _ hstep ih => exact perform_kill_wc hstep ih
  | resume args _ ih => exact perform_resume_wc args ih
  | reaper fuel _ hstep ih => exact check_completed_from_wc fuel env _ _ _ hstep ih

/-! ## The `run` command below `INT_MAX` -/

theorem run_queued_record (env : Env) (args : List String) (s : State)
    (index : Fin MAX_PROCESSES) :
    (run_queued env args s index).process_records index =
      { pid := env.fork_ret s.calls.length, status := READY,
        command := some (" ".intercalate args.dropLast),
        priority_num := parse_priority args.getLast?,
        priority_str := args.getLast?,
        arrival_time := env.time_ret (s.calls.length + 1) } := by
  simp [run_queued]

theorem run_queued_other (env : Env) (args : List String) (s : State)
    (index j : Fin MAX_PROCESSES) (hj : j ≠ index) :
    (run_queued env args s index).process_records j = s.process_records j := by
  simp [run_queued, Function.update_noteq hj]

theorem run_queued_running_count (env : Env) (args : List String) (s : State)
    (index : Fin MAX_PROCESSES) :
    (run_queued env args s index).running_count = s.running_count := rfl

/-- Where the priority number is below `INT_MAX`, the claim on `run` holds:
from a reachable state with a free slot, with every signal and the fork
succeeding, `perform_run` returns, and the new record is `RUNNING` if
`running_count` was below `MAX_RUNNING` and `READY` otherwise. -/
theorem perform_run_below_int_max (env : Env) (s : State) (hreach : Reachable env s)
    (hsig : ∀ n, env.kill_ret n = 0) (args : List String) (hlen : 2 ≤ args.length)
    (hprio : parse_priority args.getLast? ≠ -1)
    (hlt : parse_priority args.getLast? < INT_MAX)
    (index : Fin MAX_PROCESSES) (hslot : find_unused_slot s.process_records = some index)
    (hfork : 0 < env.fork_ret s.calls.length) :
    (∃ s', perform_run 21 env args s = some (Outcome.ok, s')) ∧
    ∀ (fuel : Nat) (r : Outcome) (s' : State), perform_run fuel env args s = some (r, s') →
      r = Outcome.ok ∧
      (s.running_count < MAX_RUNNING → (s'.process_records index).status = RUNNING) ∧
      (¬ s.running_count < MAX_RUNNING → (s'.process_records index).status = READY) := by
  have hrun : ∀ fuel, perform_run fuel env args s =
      (schedule_processes fuel env (run_queued env args s index)).map
        (fun s5 => (Outcome.ok, s5)) := by
    intro fuel
    unfold perform_run
    split
    · simp at hlen
    · rw [if_neg (by omega)]
      simp only
      rw [if_neg hprio, hslot]
      simp only
      rw [if_neg (by omega), if_neg (by omega)]
  refine ⟨?_, ?_⟩
  · obtain ⟨s', hs'⟩ := schedule_terminates env hsig (run_queued env args s index)
    exact ⟨s', by rw [hrun 21, hs']; rfl⟩
  · intro fuel r s' h
    rw [hrun fuel] at h
    obtain ⟨s5, hs5, heq⟩ := Option.map_eq_some'.mp h
    simp only [Prod.mk.injEq] at heq
    refine ⟨heq.1.symm, ?_, ?_⟩
    · intro hfree
      rw [← heq.2]
      have hw := reachable_work_conserving hreach hfree
      have hready : is_ready ((run_queued env args s index).process_records index) := by
        rw [run_queued_record]
        exact ⟨rfl, hfork⟩
      cases fuel with
      | zero => simp [schedule_processes] at hs5
      | succ n =>
        simp only [schedule_processes] at hs5
        rw [if_pos (by rw [run_queued_running_count]; exact hfree)] at hs5
        obtain ⟨k, hk⟩ := fh_some_of_ready index hready
          (by rw [run_queued_record]; exact hlt)
        have hki : k = index := by
          by_contra hne
          have hsel := fh_selectable hk
          rw [run_queued_other env args s index k hne] at hsel
          exact hw k hsel
        subst hki
        rw [hk] at hs5
        simp only at hs5
        rw [if_pos (hsig _)] at hs5
        rw [schedule_not_ready_same hs5 k (by simp)]
        simp
    · intro hfull
      rw [← heq.2]
      cases fuel with
      | zero => simp [schedule_processes] at hs5
      | succ n =>
        rw [schedule_full env n _ (by rw [run_queued_running_count]; omega)] at hs5
        simp only [Option.some.injEq] at hs5
        rw [← hs5, run_queued_record]

/-! ## How records evolve -/

theorem rec_evolves_refl (r : process_record) : rec_evolves r r := Or.inl rfl

theorem rec_evolves_trans {r1 r2 r3 : process_record} (h12 : rec_evolves r1 r2)
    (h23 : rec_evolves r2 r3) : rec_evolves r1 r3 := by
  rcases h12 with h12 | h12
  · rw [h12] at h23; exact h23
  · rcases h23 with h23 | h23
    · rw [h23]; exact Or.inr h12
    · obtain ⟨hp, hs, e1, e2, e3, h4⟩ := h12
      obtain ⟨hp', hs', f1, f2, f3, g4⟩ := h23
      rcases h4 with h4 | h4
      · refine Or.inr ⟨hp, hs, by rw [f1, e1], by rw [f2, e2], by rw [f3, e3], ?_⟩
        rcases g4 with g4 | g4
        · exact Or.inl ⟨g4.1, by rw [g4.2.1, h4.2.1], by rw [g4.2.2, h4.2.2]⟩
        · exact Or.inr g4
      · exact absurd h4.1 hs'

theorem evolves_refl (s : State) : evolves s s :=
  ⟨fun _ => rec_evolves_refl _, le_refl _⟩

theorem evolves_trans {s1 s2 s3 : State} (h12 : evolves s1 s2) (h23 : evolves s2 s3) :
    evolves s1 s3 :=
  ⟨fun i => rec_evolves_trans (h12.1 i) (h23.1 i), le_trans h12.2 h23.2⟩

theorem evolves_update (s : State) (i : Fin MAX_PROCESSES) (r : process_record) (rc : Int)
    (c : List SysCall) (hr : rec_evolves (s.process_records i) r)
    (hc : s.calls.length ≤ c.length) :
    evolves s { process_records := Function.update s.process_records i r,
                running_count := rc, calls := c } := by
  refine ⟨?_, hc⟩
  intro j
  by_cases hji : j = i
  · subst hji; simpa using hr
  · simp only [Function.update_noteq hji]; exact rec_evolves_refl _

theorem evolves_sys (s : State) (c : SysCall) : evolves s (s.sys c) :=
  ⟨fun _ => rec_evolves_refl _, by simp⟩

/-- A change of status alone, away from and not into `TERMINATED`. -/
theorem rec_evolves_status (r : process_record) (st : process_status) (hp : r.pid > 0)
    (hs : r.status ≠ TERMINATED) (hst : st ≠ TERMINATED) :
    rec_evolves r { r with status := st } :=
  Or.inr ⟨hp, hs, rfl, rfl, rfl, Or.inl ⟨hst, rfl, rfl⟩⟩

/-- Termination of a record that was not `TERMINATED`. -/
theorem rec_evolves_terminate (r : process_record) (hp : r.pid > 0)
    (hs : r.status ≠ TERMINATED) :
    rec_evolves r { r with command := none, priority_str := none, status := TERMINATED } :=
  Or.inr ⟨hp, hs, rfl, rfl, rfl, Or.inr ⟨rfl, rfl, rfl⟩⟩

theorem schedule_evolves {env : Env} {fuel : Nat} {s s' : State}
    (h : schedule_processes fuel env s = some s') : evolves s s' := by
  refine schedule_induct env (fun x => evolves s x) ?_ ?_ fuel s s' h (evolves_refl s)
  · intro x k _ hk _ hP
    have hr := fh_ready hk
    refine evolves_trans hP ?_
    apply evolves_update x k
    · exact rec_evolves_status _ RUNNING hr.2 (by rw [hr.1]; decide) (by decide)
    · simp
  · intro x k _ _ _ hP
    exact evolves_trans hP (evolves_sys x _)

theorem perform_stop_evolves {fuel : Nat} {env : Env} {args : List String} {s s' : State}
    {r : Outcome} (h : perform_stop fuel env args s = some (r, s')) : evolves s s' := by
  unfold perform_stop at h
  split at h
  · simp only [Option.some.injEq, Prod.mk.injEq] at h; exact h.2 ▸ evolves_refl s
  · simp only at h
    split at h
    · simp only [Option.some.injEq, Prod.mk.injEq] at h; exact h.2 ▸ evolves_refl s
    · rename_i hpid
      split at h
      · simp only [Option.some.injEq, Prod.mk.injEq] at h; exact h.2 ▸ evolves_refl s
      · rename_i index hfind
        split at h
        · simp only [Option.some.injEq, Prod.mk.injEq] at h; exact h.2 ▸ evolves_refl s
        · split at h
          · simp only [Option.some.injEq, Prod.mk.injEq] at h; exact h.2 ▸ evolves_refl s
          · split at h
            · simp only [Option.some.injEq, Prod.mk.injEq] at h; exact h.2 ▸ evolves_refl s
            · rename_i h1 h2 h3
              obtain ⟨s3, hs3, heq⟩ := Option.map_eq_some'.mp h
              simp only [Prod.mk.injEq] at heq
              rw [← heq.2]
              refine evolves_trans ?_ (schedule_evolves hs3)
              have hfirst := find_process_by_pid_some hfind
              apply evolves_update s index
              · exact rec_evolves_status _ STOPPED (by rw [hfirst.1]; omega) h1 (by decide)
              · simp

theorem kill_update_evolves (s : State) (index : Fin MAX_PROCESSES)
    (hp : (s.process_records index).pid > 0)
    (hs : (s.process_records index).status ≠ TERMINATED) :
    evolves s (kill_update s index) := by
  refine ⟨?_, ?_⟩
  · intro j
    by_cases hj : j = index
    · subst hj
      rw [kill_update_record]
      exact rec_evolves_terminate _ hp hs
    · rw [kill_update_other s index j hj]
      exact rec_evolves_refl _
  · rw [kill_update_calls]; simp

theorem perform_kill_evolves {fuel : Nat} {env : Env} {args : List String} {s s' : State}
    {r : Outcome} (h : perform_kill fuel env args s = some (r, s')) : evolves s s' := by
  unfold perform_kill at h
  split at h
  · simp only [Option.some.injEq, Prod.mk.injEq] at h; exact h.2 ▸ evolves_refl s
  · simp only at h
    split at h
    · simp only [Option.some.injEq, Prod.mk.injEq] at h; exact h.2 ▸ evolves_refl s
    · split at h
      · simp only [Option.some.injEq, Prod.mk.injEq] at h; exact h.2 ▸ evolves_refl s
      · rename_i index hfind
        split at h
        · simp only [Option.some.injEq, Prod.mk.injEq] at h; exact h.2 ▸ evolves_refl s
        · rename_i hst
          obtain ⟨s3, hs3, heq⟩ := Option.map_eq_some'.mp h
          simp only [Prod.mk.injEq] at heq
          rw [← heq.2]
          have hfirst := find_process_by_pid_some hfind
          exact evolves_trans
            (kill_update_evolves s index (by rw [hfirst.1]; omega) hst)
            (schedule_evolves hs3)

theorem perform_resume_evolves (args : List String) (s : State) :
    evolves s (perform_resume args s).2 := by
  unfold perform_resume
  split
  · exact evolves_refl s
  · simp only
    split
    · exact evolves_refl s
    · split
      · exact evolves_refl s
      · rename_i index hfind
        have hfirst := find_process_by_pid_some hfind
        split
        · exact evolves_refl s
        · rename_i hterm
          split
          · exact evolves_refl s
          · split
            · apply evolves_update s index
              · exact rec_evolves_status _ RUNNING (by rw [hfirst.1]; omega) hterm (by decide)
              · simp
            · apply evolves_update s index
              · exact rec_evolves_status _ READY (by rw [hfirst.1]; omega) hterm (by decide)
              · simp

theorem check_completed_from_evolves (fuel : Nat) (env : Env) :
    ∀ (l : List (Fin MAX_PROCESSES)) (s s' : State),
      check_completed_processes_from fuel env l s = some s' → evolves s s' := by
  intro l
  induction l with
  | nil =>
    intro s s' h
    simp only [check_completed_processes_from, Option.some.injEq] at h
    exact h ▸ evolves_refl s
  | cons a rest ih =>
    intro s s' h
    simp only [check_completed_processes_from] at h
    split at h
    · rename_i hrun
      split at h
      · split at h
        · simp at h
        · rename_i s2 hs2
          refine evolves_trans (evolves_trans ?_ (schedule_evolves hs2)) (ih _ _ h)
          apply evolves_update s a
          · exact rec_evolves_terminate _ hrun.2 (by rw [hrun.1]; decide)
          · simp
      · exact evolves_trans (evolves_sys s _) (ih _ _ h)
    · exact ih _ _ h

/-- A `run` that succeeds passed its checks, allocated the first unused slot
and handed the queued state to the scheduler. -/
theorem perform_run_ok_queued {fuel : Nat} {env : Env} {args : List String} {s s' : State}
    (h : perform_run fuel env args s = some (Outcome.ok, s')) :
    ∃ index, find_unused_slot s.process_records = some index ∧
      2 ≤ args.length ∧ parse_priority args.getLast? ≠ -1 ∧
      0 < env.fork_ret s.calls.length ∧
      schedule_processes fuel env (run_queued env args s index) = some s' := by
  unfold perform_run at h
  split at h
  · simp at h
  · split at h
    · simp at h
    · rename_i hlen
      simp only at h
      split at h
      · simp at h
      · rename_i hprio
        split at h
        · simp at h
        · rename_i index hfind
          split at h
          · simp at h
          · split at h
            · simp at h
            · rename_i hneg hzero
              obtain ⟨s5, hs5, heq⟩ := Option.map_eq_some'.mp h
              simp only [Prod.mk.injEq, true_and] at heq
              refine ⟨index, hfind, by omega, hprio, by omega, ?_⟩
              rw [← heq]; exact hs5

theorem perform_run_calls {fuel : Nat} {env : Env} {args : List String} {s s' : State}
    {r : Outcome} (h : perform_run fuel env args s = some (r, s')) :
    s.calls.length ≤ s'.calls.length := by
  by_cases hr : r = Outcome.ok
  · subst hr
    obtain ⟨index, _, _, _, _, hs⟩ := perform_run_ok_queued h
    have := (schedule_evolves hs).2
    simp only [run_queued, set_calls, sys_calls, List.length_cons] at this
    omega
  · unfold perform_run at h
    split at h
    · simp only [Option.some.injEq, Prod.mk.injEq] at h; rw [← h.2]
    · split at h
      · simp only [Option.some.injEq, Prod.mk.injEq] at h; rw [← h.2]
      · simp only at h
        split at h
        · simp only [Option.some.injEq, Prod.mk.injEq] at h; rw [← h.2]
        · split at h
          · simp only [Option.some.injEq, Prod.mk.injEq] at h; rw [← h.2]
          · split at h
            · simp only [Option.some.injEq, Prod.mk.injEq] at h; rw [← h.2]; simp
            · split at h
              · simp at h
              · obtain ⟨s5, _, heq⟩ := Option.map_eq_some'.mp h
                simp only [Prod.mk.injEq] at heq
                exact absurd heq.1.symm hr

/-- Every operation lets the records of allocated slots evolve. -/
theorem step_rec_evolves {env : Env} {s s' : State} (h : Step env s s')
    (i : Fin MAX_PROCESSES) (hi : (s.process_records i).pid ≠ 0) :
    rec_evolves (s.process_records i) (s'.process_records i) := by
  cases h with
  | run fuel args hstep =>
    rename_i r
    by_cases hr : r = Outcome.ok
    · subst hr
      obtain ⟨index, hfind, _, _, _, hs⟩ := perform_run_ok_queued hstep
      rw [find_unused_slot_eq] at hfind
      have hne : i ≠ index := by
        intro heq
        rw [heq] at hi
        exact hi (find_process_by_pid_some hfind).1
      have := (schedule_evolves hs).1 i
      rw [run_queued_other env args s index i hne] at this
      exact this
    · rw [(perform_run_failed hstep hr).1]; exact rec_evolves_refl _
  | stop fuel args hstep => exact (perform_stop_evolves hstep).1 i
  | kill fuel args hstep => exact (perform_kill_evolves hstep).1 i
  | resume args => exact (perform_resume_evolves args s).1 i
  | reaper fuel hstep => exact (check_completed_from_evolves fuel env _ _ _ hstep).1 i

/-- No operation shortens the log of system calls. -/
theorem step_calls {env : Env} {s s' : State} (h : Step env s s') :
    s.calls.length ≤ s'.calls.length := by
  cases h with
  | run fuel args hstep => exact perform_run_calls hstep
  | stop fuel args hstep => exact (perform_stop_evolves hstep).2
  | kill fuel args hstep => exact (perform_kill_evolves hstep).2
  | resume args => exact (perform_resume_evolves args s).2
  | reaper fuel hstep => exact (check_completed_from_evolves fuel env _ _ _ hstep).2

/-! ## C11 -/

/-- C11: over any sequence of run, stop, kill, resume, reaper and scheduler
steps, a record whose pid is not `0` keeps its pid, and once its status is
`TERMINATED` the whole record, its status included, stays as it is. -/
theorem terminated_absorbing_pid_permanent (env : Env) (s s' : State)
    (h : Relation.ReflTransGen (step_or_schedule env) s s') (i : Fin MAX_PROCESSES)
    (hpid : (s.process_records i).pid ≠ 0) :
    (s'.process_records i).pid = (s.process_records i).pid ∧
    ((s.process_records i).status = TERMINATED →
      (s'.process_records i).status = TERMINATED ∧
        s'.process_records i = s.process_records i) := by
  induction h with
  | refl => exact ⟨rfl, fun h => ⟨h, rfl⟩⟩
  | @tail b c _ hstep ih =>
    have hb : (b.process_records i).pid ≠ 0 := by rw [ih.1]; exact hpid
    have hev : rec_evolves (b.process_records i) (c.process_records i) := by
      rcases hstep with hstep | ⟨fuel, hstep⟩
      · exact step_rec_evolves hstep i hb
      · exact (schedule_evolves hstep).1 i
    rcases hev with hev | hev
    · rw [hev]; exact ih
    · refine ⟨by rw [hev.2.2.1, ih.1], ?_⟩
      intro hterm
      have := (ih.2 hterm).1
      exact absurd this hev.2.1

theorem reachable_step_demo_killed :
    Relation.ReflTransGen (step_or_schedule env_ok) demo_killed demo_killed_run :=
  Relation.ReflTransGen.single
    (Or.inl (Step.run 30 ["prog", "P9"]
      (rfl : perform_run 30 env_ok ["prog", "P9"] demo_killed
        = some (Outcome.ok, demo_killed_run))))

theorem terminated_absorbing_pid_permanent_witness :
    (demo_killed.process_records 1).pid ≠ 0 ∧
    (demo_killed.process_records 1).status = TERMINATED ∧
    (demo_killed_run.process_records 3).status = RUNNING ∧
    ((demo_killed_run.process_records 1).pid = (demo_killed.process_records 1).pid ∧
    ((demo_killed.process_records 1).status = TERMINATED →
      (demo_killed_run.process_records 1).status = TERMINATED ∧
        demo_killed_run.process_records 1 = demo_killed.process_records 1)) :=
  ⟨by decide, by decide, by decide,
    terminated_absorbing_pid_permanent env_ok demo_killed demo_killed_run
      reachable_step_demo_killed 1 (by decide)⟩

/-! ## C12 -/

theorem strings_ok_evolves {r r' : process_record} (h : rec_evolves r r')
    (hr : strings_ok r) : strings_ok r' := by
  rcases h with h | h
  · rw [h]; exact hr
  · obtain ⟨hp, hs, e1, _, _, h4⟩ := h
    have hr' := hr (by omega)
    intro _
    rcases h4 with h4 | h4
    · refine ⟨fun _ => ?_, fun ht => absurd ht h4.1⟩
      rw [h4.2.1, h4.2.2]
      exact hr'.1 hs
    · exact ⟨fun hn => absurd h4.1 hn, fun _ => h4.2⟩

theorem getLast?_ne_none_of_length {args : List String} (h : 2 ≤ args.length) :
    args.getLast? ≠ none := by
  intro hn
  rw [List.getLast?_eq_none_iff] at hn
  rw [hn] at h
  simp at h

/-- In every reachable state the strings of every allocated record are both
set while it is not `TERMINATED` and both null once it is. -/
theorem reachable_strings_ok {env : Env} {s : State} (h : Reachable env s) :
    ∀ i, strings_ok (s.process_records i) := by
  induction h with
  | init => intro i hp; exact absurd rfl hp
  | @run s0 s1 r fuel args _ hstep ih =>
    intro i
    by_cases hr : r = Outcome.ok
    · subst hr
      obtain ⟨index, _, hlen, _, _, hs⟩ := perform_run_ok_queued hstep
      refine strings_ok_evolves ((schedule_evolves hs).1 i) ?_
      by_cases hi : i = index
      · subst hi
        rw [run_queued_record]
        intro _
        refine ⟨fun _ => ⟨by simp, getLast?_ne_none_of_length hlen⟩, fun ht => ?_⟩
        simp at ht
      · rw [run_queued_other env args s0 index i hi]
        exact ih i
    · rw [(perform_run_failed hstep hr).1]; exact ih i
  | stop fuel args _ hstep ih =>
    intro i; exact strings_ok_evolves ((perform_stop_evolves hstep).1 i) (ih i)
  | kill fuel args _ hstep ih =>
    intro i; exact strings_ok_evolves ((perform_kill_evolves hstep).1 i) (ih i)
  | resume args _ ih =>
    intro i; exact strings_ok_evolves ((perform_resume_evolves args _).1 i) (ih i)
  | reaper fuel _ hstep ih =>
    intro i
    exact strings_ok_evolves ((check_completed_from_evolves fuel env _ _ _ hstep).1 i) (ih i)

/-- C12: in every reachable state a record with pid not `0` has `command`
and `priority_str` both non-null exactly when its status is not
`TERMINATED` (and both null when it is); and in any step from such a state,
each of the two strings of such a record goes from non-null to null exactly
when the record goes from not `TERMINATED` to `TERMINATED` in that step. -/
theorem strings_null_iff_terminated (env : Env) (s : State) (h : Reachable env s) :
    (∀ i, (s.process_records i).pid ≠ 0 →
      (((s.process_records i).command ≠ none ∧ (s.process_records i).priority_str ≠ none) ↔
        (s.process_records i).status ≠ TERMINATED) ∧
      ((s.process_records i).status = TERMINATED →
        (s.process_records i).command = none ∧ (s.process_records i).priority_str = none)) ∧
    (∀ s', Step env s s' → ∀ i, (s.process_records i).pid ≠ 0 →
      (((s.process_records i).status ≠ TERMINATED ∧
          (s'.process_records i).status = TERMINATED) ↔
        ((s.process_records i).command ≠ none ∧ (s'.process_records i).command = none)) ∧
      (((s.process_records i).status ≠ TERMINATED ∧
          (s'.process_records i).status = TERMINATED) ↔
        ((s.process_records i).priority_str ≠ none ∧
          (s'.process_records i).priority_str = none))) := by
  have hok := reachable_strings_ok h
  refine ⟨?_, ?_⟩
  · intro i hp
    have hi := hok i hp
    refine ⟨⟨fun hne ht => ?_, hi.1⟩, hi.2⟩
    exact hne.1 (hi.2 ht).1
  · intro s' hstep i hp
    have hi := hok i hp
    rcases step_rec_evolves hstep i hp with hev | hev
    · rw [hev]
      constructor
      · constructor
        · intro hx; exact absurd hx.2 hx.1
        · intro hx; exact absurd hx.2 hx.1
      · constructor
        · intro hx; exact absurd hx.2 hx.1
        · intro hx; exact absurd hx.2 hx.1
    · obtain ⟨_, hs, _, _, _, h4⟩ := hev
      have hlive := hi.1 hs
      rcases h4 with h4 | h4
      · constructor
        · constructor
          · intro hx; exact absurd hx.2 h4.1
          · intro hx; rw [h4.2.1] at hx; exact absurd hx.2 hx.1
        · constructor
          · intro hx; exact absurd hx.2 h4.1
          · intro hx; rw [h4.2.2] at hx; exact absurd hx.2 hx.1
      · exact ⟨⟨fun _ => ⟨hlive.1, h4.2.1⟩, fun _ => ⟨hs, h4.1⟩⟩,
          ⟨fun _ => ⟨hlive.2, h4.2.2⟩, fun _ => ⟨hs, h4.1⟩⟩⟩

theorem strings_null_iff_terminated_witness :
    Reachable env_ok demo3 ∧
    Step env_ok demo3 demo_killed ∧
    (demo3.process_records 1).command = some "prog" ∧
    (demo_killed.process_records 1).command = none ∧
    ((∀ i, (demo3.process_records i).pid ≠ 0 →
      (((demo3.process_records i).command ≠ none ∧
          (demo3.process_records i).priority_str ≠ none) ↔
        (demo3.process_records i).status ≠ TERMINATED) ∧
      ((demo3.process_records i).status = TERMINATED →
        (demo3.process_records i).command = none ∧
          (demo3.process_records i).priority_str = none)) ∧
    (∀ s', Step env_ok demo3 s' → ∀ i, (demo3.process_records i).pid ≠ 0 →
      (((demo3.process_records i).status ≠ TERMINATED ∧
          (s'.process_records i).status = TERMINATED) ↔
        ((demo3.process_records i).command ≠ none ∧ (s'.process_records i).command = none)) ∧
      (((demo3.process_records i).status ≠ TERMINATED ∧
          (s'.process_records i).status = TERMINATED) ↔
        ((demo3.process_records i).priority_str ≠ none ∧
          (s'.process_records i).priority_str = none)))) :=
  ⟨reachable_demo3,
    Step.kill 30 ["104"]
      (rfl : perform_kill 30 env_ok ["104"] demo3 = some (Outcome.ok, demo_killed)),
    by decide, by decide,
    strings_null_iff_terminated env_ok demo3 reachable_demo3⟩

/-! ## C15 -/

/-- On a running record `perform_stop` is the stop update followed by the
scheduler. -/
theorem perform_stop_of_running (fuel : Nat) (env : Env) (a : String) (rest : List String)
    (s : State) (i : Fin MAX_PROCESSES) (hpos : 0 < atoi a.toList)
    (hfirst : first_with_pid s.process_records (atoi a.toList) i)
    (hrun : (s.process_records i).status = RUNNING) :
    perform_stop fuel env (a :: rest) s =
      (schedule_processes fuel env
        { process_records := Function.update s.process_records i
            { s.process_records i with status := STOPPED },
          running_count := s.running_count - 1,
          calls := SysCall.kill (s.process_records i).pid Signal.SIGSTOP :: s.calls }).map
        (fun s3 => (Outcome.ok, s3)) := by
  have hnp : ¬ atoi a.toList ≤ 0 := by omega
  simp only [perform_stop]
  rw [if_neg hnp, find_process_by_pid_of_first hfirst]
  simp only [hrun]
  rfl

/-- On a stopped record with a running slot free `perform_resume` sends the
continue signal and marks the record running. -/
theorem perform_resume_of_stopped_free (a : String) (rest : List String)
    (s : State) (i : Fin MAX_PROCESSES) (hpos : 0 < atoi a.toList)
    (hfirst : first_with_pid s.process_records (atoi a.toList) i)
    (hst : (s.process_records i).status = STOPPED)
    (hlt : s.running_count < MAX_RUNNING) :
    perform_resume (a :: rest) s =
      (Outcome.ok,
        { process_records := Function.update s.process_records i
            { s.process_records i with status := RUNNING },
          running_count := s.running_count + 1,
          calls := SysCall.kill (s.process_records i).pid Signal.SIGCONT :: s.calls }) := by
  have hnp : ¬ atoi a.toList ≤ 0 := by omega
  simp only [perform_resume]
  rw [if_neg hnp, find_process_by_pid_of_first hfirst]
  simp only [hst]
  simp [hlt, State.set, State.sys]

/-- C15: for every table in which the first record with (positive) pid `p`
is `RUNNING`, when `perform_stop` on `p` returns with `running_count` below
`MAX_RUNNING`, it reported success, and `perform_resume` on `p` right after
succeeds and leaves that record exactly as it was before the stop: `RUNNING`,
with the same pid, priority number, priority string, command and arrival
time. -/
theorem stop_then_resume_restores (fuel : Nat) (env : Env) (a : String)
    (rest rest' : List String) (s s1 : State) (r : Outcome) (i : Fin MAX_PROCESSES)
    (hpos : 0 < atoi a.toList)
    (hfirst : first_with_pid s.process_records (atoi a.toList) i)
    (hrun : (s.process_records i).status = RUNNING)
    (hstop : perform_stop fuel env (a :: rest) s = some (r, s1))
    (hfree : s1.running_count < MAX_RUNNING) :
    r = Outcome.ok ∧
    (perform_resume (a :: rest') s1).1 = Outcome.ok ∧
    (perform_resume (a :: rest') s1).2.process_records i = s.process_records i ∧
    ((perform_resume (a :: rest') s1).2.process_records i).status = RUNNING ∧
    (perform_resume (a :: rest') s1).2.running_count = s1.running_count + 1 := by
  rw [perform_stop_of_running fuel env a rest s i hpos hfirst hrun] at hstop
  obtain ⟨s3, hs3, heq⟩ := Option.map_eq_some'.mp hstop
  simp only [Prod.mk.injEq] at heq
  have hok : r = Outcome.ok := heq.1.symm
  have hs1 : s3 = s1 := heq.2
  subst hs1
  have hrec : s3.process_records i = { s.process_records i with status := STOPPED } := by
    rw [schedule_not_ready_same hs3 i (by simp)]
    simp
  have hfirst1 : first_with_pid s3.process_records (atoi a.toList) i := by
    refine ⟨?_, ?_⟩
    · rw [schedule_pid hs3 i]; simpa using hfirst.1
    · intro j hj
      rw [schedule_pid hs3 j]
      have hji : j ≠ i := ne_of_lt hj
      simpa [Function.update_noteq hji] using hfirst.2 j hj
  have hres := perform_resume_of_stopped_free a rest' s3 i hpos hfirst1
    (by rw [hrec]) hfree
  rw [hres]
  refine ⟨hok, rfl, ?_, ?_, rfl⟩
  · simp only [Function.update_same, hrec]
    rw [← hrun]
  · simp

theorem stop_then_resume_restores_witness :
    0 < atoi "100".toList ∧
    first_with_pid demo3.process_records (atoi "100".toList) 0 ∧
    (demo3.process_records 0).status = RUNNING ∧
    perform_stop 30 env_ok ["100"] demo3 = some (Outcome.ok, demo_stopped) ∧
    demo_stopped.running_count < MAX_RUNNING ∧
    (Outcome.ok = Outcome.ok ∧
    (perform_resume ["100"] demo_stopped).1 = Outcome.ok ∧
    (perform_resume ["100"] demo_stopped).2.process_records 0 = demo3.process_records 0 ∧
    ((perform_resume ["100"] demo_stopped).2.process_records 0).status = RUNNING ∧
    (perform_resume ["100"] demo_stopped).2.running_count = demo_stopped.running_count + 1) :=
  ⟨by decide, ⟨by decide, by decide⟩, by decide, rfl, by decide,
    stop_then_resume_restores 30 env_ok "100" [] [] demo3 demo_stopped Outcome.ok 0
      (by decide) ⟨by decide, by decide⟩ (by decide) rfl (by decide)⟩

/-! ## C13 -/

/-- C13 (counterexample): the tokens `P1x` (trailing character), `P+5`
(sign) and `P01` (leading zero) do not match `P[1-9][0-9]*`, yet
`parse_priority` returns 1, 5 and 1 for them, and `run prog P1x` on the
initialised table forks and queues the job. -/
theorem parse_priority_accepts_malformed :
    matches_priority_format "P1x" = false ∧ parse_priority (some "P1x") = 1 ∧
    matches_priority_format "P+5" = false ∧ parse_priority (some "P+5") = 5 ∧
    matches_priority_format "P01" = false ∧ parse_priority (some "P01") = 1 ∧
    (perform_run 30 env_ok ["prog", "P1x"] init_state).map
        (fun x => (x.1, (x.2.process_records 0).pid, (x.2.process_records 0).priority_num,
          x.2.calls.length))
      = some (Outcome.ok, 100, 1, 4) := by
  refine ⟨by decide, by decide, by decide, by decide, by decide, by decide, by decide⟩

/-- The three checks of `parse_priority` (length, first character, sign of
the value `atoi` gives for the rest), and what `perform_run` does when they
fail. -/
theorem parse_priority_checks (fuel : Nat) (env : Env) (prog : String)
    (mid : List String) (tok : String) (s : State) :
    (parse_priority (some tok) = -1 ↔
      (tok.length < 2 ∨ tok.toList.head? ≠ some 'P' ∨ atoi tok.toList.tail ≤ 0)) ∧
    (parse_priority (some tok) = -1 →
      perform_run fuel env (prog :: (mid ++ [tok])) s = some (Outcome.invalid_priority, s)) ∧
    (parse_priority (some tok) ≠ -1 →
      parse_priority (some tok) = atoi tok.toList.tail ∧ 0 < atoi tok.toList.tail) := by
  have hchar : (parse_priority (some tok) = -1 ↔
      (tok.length < 2 ∨ tok.toList.head? ≠ some 'P' ∨ atoi tok.toList.tail ≤ 0)) ∧
      (parse_priority (some tok) ≠ -1 →
        parse_priority (some tok) = atoi tok.toList.tail ∧ 0 < atoi tok.toList.tail) := by
    unfold parse_priority
    by_cases hlen : tok.length < 2
    · simp [hlen]
    · simp only [hlen, if_false, false_or]
      cases htl : tok.toList with
      | nil => simp
      | cons c rest =>
        simp only [List.head?_cons, List.tail_cons, Option.some.injEq, ne_eq]
        by_cases hc : c = 'P'
        · subst hc
          simp only [not_true_eq_false, if_false, false_or]
          by_cases hp : atoi rest ≤ 0
          · simp [hp]
          · simp only [hp, if_false, iff_false]
            refine ⟨by omega, fun _ => ⟨trivial, by omega⟩⟩
        · simp [hc]
  refine ⟨hchar.1, ?_, hchar.2⟩
  intro hbad
  unfold perform_run
  have hlast : (prog :: (mid ++ [tok])).getLast? = some tok := by
    rw [← List.cons_append, List.getLast?_concat]
  have hlen : ¬ (prog :: (mid ++ [tok])).length < 2 := by simp
  simp only [hlen, if_false, hlast, hbad, if_true]

/-! ## C14 -/

theorem digitChar_facts (m : Nat) (hm : m < 10) :
    (Nat.digitChar m).isDigit = true ∧ (Nat.digitChar m).toNat - 48 = m ∧
    isspace (Nat.digitChar m) = false ∧ Nat.digitChar m ≠ '-' ∧ Nat.digitChar m ≠ '+' := by
  interval_cases m <;> decide

/-- Reading back the digits `Nat.toDigitsCore` writes gives the number. -/
theorem digits_value_toDigitsCore :
    ∀ (fuel n : Nat) (ds : List Char), n < fuel →
      digits_value 0 (Nat.toDigitsCore 10 fuel n ds) = digits_value n ds := by
  intro fuel
  induction fuel with
  | zero => intro n ds h; omega
  | succ f ih =>
    intro n ds h
    simp only [Nat.toDigitsCore]
    have hd := digitChar_facts (n % 10) (Nat.mod_lt _ (by decide))
    split
    · rename_i hz
      have hn : n % 10 = n := by omega
      simp only [digits_value, hd.1, if_true, hd.2.1]
      rw [hn]
      simp
    · rename_i hz
      rw [ih (n / 10) _ (by omega)]
      simp only [digits_value, hd.1, if_true, hd.2.1]
      congr 1
      omega

/-- The digits `Nat.toDigitsCore` writes begin with a digit character. -/
theorem toDigitsCore_head :
    ∀ (fuel n : Nat) (ds : List Char), n < fuel →
      ∃ m, m < 10 ∧ ∃ rest, Nat.toDigitsCore 10 fuel n ds = Nat.digitChar m :: rest := by
  intro fuel
  induction fuel with
  | zero => intro n ds h; omega
  | succ f ih =>
    intro n ds h
    simp only [Nat.toDigitsCore]
    split
    · exact ⟨n % 10, Nat.mod_lt _ (by decide), ds, rfl⟩
    · exact ih (n / 10) _ (by omega)

theorem wrap32_clamp_long_of_int (z : Int) (h0 : 0 ≤ z) (h1 : z ≤ INT_MAX) :
    wrap32 (clamp_long z) = z := by
  unfold INT_MAX at h1
  unfold wrap32 clamp_long
  rw [if_neg (by omega), if_neg (by omega)]
  omega

/-- The function `atoi` reads the decimal digits of `n` back as `n`. -/
theorem atoi_toDigits (n : Nat) (h : (n : Int) ≤ INT_MAX) :
    atoi (Nat.toDigits 10 n) = n := by
  unfold Nat.toDigits
  obtain ⟨m, hm, rest, hrest⟩ := toDigitsCore_head (n + 1) n [] (by omega)
  have hval := digits_value_toDigitsCore (n + 1) n [] (by omega)
  have hd := digitChar_facts m hm
  rw [hrest] at hval ⊢
  unfold atoi
  simp only [skip_space, hd.2.2.1, Bool.false_eq_true, if_false, hd.2.2.2.1, hd.2.2.2.2]
  rw [hval]
  simp only [digits_value]
  exact wrap32_clamp_long_of_int _ (by omega) h

theorem priority_token_toList (n : Nat) :
    ("P" ++ Nat.repr n).toList = 'P' :: Nat.toDigits 10 n := by
  simp [Nat.repr, String.toList, List.asString]

theorem toDigits_length_pos (n : Nat) : 1 ≤ (Nat.toDigits 10 n).length := by
  obtain ⟨m, _, rest, hrest⟩ := toDigitsCore_head (n + 1) n [] (by omega)
  unfold Nat.toDigits
  rw [hrest]
  simp

/-- The valid token for `n` is parsed as `n`. -/
theorem parse_priority_repr (n : Nat) (h1 : 1 ≤ n) (h2 : (n : Int) ≤ INT_MAX) :
    parse_priority (some ("P" ++ Nat.repr n)) = n := by
  unfold parse_priority
  have hlen : ¬ ("P" ++ Nat.repr n).length < 2 := by
    have := toDigits_length_pos n
    have hl : ("P" ++ Nat.repr n).length = 1 + (Nat.toDigits 10 n).length := by
      rw [String.length_append]
      rfl
    omega
  simp only [hlen, if_false, priority_token_toList, ne_eq, not_true_eq_false,
    atoi_toDigits n h2]
  rw [if_neg (by omega)]

/-- With valid arguments, a free slot and a successful fork, `perform_run`
is the queueing of the record followed by the scheduler. -/
theorem perform_run_eq_queued (fuel : Nat) (env : Env) (args : List String) (s : State)
    (index : Fin MAX_PROCESSES) (hlen : 2 ≤ args.length)
    (hprio : parse_priority args.getLast? ≠ -1)
    (hslot : find_unused_slot s.process_records = some index)
    (hfork : 0 < env.fork_ret s.calls.length) :
    perform_run fuel env args s =
      (schedule_processes fuel env (run_queued env args s index)).map
        (fun s5 => (Outcome.ok, s5)) := by
  unfold perform_run
  split
  · simp at hlen
  · rw [if_neg (by omega)]
    simp only
    rw [if_neg hprio, hslot]
    simp only
    rw [if_neg (by omega), if_neg (by omega)]

/-- C14: for every `n` with `1 ≤ n ≤ INT_MAX`, `parse_priority` applied to
`P` followed by the decimal digits of `n` returns `n`; and a `run` with that
token as its last argument that finds slot `index` free and succeeds leaves
`n` as `priority_num` and the token as `priority_str` in the record of that
slot (it does succeed, within 21 scheduler iterations, when the fork and the
signals succeed). -/
theorem parse_priority_decimal (n : Nat) (h1 : 1 ≤ n) (h2 : (n : Int) ≤ INT_MAX) :
    parse_priority (some ("P" ++ Nat.repr n)) = n ∧
    ∀ (env : Env) (prog : String) (mid : List String) (s : State)
      (index : Fin MAX_PROCESSES),
      find_unused_slot s.process_records = some index →
      (∀ (fuel : Nat) (s' : State),
        perform_run fuel env (prog :: (mid ++ ["P" ++ Nat.repr n])) s
            = some (Outcome.ok, s') →
          (s'.process_records index).priority_num = n ∧
          (s'.process_records index).priority_str = some ("P" ++ Nat.repr n)) ∧
      (0 < env.fork_ret s.calls.length → (∀ k, env.kill_ret k = 0) →
        ∃ s', perform_run 21 env (prog :: (mid ++ ["P" ++ Nat.repr n])) s
          = some (Outcome.ok, s')) := by
  have hparse := parse_priority_repr n h1 h2
  refine ⟨hparse, ?_⟩
  intro env prog mid s index hslot
  have hlast : (prog :: (mid ++ ["P" ++ Nat.repr n])).getLast? = some ("P" ++ Nat.repr n) := by
    rw [← List.cons_append, List.getLast?_concat]
  have hprio : parse_priority (prog :: (mid ++ ["P" ++ Nat.repr n])).getLast? ≠ -1 := by
    rw [hlast, hparse]; omega
  refine ⟨?_, ?_⟩
  · intro fuel s' h
    obtain ⟨index', hslot', _, _, _, hs⟩ := perform_run_ok_queued h
    rw [hslot] at hslot'
    simp only [Option.some.injEq] at hslot'
    subst hslot'
    have hev := schedule_frame env fuel _ s' hs index
    rw [run_queued_record, hlast, hparse] at hev
    rcases hev with hev | hev
    · rw [hev]; exact ⟨rfl, rfl⟩
    · rw [hev.2.2]; exact ⟨rfl, rfl⟩
  · intro hfork hsig
    obtain ⟨s', hs'⟩ := schedule_terminates env hsig
      (run_queued env (prog :: (mid ++ ["P" ++ Nat.repr n])) s index)
    refine ⟨s', ?_⟩
    rw [perform_run_eq_queued 21 env _ s index (by simp) hprio hslot hfork, hs']
    rfl

theorem parse_priority_decimal_witness :
    1 ≤ 42 ∧ ((42 : Nat) : Int) ≤ INT_MAX ∧ "P" ++ Nat.repr 42 = "P42" ∧
    (parse_priority (some ("P" ++ Nat.repr 42)) = (42 : Nat) ∧
    ∀ (env : Env) (prog : String) (mid : List String) (s : State)
      (index : Fin MAX_PROCESSES),
      find_unused_slot s.process_records = some index →
      (∀ (fuel : Nat) (s' : State),
        perform_run fuel env (prog :: (mid ++ ["P" ++ Nat.repr 42])) s
            = some (Outcome.ok, s') →
          (s'.process_records index).priority_num = (42 : Nat) ∧
          (s'.process_records index).priority_str = some ("P" ++ Nat.repr 42)) ∧
      (0 < env.fork_ret s.calls.length → (∀ k, env.kill_ret k = 0) →
        ∃ s', perform_run 21 env (prog :: (mid ++ ["P" ++ Nat.repr 42])) s
          = some (Outcome.ok, s'))) :=
  ⟨by decide, by decide, by decide, parse_priority_decimal 42 (by decide) (by decide)⟩

/-! ## C17 -/

theorem perform_exit_signals_effect :
    ∀ (l : List (Fin MAX_PROCESSES)) (s : State),
      (perform_exit_signals l s).process_records = s.process_records ∧
      (perform_exit_signals l s).running_count = s.running_count ∧
      (perform_exit_signals l s).calls =
        ((l.filter (fun i => decide ((s.process_records i).pid > 0 ∧
            (s.process_records i).status ≠ TERMINATED))).map
          (fun i => SysCall.kill (s.process_records i).pid Signal.SIGTERM)).reverse
          ++ s.calls := by
  intro l
  induction l with
  | nil => intro s; simp [perform_exit_signals]
  | cons a rest ih =>
    intro s
    simp only [perform_exit_signals]
    split
    · rename_i h
      have h' := ih (s.sys (SysCall.kill (s.process_records a).pid Signal.SIGTERM))
      simp only [sys_process_records, sys_running_count, sys_calls] at h'
      refine ⟨h'.1, h'.2.1, ?_⟩
      rw [h'.2.2]
      simp [List.filter_cons, h]
    · rename_i h
      have h' := ih s
      refine ⟨h'.1, h'.2.1, ?_⟩
      rw [h'.2.2]
      simp only [List.filter_cons, h, decide_False, Bool.false_eq_true, if_false]

/-! ## C18 -/

/-- After the reaper pass, a line whose first token is none of the six
commands gets the invalid-command notice and the state of the reaper pass,
and the loop goes on. -/
theorem main_iteration_unrecognized (fuel : Nat) (env : Env) (line : String) (s s1 : State)
    (cmd : String) (args : List String)
    (hreap : check_completed_processes fuel env s = some s1)
    (hin : get_input line 20 = cmd :: args)
    (h1 : cmd ≠ "kill") (h2 : cmd ≠ "run") (h3 : cmd ≠ "stop") (h4 : cmd ≠ "resume")
    (h5 : cmd ≠ "list") (h6 : cmd ≠ "exit") :
    main_iteration fuel env line s = some (LoopResult.invalid_command s1) := by
  unfold main_iteration
  rw [hreap, hin]
  simp only [h1, h2, h3, h4, h5, h6, if_false]

/-- When no child has exited, the reaper pass changes neither the table nor
the counter, and returns whatever the fuel. -/
theorem check_completed_from_quiet (fuel : Nat) (env : Env)
    (hwait : ∀ n, env.waitpid_ret n ≤ 0) :
    ∀ (l : List (Fin MAX_PROCESSES)) (s : State),
      ∃ s', check_completed_processes_from fuel env l s = some s' ∧
        s'.process_records = s.process_records ∧ s'.running_count = s.running_count ∧
        s.calls.length ≤ s'.calls.length := by
  intro l
  induction l with
  | nil => intro s; exact ⟨s, rfl, rfl, rfl, le_refl _⟩
  | cons a rest ih =>
    intro s
    simp only [check_completed_processes_from]
    split
    · rw [if_neg (by have := hwait s.calls.length; omega)]
      obtain ⟨s', h1, h2, h3, h4⟩ :=
        ih (s.sys (SysCall.waitpid (s.process_records a).pid true))
      refine ⟨s', h1, h2, h3, ?_⟩
      simp only [sys_calls, List.length_cons] at h4
      omega
    · exact ih s

/-- C18 (the code at the failing input): on the empty line and on a line of
spaces `get_input` stores no token and returns `NULL`, and the loop of
`main` then passes that null pointer to `strcmp` (undefined behaviour)
instead of printing the invalid-command notice; a line with an unknown first
token does get the notice, with the state unchanged. -/
theorem main_iteration_blank_line_undefined :
    get_input "" 20 = [] ∧ get_input "   " 20 = [] ∧
    (get_input "" 20).head? = none ∧
    main_iteration 30 env_ok "" demo4 = some LoopResult.undefined ∧
    main_iteration 30 env_ok "   " demo4 = some LoopResult.undefined ∧
    get_input "frobnicate 1 2" 20 = ["frobnicate", "1", "2"] ∧
    (∃ s1, check_completed_processes 30 env_ok demo4 = some s1 ∧
      s1.process_records = demo4.process_records ∧
      s1.running_count = demo4.running_count ∧
      main_iteration 30 env_ok "frobnicate 1 2" demo4
        = some (LoopResult.invalid_command s1)) := by
  refine ⟨by decide, by decide, by decide, rfl, rfl, by decide, ?_⟩
  obtain ⟨s1, h1, h2, h3, _⟩ := check_completed_from_quiet 30 env_ok
    (fun _ => le_refl _) (List.finRange MAX_PROCESSES) demo4
  refine ⟨s1, h1, h2, h3, ?_⟩
  exact main_iteration_unrecognized 30 env_ok _ demo4 s1 "frobnicate" ["1", "2"] h1
    (by decide) (by decide) (by decide) (by decide) (by decide) (by decide) (by decide)

/-! ## C16 -/

/-- With nothing selectable the scheduler returns at once and changes
nothing. -/
theorem schedule_no_selectable (env : Env) (fuel : Nat) (s : State)
    (h : ∀ i, ¬ selectable (s.process_records i)) :
    schedule_processes (fuel + 1) env s = some s := by
  simp only [schedule_processes]
  rw [(fh_none_iff _).mpr h]
  split <;> rfl

/-- One `run` command through the loop of `main`, when the signals and the
fork succeed and no child has exited: from a reachable state whose first
unused slot is `index`, with a priority below `INT_MAX`, the iteration
returns; the record of the job is in slot `index`, `RUNNING` if a running
slot was free and `READY` otherwise; every other slot is as before. -/
theorem run_iteration (env : Env) (hsig : ∀ n, env.kill_ret n = 0)
    (hfork : ∀ n, 0 < env.fork_ret n) (hwait : ∀ n, env.waitpid_ret n ≤ 0)
    (s : State) (hreach : Reachable env s) (line : String) (args : List String)
    (hin : get_input line 20 = "run" :: args) (hlen : 2 ≤ args.length)
    (hprio : parse_priority args.getLast? ≠ -1)
    (hlt : parse_priority args.getLast? < INT_MAX)
    (index : Fin MAX_PROCESSES) (hslot : first_with_pid s.process_records 0 index) :
    ∃ s', main_iteration 21 env line s = some (LoopResult.command Outcome.ok s') ∧
      Reachable env s' ∧
      (s'.process_records index).pid > 0 ∧
      (s'.process_records index).priority_num = parse_priority args.getLast? ∧
      (s'.process_records index).status
        = (if s.running_count < MAX_RUNNING then RUNNING else READY) ∧
      (∀ j, j ≠ index → s'.process_records j = s.process_records j) ∧
      s'.running_count
        = (if s.running_count < MAX_RUNNING then s.running_count + 1 else s.running_count) := by
  obtain ⟨s1, hs1, hrec, hrc, _⟩ :=
    check_completed_from_quiet 21 env hwait (List.finRange MAX_PROCESSES) s
  have hreach1 : Reachable env s1 := Reachable.reaper 21 hreach hs1
  have hw := reachable_work_conserving hreach1
  have hslot1 : find_unused_slot s1.process_records = some index := by
    rw [find_unused_slot_eq, hrec]
    exact find_process_by_pid_of_first hslot
  have hrun := perform_run_eq_queued 21 env args s1 index hlen hprio hslot1 (hfork _)
  have hmain : ∀ s', perform_run 21 env args s1 = some (Outcome.ok, s') →
      main_iteration 21 env line s = some (LoopResult.command Outcome.ok s') := by
    intro s' h
    unfold main_iteration
    have hs1' : check_completed_processes 21 env s = some s1 := hs1
    rw [hs1', hin]
    simp only [if_true]
    rw [if_neg (by decide), h]
    rfl
  have hready : is_ready ((run_queued env args s1 index).process_records index) := by
    rw [run_queued_record]
    exact ⟨rfl, hfork _⟩
  by_cases hfree : s.running_count < MAX_RUNNING
  · have hfree1 : s1.running_count < MAX_RUNNING := by rw [hrc]; exact hfree
    obtain ⟨k, hk⟩ := fh_some_of_ready index hready (by rw [run_queued_record]; exact hlt)
    have hki : k = index := by
      by_contra hne
      have hsel := fh_selectable hk
      rw [run_queued_other env args s1 index k hne] at hsel
      exact hw hfree1 k hsel
    subst hki
    have hsched : schedule_processes 21 env (run_queued env args s1 k) =
        some { ((run_queued env args s1 k).sys
                (SysCall.kill ((run_queued env args s1 k).process_records k).pid
                  Signal.SIGCONT)).set k
                { (run_queued env args s1 k).process_records k with status := RUNNING } with
              running_count := (run_queued env args s1 k).running_count + 1 } := by
      rw [show (21 : Nat) = 19 + 1 + 1 from rfl, schedule_processes]
      rw [if_pos (by rw [run_queued_running_count]; exact hfree1), hk]
      simp only
      rw [if_pos (hsig _)]
      apply schedule_no_selectable
      intro j hsel
      by_cases hj : j = k
      · subst hj
        simp [selectable, is_ready] at hsel
      · simp only [set_process_records, sys_process_records, Function.update_noteq hj] at hsel
        rw [run_queued_other env args s1 k j hj] at hsel
        exact hw hfree1 j hsel
    rw [hsched] at hrun
    refine ⟨_, hmain _ hrun, Reachable.run 21 args hreach1 hrun, ?_, ?_, ?_, ?_, ?_⟩
    · simp only [set_process_records, sys_process_records, Function.update_same,
        run_queued_record]
      exact hfork _
    · simp only [set_process_records, sys_process_records, Function.update_same,
        run_queued_record]
    · simp [hfree]
    · intro j hj
      simp only [set_process_records, sys_process_records, Function.update_noteq hj]
      rw [run_queued_other env args s1 k j hj, hrec]
    · simp only [run_queued_running_count, sys_running_count, set_running_count, hrc,
        if_pos hfree]
  · have hfull : MAX_RUNNING ≤ (run_queued env args s1 index).running_count := by
      rw [run_queued_running_count, hrc]; omega
    rw [show (21 : Nat) = 20 + 1 from rfl, schedule_full env 20 _ hfull] at hrun
    refine ⟨_, hmain _ hrun, Reachable.run 21 args hreach1 hrun, ?_, ?_, ?_, ?_, ?_⟩
    · rw [run_queued_record]; exact hfork _
    · rw [run_queued_record]
    · rw [run_queued_record]; simp [hfree]
    · intro j hj
      rw [run_queued_other env args s1 index j hj, hrec]
    · rw [run_queued_running_count, hrc, if_neg hfree]

/-- C16: starting from the initialised table, with every fork and signal
succeeding and no child exiting, four consecutive `run` commands through the
command loop with priorities `P3`, `P1`, `P2`, `P4` all return, and at the
end the jobs are in slots 0 to 3 with the `P3`, `P1` and `P2` records
`RUNNING` and the `P4` record `READY`; no other record is `RUNNING`, and
`running_count = 3`. -/
theorem four_runs_scenario (env : Env) (hsig : ∀ n, env.kill_ret n = 0)
    (hfork : ∀ n, 0 < env.fork_ret n) (hwait : ∀ n, env.waitpid_ret n ≤ 0)
    (l1 l2 l3 l4 p1 p2 p3 p4 : String)
    (h1 : get_input l1 20 = ["run", p1, "P3"]) (h2 : get_input l2 20 = ["run", p2, "P1"])
    (h3 : get_input l3 20 = ["run", p3, "P2"]) (h4 : get_input l4 20 = ["run", p4, "P4"]) :
    ∃ s1 s2 s3 s4 : State,
      main_iteration 21 env l1 init_state = some (LoopResult.command Outcome.ok s1) ∧
      main_iteration 21 env l2 s1 = some (LoopResult.command Outcome.ok s2) ∧
      main_iteration 21 env l3 s2 = some (LoopResult.command Outcome.ok s3) ∧
      main_iteration 21 env l4 s3 = some (LoopResult.command Outcome.ok s4) ∧
      ((s4.process_records 0).priority_num = 3 ∧ (s4.process_records 0).status = RUNNING) ∧
      ((s4.process_records 1).priority_num = 1 ∧ (s4.process_records 1).status = RUNNING) ∧
      ((s4.process_records 2).priority_num = 2 ∧ (s4.process_records 2).status = RUNNING) ∧
      ((s4.process_records 3).priority_num = 4 ∧ (s4.process_records 3).status = READY) ∧
      (∀ i, (s4.process_records i).status = RUNNING ↔ (i = 0 ∨ i = 1 ∨ i = 2)) ∧
      s4.running_count = 3 := by
  have hp3 : parse_priority [p1, "P3"].getLast? = 3 := by
    show parse_priority (some "P3") = 3
    decide
  have hp1 : parse_priority [p2, "P1"].getLast? = 1 := by
    show parse_priority (some "P1") = 1
    decide
  have hp2 : parse_priority [p3, "P2"].getLast? = 2 := by
    show parse_priority (some "P2") = 2
    decide
  have hp4 : parse_priority [p4, "P4"].getLast? = 4 := by
    show parse_priority (some "P4") = 4
    decide
  -- first command
  obtain ⟨s1, hm1, hr1, hpid1, hnum1, hst1, hoth1, hrc1⟩ :=
    run_iteration env hsig hfork hwait init_state Reachable.init l1 [p1, "P3"] h1
      (by simp) (by rw [hp3]; decide) (by rw [hp3]; decide) 0
      ⟨rfl, fun j hj => absurd hj (by revert j; decide)⟩
  have hrc1' : s1.running_count = 1 := by
    rw [hrc1]; decide
  have hst1' : (s1.process_records 0).status = RUNNING := by
    rw [hst1]; decide
  -- second command
  obtain ⟨s2, hm2, hr2, hpid2, hnum2, hst2, hoth2, hrc2⟩ :=
    run_iteration env hsig hfork hwait s1 hr1 l2 [p2, "P1"] h2
      (by simp) (by rw [hp1]; decide) (by rw [hp1]; decide) 1
      ⟨by rw [hoth1 1 (by decide)]; rfl, fun j hj => by
        have hj0 : j = 0 := by revert j; decide
        rw [hj0]; omega⟩
  have hrc2' : s2.running_count = 2 := by
    rw [hrc2, hrc1']; decide
  have hst2' : (s2.process_records 1).status = RUNNING := by
    rw [hst2, hrc1']; decide
  -- third command
  obtain ⟨s3, hm3, hr3, hpid3, hnum3, hst3, hoth3, hrc3⟩ :=
    run_iteration env hsig hfork hwait s2 hr2 l3 [p3, "P2"] h3
      (by simp) (by rw [hp2]; decide) (by rw [hp2]; decide) 2
      ⟨by rw [hoth2 2 (by decide), hoth1 2 (by decide)]; rfl, fun j hj => by
        have hj01 : j = 0 ∨ j = 1 := by revert j; decide
        rcases hj01 with rfl | rfl
        · rw [hoth2 0 (by decide)]; omega
        · omega⟩
  have hrc3' : s3.running_count = 3 := by
    rw [hrc3, hrc2']; decide
  have hst3' : (s3.process_records 2).status = RUNNING := by
    rw [hst3, hrc2']; decide
  -- fourth command
  obtain ⟨s4, hm4, hr4, hpid4, hnum4, hst4, hoth4, hrc4⟩ :=
    run_iteration env hsig hfork hwait s3 hr3 l4 [p4, "P4"] h4
      (by simp) (by rw [hp4]; decide) (by rw [hp4]; decide) 3
      ⟨by rw [hoth3 3 (by decide), hoth2 3 (by decide), hoth1 3 (by decide)]; rfl,
        fun j hj => by
        have hj012 : j = 0 ∨ j = 1 ∨ j = 2 := by revert j; decide
        rcases hj012 with rfl | rfl | rfl
        · rw [hoth3 0 (by decide), hoth2 0 (by decide)]; omega
        · rw [hoth3 1 (by decide)]; omega
        · omega⟩
  have hrc4' : s4.running_count = 3 := by
    rw [hrc4, hrc3']; decide
  have hst4' : (s4.process_records 3).status = READY := by
    rw [hst4, hrc3']; decide
  have e0 : s4.process_records 0 = s1.process_records 0 := by
    rw [hoth4 0 (by decide), hoth3 0 (by decide), hoth2 0 (by decide)]
  have e1 : s4.process_records 1 = s2.process_records 1 := by
    rw [hoth4 1 (by decide), hoth3 1 (by decide)]
  have e2 : s4.process_records 2 = s3.process_records 2 := by
    rw [hoth4 2 (by decide)]
  refine ⟨s1, s2, s3, s4, hm1, hm2, hm3, hm4, ?_, ?_, ?_, ?_, ?_, hrc4'⟩
  · rw [e0, hnum1, hp3]; exact ⟨rfl, hst1'⟩
  · rw [e1, hnum2, hp1]; exact ⟨rfl, hst2'⟩
  · rw [e2, hnum3, hp2]; exact ⟨rfl, hst3'⟩
  · rw [hnum4, hp4]; exact ⟨rfl, hst4'⟩
  · intro i
    by_cases hi0 : i = 0
    · subst hi0; rw [e0]; simp [hst1']
    · by_cases hi1 : i = 1
      · subst hi1; rw [e1]; simp [hst2']
      · by_cases hi2 : i = 2
        · subst hi2; rw [e2]; simp [hst3']
        · by_cases hi3 : i = 3
          · subst hi3; rw [hst4']; simp
          · rw [hoth4 i hi3, hoth3 i hi2, hoth2 i hi1, hoth1 i hi0]
            simp [hi0, hi1, hi2, init_state, empty_record]

theorem four_runs_scenario_witness :
    (∀ n, env_ok.kill_ret n = 0) ∧ (∀ n, 0 < env_ok.fork_ret n) ∧
    (∀ n, env_ok.waitpid_ret n ≤ 0) ∧
    get_input "run prog P3" 20 = ["run", "prog", "P3"] ∧
    get_input "run prog P1" 20 = ["run", "prog", "P1"] ∧
    get_input "run prog P2" 20 = ["run", "prog", "P2"] ∧
    get_input "run prog P4" 20 = ["run", "prog", "P4"] ∧
    (∃ s1 s2 s3 s4 : State,
      main_iteration 21 env_ok "run prog P3" init_state
        = some (LoopResult.command Outcome.ok s1) ∧
      main_iteration 21 env_ok "run prog P1" s1 = some (LoopResult.command Outcome.ok s2) ∧
      main_iteration 21 env_ok "run prog P2" s2 = some (LoopResult.command Outcome.ok s3) ∧
      main_iteration 21 env_ok "run prog P4" s3 = some (LoopResult.command Outcome.ok s4) ∧
      ((s4.process_records 0).priority_num = 3 ∧ (s4.process_records 0).status = RUNNING) ∧
      ((s4.process_records 1).priority_num = 1 ∧ (s4.process_records 1).status = RUNNING) ∧
      ((s4.process_records 2).priority_num = 2 ∧ (s4.process_records 2).status = RUNNING) ∧
      ((s4.process_records 3).priority_num = 4 ∧ (s4.process_records 3).status = READY) ∧
      (∀ i, (s4.process_records i).status = RUNNING ↔ (i = 0 ∨ i = 1 ∨ i = 2)) ∧
      s4.running_count = 3) :=
  ⟨fun _ => rfl, fun n => by show (0 : Int) < 100 + n; omega, fun _ => le_refl _,
    by decide, by decide, by decide, by decide,
    four_runs_scenario env_ok (fun _ => rfl) (fun n => by show (0 : Int) < 100 + n; omega)
      (fun _ => le_refl _) "run prog P3" "run prog P1" "run prog P2" "run prog P4"
      "prog" "prog" "prog" "prog" (by decide) (by decide) (by decide) (by decide)⟩

/-! ## C19 -/

/-- A property of records that holds of the empty record and of a freshly
queued record and is kept when a record evolves holds of every record of
every reachable state. -/
theorem reachable_records (env : Env) (Q : process_record → Prop) (h0 : Q empty_record)
    (hev : ∀ r r', rec_evolves r r' → Q r → Q r')
    (hnew : ∀ (args : List String) (s : State) (index : Fin MAX_PROCESSES),
      2 ≤ args.length → 0 < env.fork_ret s.calls.length →
      Q ((run_queued env args s index).process_records index))
    {s : State} (h : Reachable env s) : ∀ i, Q (s.process_records i) := by
  induction h with
  | init => intro i; exact h0
  | @run s0 s1 r fuel args _ hstep ih =>
    intro i
    by_cases hr : r = Outcome.ok
    · subst hr
      obtain ⟨index, _, hlen, _, hfork, hs⟩ := perform_run_ok_queued hstep
      refine hev _ _ ((schedule_evolves hs).1 i) ?_
      by_cases hi : i = index
      · subst hi
        exact hnew args s0 i hlen hfork
      · rw [run_queued_other env args s0 index i hi]
        exact ih i
    · rw [(perform_run_failed hstep hr).1]; exact ih i
  | stop fuel args _ hstep ih =>
    intro i; exact hev _ _ ((perform_stop_evolves hstep).1 i) (ih i)
  | kill fuel args _ hstep ih =>
    intro i; exact hev _ _ ((perform_kill_evolves hstep).1 i) (ih i)
  | resume args _ ih =>
    intro i; exact hev _ _ ((perform_resume_evolves args _).1 i) (ih i)
  | reaper fuel _ hstep ih =>
    intro i
    exact hev _ _ ((check_completed_from_evolves fuel env _ _ _ hstep).1 i) (ih i)

/-- In a reachable state no pid is negative. -/
theorem reachable_pid_nonneg {env : Env} {s : State} (h : Reachable env s)
    (i : Fin MAX_PROCESSES) : 0 ≤ (s.process_records i).pid := by
  refine reachable_records env (fun r => 0 ≤ r.pid) (by decide) ?_ ?_ h i
  · intro r r' hev hr
    rcases hev with hev | hev
    · rw [hev]; exact hr
    · rw [hev.2.2.1]; exact hr
  · intro args s index _ hfork
    rw [run_queued_record]
    exact le_of_lt hfork

/-- In a reachable state a record that is not `TERMINATED` has a positive
pid. -/
theorem reachable_live_pid_pos {env : Env} {s : State} (h : Reachable env s)
    (i : Fin MAX_PROCESSES) (hs : (s.process_records i).status ≠ TERMINATED) :
    0 < (s.process_records i).pid := by
  have h0 := reachable_pid_nonneg h i
  have hu := (reachable_inv h).unused i
  by_contra hneg
  exact hs (hu (by omega))

/-- C19: work conservation.  In every reachable state in which every
priority number is below `INT_MAX`, if some record is `READY` then
`running_count = MAX_RUNNING`.  (This holds for every outcome of the
signals: a command whose scheduler run does not return yields no state.) -/
theorem ready_implies_budget_used (env : Env) (s : State) (h : Reachable env s)
    (hlt : ∀ i, (s.process_records i).priority_num < INT_MAX)
    (i : Fin MAX_PROCESSES) (hr : (s.process_records i).status = READY) :
    s.running_count = MAX_RUNNING := by
  have hw := reachable_work_conserving h
  have hb := (reachable_inv h).bound
  have hpos := reachable_live_pid_pos h i (by rw [hr]; decide)
  by_contra hne
  have hfree : s.running_count < MAX_RUNNING := lt_of_le_of_ne hb hne
  exact hw hfree i ⟨⟨hr, hpos⟩, Or.inl (hlt i)⟩

theorem ready_implies_budget_used_witness :
    Reachable env_ok demo4 ∧
    (∀ i, (demo4.process_records i).priority_num < INT_MAX) ∧
    (demo4.process_records 3).status = READY ∧
    demo4.running_count = MAX_RUNNING :=
  ⟨reachable_demo4, by decide, by decide,
    ready_implies_budget_used env_ok demo4 reachable_demo4 (by decide) 3 (by decide)⟩

/-! ## C20 -/

theorem rec_evolves_static {r r' : process_record} (h : rec_evolves r r') :
    r'.pid = r.pid ∧ r'.arrival_time = r.arrival_time ∧ r'.priority_num = r.priority_num := by
  rcases h with h | h
  · rw [h]; exact ⟨rfl, rfl, rfl⟩
  · exact ⟨h.2.2.1, h.2.2.2.2.1, h.2.2.2.1⟩

theorem ordered_evolves {env : Env} (hmono : ∀ m n, m ≤ n → env.time_ret m ≤ env.time_ret n)
    {s s' : State} (hev : evolves s s') (ho : Ordered env s) : Ordered env s' := by
  have hst := fun i => rec_evolves_static (hev.1 i)
  refine ⟨?_, ?_, ?_⟩
  · intro i j hij hj
    rw [(hst j).1] at hj
    rw [(hst i).1]
    exact ho.used_prefix i j hij hj
  · intro i j hij hj
    rw [(hst j).1] at hj
    rw [(hst i).2.1, (hst j).2.1]
    exact ho.arrival i j hij hj
  · intro i hi
    rw [(hst i).1] at hi
    rw [(hst i).2.1]
    exact le_trans (ho.clock i hi) (hmono _ _ hev.2)

theorem ordered_run_queued {env : Env}
    (hmono : ∀ m n, m ≤ n → env.time_ret m ≤ env.time_ret n)
    (args : List String) {s : State} (index : Fin MAX_PROCESSES)
    (hslot : first_with_pid s.process_records 0 index)
    (hfork : 0 < env.fork_ret s.calls.length) (ho : Ordered env s) :
    Ordered env (run_queued env args s index) := by
  have hused : ∀ j, (s.process_records j).pid ≠ 0 → j < index := by
    intro j hj
    rcases lt_trichotomy j index with h | h | h
    · exact h
    · rw [h] at hj; exact absurd hslot.1 hj
    · exact absurd hslot.1 (ho.used_prefix index j h hj)
  have hnew : ((run_queued env args s index).process_records index).arrival_time
      = env.time_ret (s.calls.length + 1) := by rw [run_queued_record]
  have hnewpid : ((run_queued env args s index).process_records index).pid ≠ 0 := by
    rw [run_queued_record]; simp only; omega
  have hold : ∀ j, (s.process_records j).pid ≠ 0 →
      (s.process_records j).arrival_time ≤ env.time_ret (s.calls.length + 1) :=
    fun j hj => le_trans (ho.clock j hj) (hmono _ _ (by omega))
  refine ⟨?_, ?_, ?_⟩
  · intro i j hij hj
    by_cases hi : i = index
    · rw [hi]; exact hnewpid
    · rw [run_queued_other env args s index i hi]
      by_cases hjx : j = index
      · rw [hjx] at hij
        exact hslot.2 i hij
      · rw [run_queued_other env args s index j hjx] at hj
        exact ho.used_prefix i j hij hj
  · intro i j hij hj
    by_cases hjx : j = index
    · rw [hjx, hnew]
      by_cases hi : i = index
      · rw [hi, hnew]
      · rw [run_queued_other env args s index i hi]
        have hlt : i < index := lt_of_le_of_ne (hjx ▸ hij) hi
        exact hold i (hslot.2 i hlt)
    · rw [run_queued_other env args s index j hjx] at hj ⊢
      have hjlt := hused j hj
      have hi : i ≠ index := ne_of_lt (lt_of_le_of_lt hij hjlt)
      rw [run_queued_other env args s index i hi]
      exact ho.arrival i j hij hj
  · intro i hi
    have hlen : (run_queued env args s index).calls.length = s.calls.length + 3 := by
      simp [run_queued]
    rw [hlen]
    by_cases hix : i = index
    · rw [hix, hnew]; exact hmono _ _ (by omega)
    · rw [run_queued_other env args s index i hix] at hi ⊢
      exact le_trans (ho.clock i hi) (hmono _ _ (by omega))

/-- Under a clock that does not go back, every reachable state satisfies the
order conditions. -/
theorem reachable_ordered {env : Env}
    (hmono : ∀ m n, m ≤ n → env.time_ret m ≤ env.time_ret n)
    {s : State} (h : Reachable env s) : Ordered env s := by
  induction h with
  | init =>
    refine ⟨?_, ?_, ?_⟩
    · intro i j _ hj; exact absurd rfl hj
    · intro i j _ hj; exact absurd rfl hj
    · intro i hi; exact absurd rfl hi
  | @run s0 s1 r fuel args _ hstep ih =>
    by_cases hr : r = Outcome.ok
    · subst hr
      obtain ⟨index, hslot, _, _, hfork, hs⟩ := perform_run_ok_queued hstep
      rw [find_unused_slot_eq] at hslot
      exact ordered_evolves hmono (schedule_evolves hs)
        (ordered_run_queued hmono args index (find_process_by_pid_some hslot) hfork ih)
    · have hrec := (perform_run_failed hstep hr).1
      have hcalls := perform_run_calls hstep
      exact ordered_evolves hmono
        ⟨fun i => by rw [hrec]; exact rec_evolves_refl _, hcalls⟩ ih
  | stop fuel args _ hstep ih => exact ordered_evolves hmono (perform_stop_evolves hstep) ih
  | kill fuel args _ hstep ih => exact ordered_evolves hmono (perform_kill_evolves hstep) ih
  | resume args _ ih => exact ordered_evolves hmono (perform_resume_evolves args _) ih
  | reaper fuel _ hstep ih =>
    exact ordered_evolves hmono (check_completed_from_evolves fuel env _ _ _ hstep) ih

/-- The loop either leaves its variables as they are or ends strictly below
them. -/
theorem fh_from_eq_or_lt (t : Table) :
    ∀ (l : List (Fin MAX_PROCESSES)) (b : Best),
      find_highest_priority_ready_from t l b = b ∨
      ((find_highest_priority_ready_from t l b).best_priority < b.best_priority ∨
        ((find_highest_priority_ready_from t l b).best_priority = b.best_priority ∧
          (find_highest_priority_ready_from t l b).best_arrival < b.best_arrival)) := by
  intro l
  induction l with
  | nil => intro b; exact Or.inl rfl
  | cons a rest ih =>
    intro b
    simp only [find_highest_priority_ready_from]
    split
    · split
      · rename_i hlt
        right
        have hle := (fh_from_le t rest
          (Best.mk (some a) (t a).priority_num (t a).arrival_time)).1
        simp only at hle
        omega
      · exact ih b
    · exact ih b

/-- Every ready record the loop passes before the one it returns is strictly
worse than the one it returns. -/
theorem fh_from_first (t : Table) :
    ∀ (l : List (Fin MAX_PROCESSES)) (b : Best), l.Pairwise (· < ·) → BestOk t b →
      ∀ k, (find_highest_priority_ready_from t l b).best_index = some k →
        b.best_index = some k ∨
        (k ∈ l ∧ ∀ i ∈ l, i < k → is_ready (t i) →
          ((t k).priority_num < (t i).priority_num ∨
            ((t k).priority_num = (t i).priority_num ∧
              (t k).arrival_time < (t i).arrival_time))) := by
  intro l
  induction l with
  | nil =>
    intro b _ _ k hk
    simp only [find_highest_priority_ready_from] at hk
    exact Or.inl hk
  | cons a rest ih =>
    intro b hp hb k hk
    have hp' := List.pairwise_cons.mp hp
    simp only [find_highest_priority_ready_from] at hk
    split at hk
    · rename_i hra
      split at hk
      · -- the loop takes `a`
        have hb1 : BestOk t (Best.mk (some a) (t a).priority_num (t a).arrival_time) := by
          intro j hj
          simp only [Option.some.injEq] at hj
          subst hj
          exact ⟨hra.1, hra.2, rfl, rfl⟩
        right
        rcases ih _ hp'.2 hb1 k hk with h1 | h1
        · simp only [Option.some.injEq] at h1
          subst h1
          refine ⟨List.mem_cons_self _ _, ?_⟩
          intro i hi hlt
          rcases List.mem_cons.mp hi with rfl | hi
          · exact absurd hlt (lt_irrefl _)
          · exact absurd (hp'.1 i hi) (not_lt_of_gt hlt)
        · refine ⟨List.mem_cons_of_mem _ h1.1, ?_⟩
          intro i hi hlt hri
          rcases List.mem_cons.mp hi with rfl | hi
          · have hfin := fh_from_ok t rest _ hb1 k hk
            have hne : find_highest_priority_ready_from t rest
                (Best.mk (some i) (t i).priority_num (t i).arrival_time) ≠
                (Best.mk (some i) (t i).priority_num (t i).arrival_time) := by
              intro heq
              rw [heq] at hk
              simp only [Option.some.injEq] at hk
              rw [hk] at hlt
              exact absurd hlt (lt_irrefl _)
            rcases fh_from_eq_or_lt t rest
                (Best.mk (some i) (t i).priority_num (t i).arrival_time) with h2 | h2
            · exact absurd h2 hne
            · rw [hfin.2.2.1, hfin.2.2.2]
              simpa using h2
          · exact h1.2 i hi hlt hri
      · -- `a` is ready but not better
        rename_i hnb
        rcases fh_from_eq_or_lt t rest b with h2 | h2
        · left; rw [h2] at hk; exact hk
        · rcases ih b hp'.2 hb k hk with h1 | h1
          · exact Or.inl h1
          · right
            refine ⟨List.mem_cons_of_mem _ h1.1, ?_⟩
            intro i hi hlt hri
            rcases List.mem_cons.mp hi with rfl | hi
            · have hfin := fh_from_ok t rest b hb k hk
              rw [hfin.2.2.1, hfin.2.2.2]
              omega
            · exact h1.2 i hi hlt hri
    · rename_i hra
      rcases ih b hp'.2 hb k hk with h1 | h1
      · exact Or.inl h1
      · right
        refine ⟨List.mem_cons_of_mem _ h1.1, ?_⟩
        intro i hi hlt hri
        rcases List.mem_cons.mp hi with rfl | hi
        · exact absurd hri hra
        · exact h1.2 i hi hlt hri

/-- Every ready record in a lower slot than the one
`find_highest_priority_ready` returns is strictly worse than it. -/
theorem fh_first {t : Table} {k : Fin MAX_PROCESSES}
    (h : find_highest_priority_ready t = some k) (i : Fin MAX_PROCESSES) (hlt : i < k)
    (hr : is_ready (t i)) :
    (t k).priority_num < (t i).priority_num ∨
      ((t k).priority_num = (t i).priority_num ∧
        (t k).arrival_time < (t i).arrival_time) := by
  rcases fh_from_first t (List.finRange MAX_PROCESSES)
      { best_index := none, best_priority := INT_MAX, best_arrival := 0 }
      (List.pairwise_lt_finRange _) (by intro j hj; simp at hj) k h with h1 | h1
  · simp at h1
  · exact h1.2 i (List.mem_finRange i) hlt hr

/-- For every table: among the ready records with the least priority number
and, within it, the earliest arrival time, `find_highest_priority_ready`
returns the one in the lowest slot, whenever it returns a record. -/
theorem fh_lowest_among_ties {t : Table} {k : Fin MAX_PROCESSES}
    (h : find_highest_priority_ready t = some k) (i : Fin MAX_PROCESSES)
    (hr : is_ready (t i)) (hp : (t i).priority_num = (t k).priority_num)
    (ha : (t i).arrival_time = (t k).arrival_time) : k ≤ i := by
  by_contra hlt
  have := fh_first h i (lt_of_not_le hlt) hr
  omega

/-- Where the priority numbers are below `INT_MAX`, the claim on ties
holds: in every reachable state under a clock that does not go back, the
used slots are a prefix of the table with arrival times that do not
decrease; a successful `run` fills a slot above every used slot; and if some
record is ready, `find_highest_priority_ready` returns a ready record of the
least priority number which is in the lowest slot among the ready records of
that priority number. -/
theorem lowest_slot_among_ties_below_int_max (env : Env)
    (hmono : ∀ m n, m ≤ n → env.time_ret m ≤ env.time_ret n)
    (s : State) (h : Reachable env s) :
    (∀ i j : Fin MAX_PROCESSES, i < j → (s.process_records j).pid ≠ 0 →
      (s.process_records i).pid ≠ 0) ∧
    (∀ i j : Fin MAX_PROCESSES, i ≤ j → (s.process_records j).pid ≠ 0 →
      (s.process_records i).arrival_time ≤ (s.process_records j).arrival_time) ∧
    (∀ (fuel : Nat) (args : List String) (s' : State),
      perform_run fuel env args s = some (Outcome.ok, s') →
      ∃ index, find_unused_slot s.process_records = some index ∧
        (s'.process_records index).pid > 0 ∧
        ∀ j, (s.process_records j).pid ≠ 0 → j < index) ∧
    (∀ k, find_highest_priority_ready s.process_records = some k →
      (s.process_records k).status = READY ∧
      (∀ i, (s.process_records i).status = READY →
        (s.process_records k).priority_num ≤ (s.process_records i).priority_num) ∧
      (∀ i, (s.process_records i).status = READY →
        (s.process_records i).priority_num = (s.process_records k).priority_num →
        k ≤ i)) ∧
    ((∃ i, (s.process_records i).status = READY ∧
        (s.process_records i).priority_num < INT_MAX) →
      ∃ k, find_highest_priority_ready s.process_records = some k) := by
  have ho := reachable_ordered hmono h
  have hready : ∀ i, (s.process_records i).status = READY → is_ready (s.process_records i) :=
    fun i hi => ⟨hi, reachable_live_pid_pos h i (by rw [hi]; decide)⟩
  refine ⟨ho.used_prefix, ho.arrival, ?_, ?_, ?_⟩
  · intro fuel args s' hrun
    obtain ⟨index, hslot, hpos, _⟩ := perform_run_ok hrun
    refine ⟨index, hslot, hpos, ?_⟩
    rw [find_unused_slot_eq] at hslot
    have hfirst := find_process_by_pid_some hslot
    intro j hj
    rcases lt_trichotomy j index with hlt | heq | hgt
    · exact hlt
    · rw [heq] at hj; exact absurd hfirst.1 hj
    · exact absurd hfirst.1 (ho.used_prefix index j hgt hj)
  · intro k hk
    have hrk := fh_ready hk
    refine ⟨hrk.1, ?_, ?_⟩
    · intro i hi
      have := fh_least hk i hi (hready i hi).2
      omega
    · intro i hi hp
      by_contra hlt
      have hik : i < k := lt_of_not_le hlt
      have hstrict := fh_first hk i hik (hready i hi)
      have harr := ho.arrival i k (le_of_lt hik) (by have := hrk.2; omega)
      omega
  · rintro ⟨i, hi, hlt⟩
    exact fh_some_of_ready i (hready i hi) hlt

theorem reachable_demo_tie2 : Reachable env_same_second demo_tie2 :=
  Reachable.run 30 ["b", "P2147483647"]
    (Reachable.run 30 ["a", "P2147483647"] Reachable.init
      (rfl : perform_run 30 env_same_second ["a", "P2147483647"] init_state
        = some (Outcome.ok, demo_tie1)))
    (rfl : perform_run 30 env_same_second ["b", "P2147483647"] demo_tie1
      = some (Outcome.ok, demo_tie2))

/-- C20 (the code at the failing input): under a clock that does not go back
and forks that return positive pids, after `run a P2147483647` and
`run b P2147483647` within the same second, slots 0 and 1 hold the only
`READY` records, with the same (smallest) priority number and the same
arrival time, a running slot is free, and `find_highest_priority_ready`
returns `-1` instead of the lowest slot, 0. -/
theorem find_highest_priority_ready_tie_int_max :
    Reachable env_same_second demo_tie2 ∧
    (∀ m n, m ≤ n → env_same_second.time_ret m ≤ env_same_second.time_ret n) ∧
    (∀ n, 0 < env_same_second.fork_ret n) ∧
    (∀ i, (demo_tie2.process_records i).status = READY ↔ (i = 0 ∨ i = 1)) ∧
    (demo_tie2.process_records 0).priority_num = (demo_tie2.process_records 1).priority_num ∧
    (demo_tie2.process_records 0).arrival_time
      = (demo_tie2.process_records 1).arrival_time ∧
    demo_tie2.running_count = 0 ∧
    find_highest_priority_ready demo_tie2.process_records = none := by
  refine ⟨reachable_demo_tie2, fun _ _ _ => le_refl _, ?_, by decide, by decide, by decide,
    by decide, by decide⟩
  intro n
  show (0 : Int) < 100 + n
  omega

/-! ## C13, amended: the format the parser accepts -/

theorem isDigit_facts (c : Char) (h : c.isDigit = true) :
    isspace c = false ∧ c ≠ '-' ∧ c ≠ '+' := by
  have h1 : 48 ≤ c.toNat ∧ c.toNat ≤ 57 := by
    simp only [Char.isDigit, Bool.and_eq_true, decide_eq_true_eq] at h
    exact ⟨h.1, h.2⟩
  refine ⟨?_, ?_, ?_⟩
  · simp only [isspace, Bool.or_eq_false_iff, Bool.and_eq_false_iff, decide_eq_false_iff_not]
    omega
  · intro hc; rw [hc] at h1; revert h1; decide
  · intro hc; rw [hc] at h1; revert h1; decide

theorem skip_space_append (ws r : List Char) (hws : ∀ c ∈ ws, isspace c = true)
    (hr : ∀ c, r.head? = some c → isspace c = false) : skip_space (ws ++ r) = r := by
  induction ws with
  | nil =>
    cases r with
    | nil => rfl
    | cons c r' =>
      simp only [List.nil_append, skip_space, hr c rfl, Bool.false_eq_true, if_false]
  | cons w ws ih =>
    simp only [List.cons_append, skip_space, hws w (List.mem_cons_self _ _), if_true]
    exact ih (fun c hc => hws c (List.mem_cons_of_mem _ hc))

theorem digits_value_append (digits rest : List Char) (hd : ∀ c ∈ digits, c.isDigit = true)
    (hr : ∀ c, rest.head? = some c → c.isDigit = false) :
    ∀ acc, digits_value acc (digits ++ rest)
      = digits.foldl (fun n c => 10 * n + (c.toNat - 48)) acc := by
  induction digits with
  | nil =>
    intro acc
    cases rest with
    | nil => rfl
    | cons c r' =>
      simp only [List.nil_append, digits_value, hr c rfl, Bool.false_eq_true, if_false,
        List.foldl_nil]
  | cons d ds ih =>
    intro acc
    simp only [List.cons_append, digits_value, hd d (List.mem_cons_self _ _), if_true,
      List.foldl_cons]
    exact ih (fun c hc => hd c (List.mem_cons_of_mem _ hc)) _

theorem wrap32_clamp_long_of_range (z : Int) (h0 : -2147483648 ≤ z) (h1 : z ≤ INT_MAX) :
    wrap32 (clamp_long z) = z := by
  unfold INT_MAX at h1
  unfold wrap32 clamp_long
  rw [if_neg (by omega), if_neg (by omega)]
  omega

/-- The value `atoi` gives for white space, an optional sign, a run of
digits within `int` range and a remainder that does not go on with a
digit. -/
theorem atoi_lenient (ws sign digits rest : List Char)
    (hws : ∀ c ∈ ws, isspace c = true)
    (hsign : sign = [] ∨ sign = ['+'] ∨ sign = ['-'])
    (hdig : ∀ c ∈ digits, c.isDigit = true)
    (hrest : ∀ c, rest.head? = some c → c.isDigit = false)
    (hbare : sign = [] → digits = [] →
      ∀ c, rest.head? = some c → isspace c = false ∧ c ≠ '+' ∧ c ≠ '-')
    (hrange : (decimal_value digits : Int) ≤ INT_MAX) :
    atoi (ws ++ sign ++ digits ++ rest)
      = if sign = ['-'] then -(decimal_value digits : Int) else (decimal_value digits : Int) := by
  have hval := digits_value_append digits rest hdig hrest 0
  have hnn : (0 : Int) ≤ (decimal_value digits : Int) := Int.ofNat_nonneg _
  have hI : INT_MAX = 2147483647 := rfl
  rcases hsign with hs | hs | hs
  · subst hs
    simp only [List.append_nil, List.append_assoc]
    have hne : ([] : List Char) ≠ ['-'] := by simp
    rw [if_neg hne]
    cases digits with
    | nil =>
      cases rest with
      | nil =>
        simp only [List.nil_append]
        unfold atoi
        rw [skip_space_append ws [] hws (by simp)]
        rfl
      | cons c r' =>
        have hc := hbare rfl rfl c rfl
        have hcd := hrest c rfl
        simp only [List.nil_append]
        unfold atoi
        rw [skip_space_append ws (c :: r') hws (by
          intro c' hc'
          simp only [List.head?_cons, Option.some.injEq] at hc'
          rw [← hc']; exact hc.1)]
        simp only [hc.2.2, hc.2.1, if_false, digits_value, hcd, Bool.false_eq_true]
        rfl
    | cons d ds =>
      have hd := isDigit_facts d (hdig d (List.mem_cons_self _ _))
      unfold atoi
      rw [skip_space_append ws ((d :: ds) ++ rest) hws (by
        intro c' hc'
        simp only [List.cons_append, List.head?_cons, Option.some.injEq] at hc'
        rw [← hc']; exact hd.1)]
      simp only [List.cons_append, hd.2.1, hd.2.2, if_false]
      rw [← List.cons_append, hval]
      exact wrap32_clamp_long_of_range _ (by unfold decimal_value at hnn; omega) hrange
  · subst hs
    rw [if_neg (by decide)]
    unfold atoi
    rw [List.append_assoc, List.append_assoc,
      skip_space_append ws (['+'] ++ (digits ++ rest)) hws (by
        intro c' hc'
        simp only [List.singleton_append, List.head?_cons, Option.some.injEq] at hc'
        rw [← hc']; decide)]
    simp only [List.singleton_append]
    rw [if_pos trivial, hval]
    exact wrap32_clamp_long_of_range _ (by unfold decimal_value at hnn; omega) hrange
  · subst hs
    rw [if_pos rfl]
    unfold atoi
    rw [List.append_assoc, List.append_assoc,
      skip_space_append ws (['-'] ++ (digits ++ rest)) hws (by
        intro c' hc'
        simp only [List.singleton_append, List.head?_cons, Option.some.injEq] at hc'
        rw [← hc']; decide)]
    simp only [List.singleton_append]
    rw [if_pos trivial, hval]
    exact wrap32_clamp_long_of_range _
      (by unfold decimal_value at hnn hrange; rw [hI] at hrange; omega)
      (by unfold decimal_value at hnn; rw [hI]; omega)

/-- Every string is white space, an optional sign, a run of digits and a
remainder that does not go on with a digit, in the sense of `atoi_lenient`. -/
theorem lenient_decomposition (body : List Char) :
    ∃ ws sign digits rest : List Char, body = ws ++ sign ++ digits ++ rest ∧
      (∀ c ∈ ws, isspace c = true) ∧
      (sign = [] ∨ sign = ['+'] ∨ sign = ['-']) ∧
      (∀ c ∈ digits, c.isDigit = true) ∧
      (∀ c, rest.head? = some c → c.isDigit = false) ∧
      (sign = [] → digits = [] →
        ∀ c, rest.head? = some c → isspace c = false ∧ c ≠ '+' ∧ c ≠ '-') := by
  have hsplit : body = body.takeWhile isspace ++ body.dropWhile isspace :=
    (List.takeWhile_append_dropWhile isspace body).symm
  have hws : ∀ c ∈ body.takeWhile isspace, isspace c = true :=
    fun c hc => List.mem_takeWhile_imp hc
  have hhead : ∀ c, (body.dropWhile isspace).head? = some c → isspace c = false := by
    intro c hc
    have := List.head?_dropWhile_not isspace body
    rw [hc] at this
    simpa using this
  have hdigits : ∀ r : List Char,
      r = r.takeWhile Char.isDigit ++ r.dropWhile Char.isDigit ∧
      (∀ c ∈ r.takeWhile Char.isDigit, c.isDigit = true) ∧
      (∀ c, (r.dropWhile Char.isDigit).head? = some c → c.isDigit = false) := by
    intro r
    refine ⟨(List.takeWhile_append_dropWhile Char.isDigit r).symm,
      fun c hc => List.mem_takeWhile_imp hc, ?_⟩
    intro c hc
    have := List.head?_dropWhile_not Char.isDigit r
    rw [hc] at this
    simpa using this
  cases hr : body.dropWhile isspace with
  | nil =>
    refine ⟨body.takeWhile isspace, [], [], [], ?_, hws, Or.inl rfl, ?_, ?_, ?_⟩
    · rw [hr] at hsplit; simpa using hsplit
    · intro c hc; simp at hc
    · intro c hc; simp at hc
    · intro _ _ c hc; simp at hc
  | cons c r' =>
    rw [hr] at hsplit hhead
    have hc := hhead c rfl
    by_cases hplus : c = '+'
    · subst hplus
      obtain ⟨h1, h2, h3⟩ := hdigits r'
      refine ⟨body.takeWhile isspace, ['+'], r'.takeWhile Char.isDigit,
        r'.dropWhile Char.isDigit, ?_, hws, Or.inr (Or.inl rfl), h2, h3, ?_⟩
      · rw [List.append_assoc, List.append_assoc, ← h1]; exact hsplit
      · intro h; simp at h
    · by_cases hminus : c = '-'
      · subst hminus
        obtain ⟨h1, h2, h3⟩ := hdigits r'
        refine ⟨body.takeWhile isspace, ['-'], r'.takeWhile Char.isDigit,
          r'.dropWhile Char.isDigit, ?_, hws, Or.inr (Or.inr rfl), h2, h3, ?_⟩
        · rw [List.append_assoc, List.append_assoc, ← h1]; exact hsplit
        · intro h; simp at h
      · obtain ⟨h1, h2, h3⟩ := hdigits (c :: r')
        refine ⟨body.takeWhile isspace, [], (c :: r').takeWhile Char.isDigit,
          (c :: r').dropWhile Char.isDigit, ?_, hws, Or.inl rfl, h2, h3, ?_⟩
        · rw [List.append_nil, List.append_assoc, ← h1]; exact hsplit
        · intro _ hnil c' hc'
          rw [hnil, List.nil_append] at h1
          rw [← h1] at hc'
          simp only [List.head?_cons, Option.some.injEq] at hc'
          rw [← hc']
          exact ⟨hc, hplus, hminus⟩

theorem decimal_value_nil : decimal_value [] = 0 := rfl

/-- C13 (amended): a priority token is `P` followed by white space, an
optional sign, a run of decimal digits and a remainder that does not go on
with a digit (every token that begins with `P` has this form).  Where the
digit run is within `int` range: with no minus sign and a digit run of value
`v ≥ 1` (leading zeros and any remainder allowed) `parse_priority` returns
`v`; with a minus sign, or a digit run that is empty or spells zero, it
returns `-1` and `perform_run` reports the invalid-priority error and
returns the state unchanged, whatever the fuel.  The same holds for every
token that is shorter than two characters or does not begin with `P`.
Nothing is said about digit runs beyond `INT_MAX`. -/
theorem parse_priority_lenient_format (ws sign digits rest : List Char)
    (hws : ∀ c ∈ ws, isspace c = true)
    (hsign : sign = [] ∨ sign = ['+'] ∨ sign = ['-'])
    (hdig : ∀ c ∈ digits, c.isDigit = true)
    (hrest : ∀ c, rest.head? = some c → c.isDigit = false)
    (hbare : sign = [] → digits = [] →
      ∀ c, rest.head? = some c → isspace c = false ∧ c ≠ '+' ∧ c ≠ '-')
    (hrange : (decimal_value digits : Int) ≤ INT_MAX) :
    (sign ≠ ['-'] → 1 ≤ decimal_value digits →
      parse_priority (some (String.mk ('P' :: (ws ++ sign ++ digits ++ rest))))
        = decimal_value digits) ∧
    ((sign = ['-'] ∨ decimal_value digits = 0) →
      parse_priority (some (String.mk ('P' :: (ws ++ sign ++ digits ++ rest)))) = -1 ∧
      ∀ (fuel : Nat) (env : Env) (prog : String) (mid : List String) (s : State),
        perform_run fuel env
            (prog :: (mid ++ [String.mk ('P' :: (ws ++ sign ++ digits ++ rest))])) s
          = some (Outcome.invalid_priority, s)) ∧
    (∀ tok : String, (tok.length < 2 ∨ tok.toList.head? ≠ some 'P') →
      parse_priority (some tok) = -1 ∧
      ∀ (fuel : Nat) (env : Env) (prog : String) (mid : List String) (s : State),
        perform_run fuel env (prog :: (mid ++ [tok])) s
          = some (Outcome.invalid_priority, s)) := by
  have hatoi := atoi_lenient ws sign digits rest hws hsign hdig hrest hbare hrange
  have hchk := fun (tok : String) =>
    parse_priority_checks 0 env_ok "" [] tok init_state
  have hrun : ∀ tok : String, parse_priority (some tok) = -1 →
      ∀ (fuel : Nat) (env : Env) (prog : String) (mid : List String) (s : State),
        perform_run fuel env (prog :: (mid ++ [tok])) s
          = some (Outcome.invalid_priority, s) :=
    fun tok h fuel env prog mid s => (parse_priority_checks fuel env prog mid tok s).2.1 h
  have htail : (String.mk ('P' :: (ws ++ sign ++ digits ++ rest))).toList.tail
      = ws ++ sign ++ digits ++ rest := rfl
  refine ⟨?_, ?_, ?_⟩
  · intro hs hv
    have hpos : 0 < atoi (ws ++ sign ++ digits ++ rest) := by
      rw [hatoi, if_neg hs]; omega
    have hne : parse_priority (some (String.mk ('P' :: (ws ++ sign ++ digits ++ rest)))) ≠ -1 := by
      intro hbad
      have := (hchk _).1.mp hbad
      rw [htail] at this
      have hdne : digits ≠ [] := by
        intro hd; rw [hd, decimal_value_nil] at hv; omega
      have hlen : 2 ≤ (String.mk ('P' :: (ws ++ sign ++ digits ++ rest))).length := by
        show 2 ≤ ('P' :: (ws ++ sign ++ digits ++ rest)).length
        cases digits with
        | nil => exact absurd rfl hdne
        | cons d ds => simp; omega
      rcases this with h | h | h
      · omega
      · exact h rfl
      · omega
    have := ((hchk _).2.2 hne).1
    rw [this, htail, hatoi, if_neg hs]
  · intro hbad
    have hle : atoi (ws ++ sign ++ digits ++ rest) ≤ 0 := by
      rw [hatoi]
      rcases hbad with h | h
      · rw [if_pos h]; omega
      · split <;> omega
    have hp : parse_priority (some (String.mk ('P' :: (ws ++ sign ++ digits ++ rest)))) = -1 :=
      (hchk _).1.mpr (Or.inr (Or.inr (by rw [htail]; exact hle)))
    exact ⟨hp, hrun _ hp⟩
  · intro tok htok
    have hp : parse_priority (some tok) = -1 := by
      refine (hchk tok).1.mpr ?_
      rcases htok with h | h
      · exact Or.inl h
      · exact Or.inr (Or.inl h)
    exact ⟨hp, hrun tok hp⟩

theorem parse_priority_lenient_format_witness :
    (∀ c ∈ [Char.ofNat 9], isspace c = true) ∧
    (['+'] = ([] : List Char) ∨ ['+'] = ['+'] ∨ ['+'] = ['-']) ∧
    (∀ c ∈ ['0', '5'], c.isDigit = true) ∧
    (∀ c, ['x', '1'].head? = some c → c.isDigit = false) ∧
    ((decimal_value ['0', '5'] : Int) ≤ INT_MAX) ∧
    decimal_value ['0', '5'] = 5 ∧
    ((['+'] ≠ ['-'] → 1 ≤ decimal_value ['0', '5'] →
      parse_priority
          (some (String.mk ('P' :: ([Char.ofNat 9] ++ ['+'] ++ ['0', '5'] ++ ['x', '1']))))
        = decimal_value ['0', '5']) ∧
    ((['+'] = ['-'] ∨ decimal_value ['0', '5'] = 0) →
      parse_priority
          (some (String.mk ('P' :: ([Char.ofNat 9] ++ ['+'] ++ ['0', '5'] ++ ['x', '1'])))) = -1 ∧
      ∀ (fuel : Nat) (env : Env) (prog : String) (mid : List String) (s : State),
        perform_run fuel env
            (prog :: (mid ++
              [String.mk ('P' :: ([Char.ofNat 9] ++ ['+'] ++ ['0', '5'] ++ ['x', '1']))])) s
          = some (Outcome.invalid_priority, s)) ∧
    (∀ tok : String, (tok.length < 2 ∨ tok.toList.head? ≠ some 'P') →
      parse_priority (some tok) = -1 ∧
      ∀ (fuel : Nat) (env : Env) (prog : String) (mid : List String) (s : State),
        perform_run fuel env (prog :: (mid ++ [tok])) s
          = some (Outcome.invalid_priority, s))) :=
  ⟨by decide, by decide, by decide, by decide, by decide, by decide,
    parse_priority_lenient_format [Char.ofNat 9] ['+'] ['0', '5'] ['x', '1']
      (by decide) (by decide) (by decide) (by decide) (by intro h; exact absurd h (by decide))
      (by decide)⟩

/-! ## C17: the waits of `perform_exit` -/

theorem perform_exit_signals_suspended (env : Env) (pid : Int) :
    ∀ (l : List (Fin MAX_PROCESSES)) (s : State),
      suspended env (perform_exit_signals l s).calls pid = suspended env s.calls pid := by
  intro l
  induction l with
  | nil => intro s; rfl
  | cons a rest ih =>
    intro s
    simp only [perform_exit_signals]
    split
    · rw [ih]; rfl
    · exact ih s

/-- What the second loop has done when it returns, and which children were
then not suspended. -/
theorem perform_exit_waits_some (env : Env) :
    ∀ (l : List (Fin MAX_PROCESSES)) (s s' : State), l.Nodup →
      perform_exit_waits env l s = some s' →
      s'.running_count = s.running_count ∧
      s'.calls =
        ((l.filter (fun i => decide ((s.process_records i).pid > 0))).map
          (fun i => SysCall.waitpid (s.process_records i).pid false)).reverse ++ s.calls ∧
      (∀ i, i ∈ l → (s.process_records i).pid > 0 →
        s'.process_records i =
          { s.process_records i with command := none, priority_str := none }) ∧
      (∀ i, ¬ (i ∈ l ∧ (s.process_records i).pid > 0) →
        s'.process_records i = s.process_records i) ∧
      (∀ i, i ∈ l → (s.process_records i).pid > 0 →
        suspended env s.calls (s.process_records i).pid = false) := by
  intro l
  induction l with
  | nil =>
    intro s s' _ h
    simp only [perform_exit_waits, Option.some.injEq] at h
    subst h
    simp
  | cons a rest ih =>
    intro s s' hnd h
    have hnd' := List.nodup_cons.mp hnd
    simp only [perform_exit_waits] at h
    split at h
    · rename_i hp
      split at h
      · simp at h
      · rename_i hsus
        have hsus' : suspended env s.calls (s.process_records a).pid = false := by
          simpa using hsus
        have h' := ih _ s' hnd'.2 h
        simp only [set_process_records, sys_process_records, set_running_count,
          sys_running_count, set_calls, sys_calls] at h'
        have hpid : ∀ j, (Function.update s.process_records a
            { s.process_records a with command := none, priority_str := none } j).pid
              = (s.process_records j).pid :=
          fun j => update_pid_same s.process_records a _ (by rfl) j
        simp only [hpid] at h'
        refine ⟨h'.1, ?_, ?_, ?_, ?_⟩
        · rw [h'.2.1]
          simp [List.filter_cons, hp]
        · intro i hi hpi
          rcases List.mem_cons.mp hi with rfl | hi
          · rw [h'.2.2.2.1 i (fun hx => hnd'.1 hx.1)]
            simp
          · have hia : i ≠ a := fun heq => hnd'.1 (heq ▸ hi)
            rw [h'.2.2.1 i hi hpi]
            simp [Function.update_noteq hia]
        · intro i hi
          have hia : i ≠ a := fun heq => hi ⟨heq ▸ List.mem_cons_self _ _, heq ▸ hp⟩
          rw [h'.2.2.2.1 i (fun hx => hi ⟨List.mem_cons_of_mem _ hx.1, hx.2⟩)]
          simp [Function.update_noteq hia]
        · intro i hi hpi
          rcases List.mem_cons.mp hi with rfl | hi
          · exact hsus'
          · have := h'.2.2.2.2 i hi hpi
            simpa [suspended] using this
    · rename_i hp
      have h' := ih s s' hnd'.2 h
      refine ⟨h'.1, ?_, ?_, ?_, ?_⟩
      · rw [h'.2.1]
        simp only [List.filter_cons, hp, decide_False, Bool.false_eq_true, if_false]
      · intro i hi hpi
        rcases List.mem_cons.mp hi with rfl | hi
        · exact absurd hpi hp
        · exact h'.2.2.1 i hi hpi
      · intro i hi
        apply h'.2.2.2.1 i
        intro hx
        exact hi ⟨List.mem_cons_of_mem _ hx.1, hx.2⟩
      · intro i hi hpi
        rcases List.mem_cons.mp hi with rfl | hi
        · exact absurd hpi hp
        · exact h'.2.2.2.2 i hi hpi

/-- The second loop returns when no child it waits for is suspended. -/
theorem perform_exit_waits_returns (env : Env) :
    ∀ (l : List (Fin MAX_PROCESSES)) (s : State),
      (∀ i, i ∈ l → (s.process_records i).pid > 0 →
        suspended env s.calls (s.process_records i).pid = false) →
      ∃ s', perform_exit_waits env l s = some s' := by
  intro l
  induction l with
  | nil => intro s _; exact ⟨s, rfl⟩
  | cons a rest ih =>
    intro s h
    simp only [perform_exit_waits]
    split
    · rename_i hp
      rw [h a (List.mem_cons_self _ _) hp]
      simp only [Bool.false_eq_true, if_false]
      apply ih
      intro i hi hpi
      have hpid : ∀ j, (Function.update s.process_records a
          { s.process_records a with command := none, priority_str := none } j).pid
            = (s.process_records j).pid :=
        fun j => update_pid_same s.process_records a _ (by rfl) j
      simp only [set_process_records, sys_process_records, set_calls, sys_calls, hpid] at hpi ⊢
      simpa [suspended] using h i (List.mem_cons_of_mem _ hi) hpi
    · apply ih
      intro i hi hpi
      exact h i (List.mem_cons_of_mem _ hi) hpi

/-- Where `perform_exit` returns, the claim on it holds: it returns exactly
when no slot with positive pid holds a suspended child, and then it has made
these system calls and no others (the terminate signal to each slot with pid
positive and status not `TERMINATED`, in slot order, then a blocking wait on
each slot with pid positive, whatever its status); every record with positive
pid has `command` and `priority_str` null and its other fields as before,
every other slot and `running_count` are unchanged. -/
theorem perform_exit_effect (env : Env) (s : State) :
    ((∃ s', perform_exit env s = some s') ↔
      ∀ i, (s.process_records i).pid > 0 →
        suspended env s.calls (s.process_records i).pid = false) ∧
    ∀ s', perform_exit env s = some s' →
      s'.calls =
        (((List.finRange MAX_PROCESSES).filter
            (fun i => decide ((s.process_records i).pid > 0))).map
          (fun i => SysCall.waitpid (s.process_records i).pid false)).reverse ++
        ((((List.finRange MAX_PROCESSES).filter
            (fun i => decide ((s.process_records i).pid > 0 ∧
              (s.process_records i).status ≠ TERMINATED))).map
          (fun i => SysCall.kill (s.process_records i).pid Signal.SIGTERM)).reverse ++
        s.calls) ∧
      (∀ i, (s.process_records i).pid > 0 →
        s'.process_records i =
          { s.process_records i with command := none, priority_str := none }) ∧
      (∀ i, ¬ (s.process_records i).pid > 0 → s'.process_records i = s.process_records i) ∧
      s'.running_count = s.running_count := by
  have h1 := perform_exit_signals_effect (List.finRange MAX_PROCESSES) s
  have hsus := fun pid =>
    perform_exit_signals_suspended env pid (List.finRange MAX_PROCESSES) s
  refine ⟨⟨?_, ?_⟩, ?_⟩
  · rintro ⟨s', hs'⟩ i hp
    have h2 := perform_exit_waits_some env _ _ s' (List.nodup_finRange _) hs'
    have := h2.2.2.2.2 i (List.mem_finRange i) (by rw [h1.1]; exact hp)
    rw [hsus, h1.1] at this
    exact this
  · intro h
    apply perform_exit_waits_returns
    intro i _ hp
    rw [h1.1] at hp ⊢
    rw [hsus]
    exact h i hp
  · intro s' hs'
    have h2 := perform_exit_waits_some env _ _ s' (List.nodup_finRange _) hs'
    rw [h1.1, h1.2.1, h1.2.2] at h2
    refine ⟨h2.2.1, ?_, ?_, h2.1⟩
    · intro i hp
      exact h2.2.2.1 i (List.mem_finRange i) hp
    · intro i hp
      exact h2.2.2.2.1 i (fun hx => hp hx.2)

/-- C17 (the code at the failing input): after three `run` commands and
`stop 100`, the record of pid 100 in slot 0 is `STOPPED` and its child is
suspended; `perform_exit` sends it the terminate signal without continuing
it, so the blocking wait on slot 0 never returns: `perform_exit` does not
return, the waits on the records of pids 104 and 108 in slots 1 and 2 are
never made and no string is released.  The same happens with the `READY`
record of slot 3 after four `run` commands. -/
theorem perform_exit_hangs_on_suspended :
    (demo_stopped.process_records 0).status = STOPPED ∧
    (demo_stopped.process_records 0).pid = 100 ∧
    suspended env_ok demo_stopped.calls 100 = true ∧
    (demo_stopped.process_records 1).pid = 104 ∧
    (demo_stopped.process_records 2).pid = 108 ∧
    perform_exit env_ok demo_stopped = none ∧
    main_iteration 30 env_ok "exit" demo_stopped = none ∧
    (demo4.process_records 3).status = READY ∧
    suspended env_ok demo4.calls (demo4.process_records 3).pid = true ∧
    perform_exit env_ok demo4 = none := by
  refine ⟨by decide, by decide, by decide, by decide, by decide, rfl, rfl, by decide,
    by decide, rfl⟩

end Shell
